import Mathlib

/-!
Verification development for the FEPL compiler front end
(tokenizer - preprocessor - Pratt parser), shallowly embedded from the
TypeScript sources: `src/lexer/tokens.ts`, `src/lexer/lexer.ts`,
`src/preprocessor/preprocessor.ts` and `src/ast/ast.ts`.

Conventions of the embedding:
* source text is a `List Char`; token values are `String`s;
* the anchored regular expressions of `DEFAULT_PATTERNS` are realized as
  deterministic scanners (each pattern's alternatives are keyed by their
  first one or two characters, and a failed match cannot be repaired by
  regex backtracking, so the scanners are exact);
* JavaScript exceptions are `Except` errors;
* the asynchronous include loader is a finite association list from
  resolved paths to file contents.
-/

namespace Fepl

/-- Token kinds, from `tokens.ts` (`enum TokenKind`). -/
inductive TokenKind where
  | EOF
  | Newline
  | Number
  | String
  | TemplateLiteral
  | LineComment
  | BlockComment
  | Preprocessor
  | Identifier
  | OpenBracket
  | CloseBracket
  | OpenCurly
  | CloseCurly
  | OpenParen
  | CloseParen
  | Assignment
  | Equals
  | Not
  | NotEquals
  | Less
  | LessEquals
  | Greater
  | GreaterEquals
  | LogicalOr
  | LogicalAnd
  | Arrow
  | Dot
  | Semicolon
  | Colon
  | Question
  | Comma
  | PlusPlus
  | MinusMinus
  | PlusEquals
  | MinusEquals
  | AmpersandEquals
  | PipeEquals
  | CaretEquals
  | LeftShiftEquals
  | RightShiftEquals
  | UnsignedRightShiftEquals
  | Plus
  | Minus
  | Slash
  | Star
  | Percent
  | Ampersand
  | Pipe
  | Caret
  | Tilde
  | LeftShift
  | RightShift
  | UnsignedRightShift
  | Enum
  | Import
  | From
  | As
  | Var
  | Delete
  | Let
  | Func
  | Return
  | If
  | Else
  | For
  | While
  | In
  deriving DecidableEq, Repr

/-- `type Token = \x7b kind, value \x7d` from `tokens.ts`. -/
structure Token where
  kind : TokenKind
  value : String
  deriving DecidableEq, Repr

/-- JavaScript regex whitespace class `\s` (the code points relevant to the
sources: ASCII whitespace plus NBSP and BOM; the remaining exotic Unicode
space code points never occur in the inputs considered here). -/
def isJsSpace (c : Char) : Bool :=
  c = ' ' || c = '\t' || c = '\n' || c = '\r' ||
  c = '\x0b' || c = '\x0c' || c = ' ' || c = '﻿'

/-- The character class `[^\S\n]` of the horizontal-whitespace pattern:
whitespace that is not a newline. -/
def isHWs (c : Char) : Bool := isJsSpace c && !(c = '\n')

/-- JS regex `.` (dot without the `s` flag): any character except a line
terminator. -/
def isDotChar (c : Char) : Bool :=
  !(c = '\n' || c = '\r' || c = ' ' || c = ' ')

/-- `[a-zA-Z0-9_]`, the identifier-continuation class. -/
def isWordChar (c : Char) : Bool :=
  ('a' ≤ c && c ≤ 'z') || ('A' ≤ c && c ≤ 'Z') || ('0' ≤ c && c ≤ '9') || c = '_'

/-- `[a-zA-Z_]`, the identifier-start class. -/
def isIdentStart (c : Char) : Bool :=
  ('a' ≤ c && c ≤ 'z') || ('A' ≤ c && c ≤ 'Z') || c = '_'

/-- `\d`. -/
def isDigitChar (c : Char) : Bool := '0' ≤ c && c ≤ '9'

/-- Anchored match of a nonempty run `p+`: the matched run and the rest. -/
def takeRun1 (p : Char → Bool) : List Char → Option (List Char × List Char)
  | [] => none
  | c :: rest =>
    if p c then some (c :: rest.takeWhile p, rest.dropWhile p) else none

/-- Lazy scan for the closing `*/` of a block comment
(regex `\/\*[\s\S]*?\*\/`, already past the opening `/*`).
Returns the matched characters (including `*/`) and the rest. -/
def scanBlockComment : List Char → Option (List Char × List Char)
  | [] => none
  | c :: rest =>
    if c = '*' && rest.head? = some '/' then some ([c, '/'], rest.tail)
    else (scanBlockComment rest).map (fun (m, r) => (c :: m, r))

/-- Scan the body of a string literal after the opening quote `q`
(regex `"(?:[^"\\]|\\.)*"` and the single-quoted variant). -/
def scanStringLit (q : Char) : List Char → Option (List Char × List Char)
  | [] => none
  | c :: rest =>
    if c = '\\' then
      match rest with
      | [] => none
      | c2 :: rest2 =>
        if isDotChar c2 then
          (scanStringLit q rest2).map (fun (m, r) => (c :: c2 :: m, r))
        else none
    else if c = q then some ([c], rest)
    else (scanStringLit q rest).map (fun (m, r) => (c :: m, r))

/-- The interpolation span `(?:[^\x7d])*\x7d` after a `$\x7b` opener:
everything up to and including the first closing brace. -/
def braceSplit (l : List Char) : Option (List Char × List Char) :=
  match l.dropWhile (fun ch => !(ch = '\x7d')) with
  | '\x7d' :: r => some (l.takeWhile (fun ch => !(ch = '\x7d')), r)
  | _ => none

theorem braceSplit_rest_lt {l inner r : List Char}
    (h : braceSplit l = some (inner, r)) : r.length < l.length := by
  unfold braceSplit at h
  cases hdw : l.dropWhile (fun ch => !(ch = '\x7d')) with
  | nil => rw [hdw] at h; simp at h
  | cons hd tl =>
    rw [hdw] at h
    have hs := (List.dropWhile_sublist (l := l) (fun ch => !(ch = '\x7d'))).length_le
    rw [hdw] at hs
    split at h
    · rename_i heq
      injection heq with a b
      subst b
      simp only [Option.some.injEq, Prod.mk.injEq] at h
      rw [← h.2]
      simp at hs
      omega
    · simp at h

/-- Scan the body of a template literal after the opening backtick, regex
`(?:[^`\\$]|\\.|\$(?!\t\x7b)|\$\x7b(?:[^\x7d])*\x7d)*` followed by the
closing backtick. -/
def scanTemplate : List Char → Option (List Char × List Char)
  | [] => none
  | c :: rest =>
    if c = '`' then some ([c], rest)
    else if c = '\\' then
      match rest with
      | [] => none
      | c2 :: rest2 =>
        if isDotChar c2 then
          (scanTemplate rest2).map (fun (m, r) => (c :: c2 :: m, r))
        else none
    else if c = '$' then
      match rest with
      | [] => none
      | c2 :: rest1 =>
        if c2 = '\x7b' then
          match hbr : braceSplit rest1 with
          | some (inner, rest2) =>
            (scanTemplate rest2).map (fun (m, r) => (c :: c2 :: (inner ++ '\x7d' :: m), r))
          | none => none
        else (scanTemplate (c2 :: rest1)).map (fun (m, r) => (c :: m, r))
    else (scanTemplate rest).map (fun (m, r) => (c :: m, r))
termination_by cs => cs.length
decreasing_by
  all_goals simp_wf
  all_goals try omega
  · have := braceSplit_rest_lt hbr
    omega

/-- The exact keyword table `KEYWORDS` from `lexer.ts`. -/
def keywordKind (w : String) : Option TokenKind :=
  if w = "enum" then some .Enum
  else if w = "import" then some .Import
  else if w = "from" then some .From
  else if w = "as" then some .As
  else if w = "var" then some .Var
  else if w = "delete" then some .Delete
  else if w = "let" then some .Let
  else if w = "func" then some .Func
  else if w = "return" then some .Return
  else if w = "if" then some .If
  else if w = "else" then some .Else
  else if w = "for" then some .For
  else if w = "while" then some .While
  else if w = "in" then some .In
  else none

/-- The ordered operator / delimiter / punctuation literal patterns of
`DEFAULT_PATTERNS` (multi-character operators first, in source order). -/
def opTable : List (String × TokenKind) :=
  [("=>", .Arrow), ("++", .PlusPlus), ("--", .MinusMinus),
   ("+=", .PlusEquals), ("-=", .MinusEquals), ("==", .Equals), ("!=", .NotEquals),
   ("<=", .LessEquals), (">=", .GreaterEquals), ("||", .LogicalOr), ("&&", .LogicalAnd),
   ("<<=", .LeftShiftEquals), (">>=", .RightShiftEquals), (">>>=", .UnsignedRightShiftEquals),
   ("&=", .AmpersandEquals), ("|=", .PipeEquals), ("^=", .CaretEquals),
   (">>>", .UnsignedRightShift), ("<<", .LeftShift), (">>", .RightShift),
   ("=", .Assignment), ("!", .Not), ("<", .Less), (">", .Greater),
   ("+", .Plus), ("-", .Minus), ("/", .Slash), ("*", .Star), ("%", .Percent),
   ("&", .Ampersand), ("|", .Pipe), ("^", .Caret), ("~", .Tilde),
   ("[", .OpenBracket), ("]", .CloseBracket), ("\x7b", .OpenCurly), ("\x7d", .CloseCurly),
   ("(", .OpenParen), (")", .CloseParen),
   (".", .Dot), (";", .Semicolon), (":", .Colon), ("?", .Question), (",", .Comma)]

/-- First literal pattern of `opTable` matching a prefix of the input. -/
def matchOp (cs : List Char) : Option (String × TokenKind × List Char) :=
  opTable.findSome? fun (p : String × TokenKind) =>
    if p.1.toList.isPrefixOf cs then some (p.1, p.2, cs.drop p.1.toList.length) else none

/-- `COMMENT_TOKENS` from `lexer.ts`. -/
def isCommentKind (k : TokenKind) : Bool :=
  k = .LineComment || k = .BlockComment

/-- The fixed statement-ending set `STMT_ENDERS` from `lexer.ts`. -/
def stmtEnders : List TokenKind :=
  [.Number, .String, .TemplateLiteral, .Identifier,
   .CloseParen, .CloseBracket, .CloseCurly, .PlusPlus, .MinusMinus, .Return]

/-- `Tokenizer.lastNonCommentToken`: last emitted token that is not a
comment token. -/
def lastNonCommentToken (acc : List Token) : Option Token :=
  acc.reverse.find? (fun t => !(isCommentKind t.kind))

/-!
One step of `Tokenizer.tokenize` tries the `DEFAULT_PATTERNS` in order on
the remaining characters and runs the handler of the first match.  The
ordered pattern list is realized as a chain of functions, one per pattern,
each falling through to the next pattern on a failed match.  A step returns
the updated emitted-token list and the remaining characters, or `none` when
no pattern matches (the "Unexpected character" error).
-/

/-- Pattern 11: identifiers and keywords (last pattern; `none` = lex error). -/
def tokStepIdent (acc : List Token) (cs : List Char) : Option (List Token × List Char) :=
  match cs with
  | c :: tl =>
    if isIdentStart c then
      let word : String := ⟨c :: tl.takeWhile isWordChar⟩
      some (acc ++ [⟨(keywordKind word).getD .Identifier, word⟩], tl.dropWhile isWordChar)
    else none
  | [] => none

/-- Pattern 10: operators, delimiters, punctuation (ordered literal table). -/
def tokStepOp (acc : List Token) (cs : List Char) : Option (List Token × List Char) :=
  match matchOp cs with
  | some (s, k, rest) => some (acc ++ [⟨k, s⟩], rest)
  | none => tokStepIdent acc cs

/-- Pattern 9: numbers `\d+(\.\d+)?`. -/
def tokStepNumber (acc : List Token) (cs : List Char) : Option (List Token × List Char) :=
  match takeRun1 isDigitChar cs with
  | some (intPart, rest) =>
    match rest with
    | '.' :: tl2 =>
      match takeRun1 isDigitChar tl2 with
      | some (frac, rest2) => some (acc ++ [⟨.Number, ⟨intPart ++ '.' :: frac⟩⟩], rest2)
      | none => some (acc ++ [⟨.Number, ⟨intPart⟩⟩], rest)
    | _ => some (acc ++ [⟨.Number, ⟨intPart⟩⟩], rest)
  | none => tokStepOp acc cs

/-- Pattern 8: single-quoted string literals. -/
def tokStepSQuote (acc : List Token) (cs : List Char) : Option (List Token × List Char) :=
  match cs with
  | '\'' :: tl =>
    match scanStringLit '\'' tl with
    | some (m, rest) => some (acc ++ [⟨.String, ⟨'\'' :: m⟩⟩], rest)
    | none => none
  | _ => tokStepNumber acc cs

/-- Pattern 7: double-quoted string literals. -/
def tokStepDQuote (acc : List Token) (cs : List Char) : Option (List Token × List Char) :=
  match cs with
  | '"' :: tl =>
    match scanStringLit '"' tl with
    | some (m, rest) => some (acc ++ [⟨.String, ⟨'"' :: m⟩⟩], rest)
    | none => none
  | _ => tokStepSQuote acc cs

/-- Pattern 6: template literals (captured whole, backticks included). -/
def tokStepTemplate (acc : List Token) (cs : List Char) : Option (List Token × List Char) :=
  match cs with
  | '`' :: tl =>
    match scanTemplate tl with
    | some (m, rest) => some (acc ++ [⟨.TemplateLiteral, ⟨'`' :: m⟩⟩], rest)
    | none => none
  | _ => tokStepDQuote acc cs

/-- Pattern 5: preprocessor directive lines `\$[^\n]*`. -/
def tokStepPre (acc : List Token) (cs : List Char) : Option (List Token × List Char) :=
  match cs with
  | '$' :: tl =>
    some (acc ++ [⟨.Preprocessor, ⟨'$' :: tl.takeWhile (fun c => !(c = '\n'))⟩⟩],
          tl.dropWhile (fun c => !(c = '\n')))
  | _ => tokStepTemplate acc cs

/-- Pattern 4: block comments. -/
def tokStepBlock (acc : List Token) (cs : List Char) : Option (List Token × List Char) :=
  match cs with
  | '/' :: '*' :: tl =>
    match scanBlockComment tl with
    | some (m, rest) => some (acc ++ [⟨.BlockComment, ⟨'/' :: '*' :: m⟩⟩], rest)
    | none => none
  | _ => tokStepPre acc cs

/-- Pattern 3: line comments `\/\/[^\n]*`. -/
def tokStepLine (acc : List Token) (cs : List Char) : Option (List Token × List Char) :=
  match cs with
  | '/' :: '/' :: tl =>
    some (acc ++ [⟨.LineComment, ⟨'/' :: '/' :: tl.takeWhile (fun c => !(c = '\n'))⟩⟩],
          tl.dropWhile (fun c => !(c = '\n')))
  | _ => tokStepBlock acc cs

/-- Pattern 2: newline runs `\n+`; the handler emits one `Newline` token
only when the last non-comment token can end a statement. -/
def tokStepNewline (acc : List Token) (cs : List Char) : Option (List Token × List Char) :=
  match takeRun1 (fun c => c = '\n') cs with
  | some (_, rest) =>
    some
      ((match lastNonCommentToken acc with
        | some prev => if prev.kind ∈ stmtEnders then acc ++ [⟨.Newline, "\n"⟩] else acc
        | none => acc), rest)
  | none => tokStepLine acc cs

/-- Pattern 1 and the whole ordered chain: horizontal whitespace is skipped
(nothing emitted), otherwise fall through patterns 2-11. -/
def tokStep (acc : List Token) (cs : List Char) : Option (List Token × List Char) :=
  match takeRun1 isHWs cs with
  | some (_, rest) => some (acc, rest)
  | none => tokStepNewline acc cs

theorem takeRun1_rest_lt {p : Char → Bool} {cs m rest : List Char}
    (h : takeRun1 p cs = some (m, rest)) : rest.length < cs.length := by
  cases cs with
  | nil => simp [takeRun1] at h
  | cons c tl =>
    simp only [takeRun1] at h
    split at h
    · simp only [Option.some.injEq, Prod.mk.injEq] at h
      have := (List.dropWhile_sublist (l := tl) p).length_le
      simp only [← h.2]
      simp only [List.length_cons]
      omega
    · exact absurd h (by simp)

theorem scanBlockComment_rest_le {cs m rest : List Char}
    (h : scanBlockComment cs = some (m, rest)) : rest.length ≤ cs.length := by
  induction cs generalizing m rest with
  | nil => simp [scanBlockComment] at h
  | cons c tl ih =>
    simp only [scanBlockComment] at h
    split at h
    · simp only [Option.some.injEq, Prod.mk.injEq] at h
      rw [← h.2]
      have := List.length_tail tl
      simp only [List.length_cons]
      omega
    · cases hmap : scanBlockComment tl with
      | none => rw [hmap] at h; simp at h
      | some pr =>
        obtain ⟨m2, r2⟩ := pr
        rw [hmap] at h
        simp only [Option.map_some', Option.some.injEq, Prod.mk.injEq] at h
        have := ih hmap
        simp only [List.length_cons, ← h.2]
        omega

theorem scanStringLit_rest_le {q : Char} {cs m rest : List Char}
    (h : scanStringLit q cs = some (m, rest)) : rest.length ≤ cs.length := by
  induction cs using scanStringLit.induct q generalizing m rest with
  | case1 => simp [scanStringLit] at h
  | case2 => simp [scanStringLit] at h
  | case3 c2 tl2 hdot ih =>
    rw [scanStringLit.eq_def] at h
    simp only [hdot, if_true, if_pos rfl] at h
    cases hmap : scanStringLit q tl2 with
    | none => rw [hmap] at h; simp at h
    | some pr =>
      obtain ⟨m2, r2⟩ := pr
      rw [hmap] at h
      simp only [Option.map_some', Option.some.injEq, Prod.mk.injEq] at h
      have := ih hmap
      simp only [List.length_cons, ← h.2]
      omega
  | case4 c2 tl2 hdot =>
    rw [scanStringLit.eq_def] at h
    simp [hdot] at h
  | case5 tl hbs =>
    rw [scanStringLit.eq_def] at h
    simp only [hbs, if_false, eq_self_iff_true, if_true, Option.some.injEq,
      Prod.mk.injEq] at h
    simp [← h.2]
  | case6 c2 tl hbs hq ih =>
    rw [scanStringLit.eq_def] at h
    simp only [hbs, hq, if_false] at h
    cases hmap : scanStringLit q tl with
    | none => rw [hmap] at h; simp at h
    | some pr =>
      obtain ⟨m2, r2⟩ := pr
      rw [hmap] at h
      simp only [Option.map_some', Option.some.injEq, Prod.mk.injEq] at h
      have := ih hmap
      simp only [List.length_cons, ← h.2]
      omega

theorem scanTemplate_rest_le {cs m rest : List Char}
    (h : scanTemplate cs = some (m, rest)) : rest.length ≤ cs.length := by
  induction cs using scanTemplate.induct generalizing m rest with
  | case1 => simp [scanTemplate] at h
  | case2 tl =>
    rw [scanTemplate.eq_def] at h
    simp only [Char.reduceEq, reduceIte, Option.some.injEq, Prod.mk.injEq] at h
    simp [← h.2]
  | case3 => rw [scanTemplate.eq_def] at h; simp at h
  | case4 c2 tl2 hdot _ ih =>
    rw [scanTemplate.eq_def] at h
    simp only [Char.reduceEq, reduceIte, hdot, if_true] at h
    cases hmap : scanTemplate tl2 with
    | none => rw [hmap] at h; simp at h
    | some pr =>
      obtain ⟨m2, r2⟩ := pr
      rw [hmap] at h
      simp only [Option.map_some', Option.some.injEq, Prod.mk.injEq] at h
      have := ih hmap
      simp only [List.length_cons, ← h.2]
      omega
  | case5 c2 tl2 hdot _ =>
    rw [scanTemplate.eq_def] at h
    simp [hdot] at h
  | case6 =>
    rw [scanTemplate.eq_def] at h
    simp at h
  | case7 tl1 inner tl2 hbr _ _ ih =>
    rw [scanTemplate.eq_def] at h
    simp only [Char.reduceEq, reduceIte] at h
    split at h
    · rename_i inner2 rest2 heq
      rw [hbr] at heq
      injection heq with heq2
      injection heq2 with ha hb
      subst ha
      subst hb
      cases hmap : scanTemplate tl2 with
      | none => rw [hmap] at h; simp at h
      | some pr =>
        obtain ⟨m2, r2⟩ := pr
        rw [hmap] at h
        simp only [Option.map_some', Option.some.injEq, Prod.mk.injEq] at h
        have h1 := ih hmap
        have h2 := braceSplit_rest_lt hbr
        simp only [List.length_cons, ← h.2]
        omega
    · rename_i heq
      rw [hbr] at heq
      simp at heq
  | case8 tl1 hbr _ _ =>
    rw [scanTemplate.eq_def] at h
    simp only [Char.reduceEq, reduceIte] at h
    split at h
    · rename_i inner2 rest2 heq
      rw [hbr] at heq
      simp at heq
    · simp at h
  | case9 c2 tl hc2 _ _ ih =>
    rw [scanTemplate.eq_def] at h
    simp only [Char.reduceEq, reduceIte, hc2, if_false] at h
    cases hmap : scanTemplate (c2 :: tl) with
    | none => rw [hmap] at h; simp at h
    | some pr =>
      obtain ⟨m2, r2⟩ := pr
      rw [hmap] at h
      simp only [Option.map_some', Option.some.injEq, Prod.mk.injEq] at h
      have := ih hmap
      simp only [List.length_cons] at *
      rw [← h.2]
      omega
  | case10 c2 tl hbt hbs hds ih =>
    rw [scanTemplate.eq_def] at h
    simp only [Char.reduceEq, reduceIte, hbt, hbs, hds, if_false] at h
    cases hmap : scanTemplate tl with
    | none => rw [hmap] at h; simp at h
    | some pr =>
      obtain ⟨m2, r2⟩ := pr
      rw [hmap] at h
      simp only [Option.map_some', Option.some.injEq, Prod.mk.injEq] at h
      have := ih hmap
      simp only [List.length_cons, ← h.2]
      omega

theorem matchOp_rest_lt {cs : List Char} {s : String} {k : TokenKind} {rest : List Char}
    (h : matchOp cs = some (s, k, rest)) : rest.length < cs.length := by
  have key : ∀ (tbl : List (String × TokenKind)), (∀ e ∈ tbl, e.1.toList ≠ []) →
      tbl.findSome? (fun (p : String × TokenKind) =>
        if p.1.toList.isPrefixOf cs then some (p.1, p.2, cs.drop p.1.toList.length) else none) =
        some (s, k, rest) →
      rest.length < cs.length := by
    intro tbl htbl hfind
    induction tbl with
    | nil => simp [List.findSome?] at hfind
    | cons e tl ih =>
      rw [List.findSome?_cons] at hfind
      cases hpref : e.1.toList.isPrefixOf cs with
      | true =>
        simp only [hpref, if_true] at hfind
        simp only [Option.some.injEq, Prod.mk.injEq] at hfind
        obtain ⟨h1, h2, h3⟩ := hfind
        have hne := htbl e (by simp)
        have hlen : e.1.toList.length ≤ cs.length :=
          (List.isPrefixOf_iff_prefix.mp hpref).length_le
        rw [← h3]
        have : 1 ≤ e.1.toList.length := by
          cases hv : e.1.toList with
          | nil => exact absurd hv hne
          | cons _ _ => simp
        simp only [List.length_drop]
        omega
      | false =>
        simp only [hpref, Bool.false_eq_true, if_false] at hfind
        exact ih (fun x hx => htbl x (by simp [hx])) hfind
  exact key opTable (by decide) h

theorem tokStepIdent_rest_lt {acc acc2 : List Token} {cs rest : List Char}
    (h : tokStepIdent acc cs = some (acc2, rest)) : rest.length < cs.length := by
  unfold tokStepIdent at h
  cases cs with
  | nil => simp at h
  | cons c tl =>
    by_cases hc : isIdentStart c
    · simp only [hc, if_true] at h
      simp only [Option.some.injEq, Prod.mk.injEq] at h
      rw [← h.2]
      have := (List.dropWhile_sublist (l := tl) isWordChar).length_le
      simp only [List.length_cons]
      omega
    · simp [hc] at h

theorem tokStepOp_rest_lt {acc acc2 : List Token} {cs rest : List Char}
    (h : tokStepOp acc cs = some (acc2, rest)) : rest.length < cs.length := by
  unfold tokStepOp at h
  cases hop : matchOp cs with
  | none => rw [hop] at h; exact tokStepIdent_rest_lt h
  | some pr =>
    obtain ⟨s, k, r⟩ := pr
    rw [hop] at h
    simp only [Option.some.injEq, Prod.mk.injEq] at h
    exact h.2 ▸ matchOp_rest_lt hop

theorem tokStepNumber_rest_lt {acc acc2 : List Token} {cs rest : List Char}
    (h : tokStepNumber acc cs = some (acc2, rest)) : rest.length < cs.length := by
  unfold tokStepNumber at h
  cases hrun : takeRun1 isDigitChar cs with
  | none => rw [hrun] at h; exact tokStepOp_rest_lt h
  | some pr =>
    obtain ⟨intPart, r⟩ := pr
    rw [hrun] at h
    simp only [] at h
    have hlt := takeRun1_rest_lt hrun
    cases r with
    | nil =>
      simp only [] at h
      simp only [Option.some.injEq, Prod.mk.injEq] at h
      exact h.2 ▸ hlt
    | cons c1 tl2 =>
      by_cases hdot : c1 = '.'
      · subst hdot
        simp only [] at h
        cases hrun2 : takeRun1 isDigitChar tl2 with
        | none =>
          rw [hrun2] at h
          simp only [] at h
          simp only [Option.some.injEq, Prod.mk.injEq] at h
          exact h.2 ▸ hlt
        | some pr2 =>
          obtain ⟨frac, r2⟩ := pr2
          rw [hrun2] at h
          simp only [] at h
          simp only [Option.some.injEq, Prod.mk.injEq] at h
          rw [← h.2]
          have := takeRun1_rest_lt hrun2
          simp only [List.length_cons] at hlt
          omega
      · split at h
        · rename_i heq
          injection heq with ha hb
          exact absurd ha hdot
        · simp only [Option.some.injEq, Prod.mk.injEq] at h
          exact h.2 ▸ hlt

theorem tokStepSQuote_rest_lt {acc acc2 : List Token} {cs rest : List Char}
    (h : tokStepSQuote acc cs = some (acc2, rest)) : rest.length < cs.length := by
  unfold tokStepSQuote at h
  split at h
  · rename_i tl
    cases hscan : scanStringLit '\'' tl with
    | none => rw [hscan] at h; simp at h
    | some pr =>
      obtain ⟨m2, r2⟩ := pr
      rw [hscan] at h
      simp only [Option.some.injEq, Prod.mk.injEq] at h
      rw [← h.2]
      have := scanStringLit_rest_le hscan
      simp only [List.length_cons]
      omega
  · exact tokStepNumber_rest_lt h

theorem tokStepDQuote_rest_lt {acc acc2 : List Token} {cs rest : List Char}
    (h : tokStepDQuote acc cs = some (acc2, rest)) : rest.length < cs.length := by
  unfold tokStepDQuote at h
  split at h
  · rename_i tl
    cases hscan : scanStringLit '"' tl with
    | none => rw [hscan] at h; simp at h
    | some pr =>
      obtain ⟨m2, r2⟩ := pr
      rw [hscan] at h
      simp only [Option.some.injEq, Prod.mk.injEq] at h
      rw [← h.2]
      have := scanStringLit_rest_le hscan
      simp only [List.length_cons]
      omega
  · exact tokStepSQuote_rest_lt h

theorem tokStepTemplate_rest_lt {acc acc2 : List Token} {cs rest : List Char}
    (h : tokStepTemplate acc cs = some (acc2, rest)) : rest.length < cs.length := by
  unfold tokStepTemplate at h
  split at h
  · rename_i tl
    cases hscan : scanTemplate tl with
    | none => rw [hscan] at h; simp at h
    | some pr =>
      obtain ⟨m2, r2⟩ := pr
      rw [hscan] at h
      simp only [Option.some.injEq, Prod.mk.injEq] at h
      rw [← h.2]
      have := scanTemplate_rest_le hscan
      simp only [List.length_cons]
      omega
  · exact tokStepDQuote_rest_lt h

theorem tokStepPre_rest_lt {acc acc2 : List Token} {cs rest : List Char}
    (h : tokStepPre acc cs = some (acc2, rest)) : rest.length < cs.length := by
  unfold tokStepPre at h
  split at h
  · rename_i tl
    simp only [Option.some.injEq, Prod.mk.injEq] at h
    rw [← h.2]
    have := (List.dropWhile_sublist (l := tl) (fun c => !(c = '\n'))).length_le
    simp only [List.length_cons]
    omega
  · exact tokStepTemplate_rest_lt h

theorem tokStepBlock_rest_lt {acc acc2 : List Token} {cs rest : List Char}
    (h : tokStepBlock acc cs = some (acc2, rest)) : rest.length < cs.length := by
  unfold tokStepBlock at h
  split at h
  · rename_i tl
    cases hscan : scanBlockComment tl with
    | none => rw [hscan] at h; simp at h
    | some pr =>
      obtain ⟨m2, r2⟩ := pr
      rw [hscan] at h
      simp only [Option.some.injEq, Prod.mk.injEq] at h
      rw [← h.2]
      have := scanBlockComment_rest_le hscan
      simp only [List.length_cons]
      omega
  · exact tokStepPre_rest_lt h

theorem tokStepLine_rest_lt {acc acc2 : List Token} {cs rest : List Char}
    (h : tokStepLine acc cs = some (acc2, rest)) : rest.length < cs.length := by
  unfold tokStepLine at h
  split at h
  · rename_i tl
    simp only [Option.some.injEq, Prod.mk.injEq] at h
    rw [← h.2]
    have := (List.dropWhile_sublist (l := tl) (fun c => !(c = '\n'))).length_le
    simp only [List.length_cons]
    omega
  · exact tokStepBlock_rest_lt h

theorem tokStepNewline_rest_lt {acc acc2 : List Token} {cs rest : List Char}
    (h : tokStepNewline acc cs = some (acc2, rest)) : rest.length < cs.length := by
  unfold tokStepNewline at h
  cases hrun : takeRun1 (fun c => c = '\n') cs with
  | none => rw [hrun] at h; exact tokStepLine_rest_lt h
  | some pr =>
    obtain ⟨m2, r2⟩ := pr
    rw [hrun] at h
    simp only [Option.some.injEq, Prod.mk.injEq] at h
    exact h.2 ▸ takeRun1_rest_lt hrun

theorem tokStep_rest_lt {acc acc2 : List Token} {cs rest : List Char}
    (h : tokStep acc cs = some (acc2, rest)) : rest.length < cs.length := by
  unfold tokStep at h
  cases hrun : takeRun1 isHWs cs with
  | none => rw [hrun] at h; exact tokStepNewline_rest_lt h
  | some pr =>
    obtain ⟨m2, r2⟩ := pr
    rw [hrun] at h
    simp only [Option.some.injEq, Prod.mk.injEq] at h
    exact h.2 ▸ takeRun1_rest_lt hrun

/-- `Tokenizer.tokenize`: run patterns until the input is exhausted, then
push the EOF sentinel.  A position where no pattern matches is the
"Unexpected character" lex error, reported as that character. -/
def tokenizeCore : List Char → List Token → Except Char (List Token)
  | [], acc => .ok (acc ++ [⟨.EOF, ""⟩])
  | c :: tl, acc =>
    match h : tokStep acc (c :: tl) with
    | some (acc2, rest) => tokenizeCore rest acc2
    | none => .error c
termination_by cs _ => cs.length
decreasing_by
  have := tokStep_rest_lt h
  simp only [List.length_cons] at this
  simp_wf
  omega

/-- `new Tokenizer(source).tokenize()`. -/
def tokenize (source : String) : Except Char (List Token) :=
  tokenizeCore source.toList []

/-!
## Preprocessor (`src/preprocessor/preprocessor.ts`)
-/

/-- `PreprocessorDirective` (tagged union). -/
inductive Directive where
  | includeD (source : String)
  | define (name : String) (value : String) (parameters : Option (List String))
  | undefine (name : String)
  | ifD (condition : String)
  | elifD (condition : String)
  | elseD
  deriving DecidableEq, Repr

/-- `ParsedDirective = PreprocessorDirective | \x7b kind: "ifEnd" \x7d`. -/
inductive ParsedDirective where
  | dir (d : Directive)
  | ifEnd
  deriving DecidableEq, Repr

/-- The preprocessor's thrown `Error`s, one constructor per throw site. -/
inductive PPErr where
  | lex (c : Char)
  | unexpectedFi
  | unexpectedChain (kind : String)
  | circularInclude (source : String)
  | includeNotFound (path : String)
  | includeContent (path : String)
  | elifAfterElse
  | fiBeforeBrace
  | missingFi
  | ifNoCondition
  | elifNoCondition
  | invalidDirective (raw : String)
  | includeNoPath
  | defineNoValue (name : String)
  | defineBadName (arg : String)
  | defineUnterminatedParams (name : String)
  | defineBadParam (name : String) (parameter : String)
  | defineDupParam (name : String) (parameter : String)
  | undefineBadName (arg : String)
  | unknownDirective (name : String)
  | depthExceeded
  | macroArity (name : String) (expected : Nat) (got : Nat)
  | unbalancedInvocation
  | unclosedInvocation (name : String)
  | invalidConstantName (name : String)
  deriving DecidableEq, Repr

/-- JS `String.prototype.trim` over the whitespace class `\s`. -/
def jsTrimList (cs : List Char) : List Char :=
  ((cs.dropWhile isJsSpace).reverse.dropWhile isJsSpace).reverse

/-- JS `String.prototype.trim`. -/
def jsTrim (s : String) : String := ⟨jsTrimList s.toList⟩

/-- The exact-identifier regex `^[A-Za-z_][A-Za-z0-9_]*$`. -/
def isValidIdent (s : String) : Bool :=
  match s.toList with
  | [] => false
  | c :: tl => isIdentStart c && tl.all isWordChar

/-- JS `String.prototype.split(",")`. -/
def splitOnComma (cs : List Char) : List (List Char) :=
  match cs with
  | [] => [[]]
  | c :: tl =>
    let rest := splitOnComma tl
    if c = ',' then [] :: rest
    else
      match rest with
      | hd :: tl2 => (c :: hd) :: tl2
      | [] => [[c]]

/-- `parseDefineArguments` from `preprocessor.ts`. -/
def parseDefineArguments (arg : String) :
    Except PPErr (String × Option (List String) × String) := do
  let cs := arg.toList
  match cs with
  | [] => .error (.defineBadName arg)
  | c :: tl =>
    if !(isIdentStart c) then .error (.defineBadName arg)
    else
      let name : String := ⟨c :: tl.takeWhile isWordChar⟩
      let rest0 := tl.dropWhile isWordChar
      match rest0 with
      | '(' :: _ =>
        -- `rest.indexOf(")")` over the whole remainder
        match (rest0.dropWhile (fun ch => !(ch = ')'))) with
        | ')' :: afterParen =>
          let inside := (rest0.takeWhile (fun ch => !(ch = ')'))).drop 1
          let rawParameters := jsTrimList inside
          let parameters : List String :=
            if rawParameters = [] then []
            else (splitOnComma rawParameters).map (fun p => jsTrim ⟨p⟩)
          -- validate: identifier shape and no duplicates, in order
          let rec check (seen : List String) : List String → Except PPErr Unit
            | [] => .ok ()
            | p :: ps =>
              if !(isValidIdent p) then .error (.defineBadParam name p)
              else if p ∈ seen then .error (.defineDupParam name p)
              else check (p :: seen) ps
          check [] parameters
          .ok (name, some parameters, jsTrim ⟨afterParen⟩)
        | _ => .error (.defineUnterminatedParams name)
      | _ => .ok (name, none, jsTrim ⟨rest0⟩)

/-- The split of regex `^\$if\s*(.*?)\s*\$\x7b\s*$` (after the `$if`
prefix): the unique position of a `$\x7b` that is followed only by
whitespace; everything before it is the raw condition span. -/
def ifCondSplit (t : List Char) : Option (List Char) :=
  ((List.range (t.length + 1)).find? (fun k =>
    decide ((t.drop k).take 2 = ['$', '\x7b']) &&
    (t.drop (k + 2)).all isJsSpace)).map (fun k => t.take k)

/-- Matcher for regex `^\$else\s+\$\x7b\s*$` (after the `$else` prefix). -/
def elseTailMatches (t : List Char) : Bool :=
  match t with
  | c :: _ =>
    isJsSpace c &&
    (let u := t.dropWhile isJsSpace
     decide (u.take 2 = ['$', '\x7b']) && (u.drop 2).all isJsSpace)
  | [] => false

/-- `parseDirectiveToken` from `preprocessor.ts`. -/
def parseDirectiveToken (token : Token) : Except PPErr ParsedDirective := do
  let raw := jsTrim token.value
  if raw = "$fi" then .ok .ifEnd
  else if h : raw.toList.take 3 = ['$', 'i', 'f'] ∧ (ifCondSplit (raw.toList.drop 3)).isSome then
    let condition := jsTrim ⟨(ifCondSplit (raw.toList.drop 3)).getD []⟩
    if condition = "" then .error .ifNoCondition
    else .ok (.dir (.ifD condition))
  else if h : raw.toList.take 5 = ['$', 'e', 'l', 'i', 'f'] ∧
      (ifCondSplit (raw.toList.drop 5)).isSome then
    let condition := jsTrim ⟨(ifCondSplit (raw.toList.drop 5)).getD []⟩
    if condition = "" then .error .elifNoCondition
    else .ok (.dir (.elifD condition))
  else if raw.toList.take 5 = ['$', 'e', 'l', 's', 'e'] ∧
      elseTailMatches (raw.toList.drop 5) then
    .ok (.dir .elseD)
  else
    -- generic `^\$(\w+)(?:\s+(.+))?$`
    match raw.toList with
    | '$' :: tl =>
      let nameChars := tl.takeWhile isWordChar
      let after := tl.dropWhile isWordChar
      if nameChars = [] then .error (.invalidDirective raw)
      else
        let name : String := ⟨nameChars⟩
        let arg : String ←
          match after with
          | [] => .ok ""
          | c :: _ =>
            if isJsSpace c then .ok (jsTrim ⟨after⟩)
            else .error (.invalidDirective raw)
        if name = "include" then
          if arg.toList.length = 0 then .error .includeNoPath
          else .ok (.dir (.includeD arg))
        else if name = "define" then do
          let (macroName, parameters, macroValue) ← parseDefineArguments arg
          if macroValue.toList.length = 0 then .error (.defineNoValue macroName)
          else .ok (.dir (.define macroName macroValue parameters))
        else if name = "undefine" then
          if !(isValidIdent arg) then .error (.undefineBadName arg)
          else .ok (.dir (.undefine arg))
        else .error (.unknownDirective name)
    | _ => .error (.invalidDirective raw)

/-- `isTrivia` from `preprocessor.ts`. -/
def isTrivia (kind : TokenKind) : Bool :=
  kind = .Newline || kind = .LineComment || kind = .BlockComment

/-- `stringifyTokens`: join the values and trim. -/
def stringifyTokens (tokens : List Token) : String :=
  jsTrim ⟨(tokens.map (fun t => t.value.toList)).flatten⟩

/-- `MacroDefinition`. -/
structure MacroDefinition where
  parameters : Option (List String)
  replacement : List Token
  deriving DecidableEq, Repr

/-- `MacroMap = Map<string, MacroDefinition>`: an association list in
insertion order (JS `Map` keeps insertion order; `set` of an existing key
updates in place). -/
def MacroMap := List (String × MacroDefinition)
  deriving DecidableEq

/-- `Map.prototype.get`. -/
def macroGet (m : MacroMap) (k : String) : Option MacroDefinition :=
  ((m : List (String × MacroDefinition)).find? (fun e => e.1 = k)).map (fun e => e.2)

/-- `Map.prototype.set`. -/
def macroSet : MacroMap → String → MacroDefinition → MacroMap
  | [], k, v => [(k, v)]
  | e :: tl, k, v => if e.1 = k then (k, v) :: tl else e :: macroSet tl k v

/-- `Map.prototype.delete`. -/
def macroDelete (m : MacroMap) (k : String) : MacroMap :=
  (m : List (String × MacroDefinition)).filter (fun e => !(e.1 = k))

/-- `Map.prototype.has`. -/
def macroHas (m : MacroMap) (k : String) : Bool :=
  (macroGet m k).isSome

/-- `tokenizeMacroValue`: tokenize, drop the EOF sentinel, drop newline and
preprocessor tokens. -/
def tokenizeMacroValue (value : String) : Except PPErr (List Token) :=
  match tokenize value with
  | .error c => .error (.lex c)
  | .ok ts => .ok ((ts.dropLast).filter (fun t => !(t.kind = .Newline || t.kind = .Preprocessor)))

/-- `cloneTokens`: structural copies (`\x7b ...token \x7d`); tokens are
immutable values in this embedding, so a clone rebuilds the same value. -/
def cloneTokens (tokens : List Token) : List Token :=
  tokens.map (fun t => ⟨t.kind, t.value⟩)

/-- The argument scan of `parseMacroInvocation`, from just after the opening
parenthesis: split on commas not nested inside `(`, `[`, `\x7b` (each depth
tracked independently), and stop at the balancing `)`.  Returns the argument
lists and the tokens after the closing parenthesis. -/
def scanMacroArgs (macroName : String) :
    List Token → List Token → List (List Token) → Nat → Nat → Nat → Bool →
    Except PPErr (List (List Token) × List Token)
  | [], _, _, _, _, _, _ => .error (.unclosedInvocation macroName)
  | token :: tl, currentArg, args, depthParen, depthBracket, depthCurly, sawComma =>
    if token.kind = .OpenParen then
      scanMacroArgs macroName tl (currentArg ++ [token]) args (depthParen + 1)
        depthBracket depthCurly sawComma
    else if token.kind = .CloseParen then
      if 0 < depthParen then
        scanMacroArgs macroName tl (currentArg ++ [token]) args (depthParen - 1)
          depthBracket depthCurly sawComma
      else if !(depthBracket = 0) || !(depthCurly = 0) then .error .unbalancedInvocation
      else if sawComma || 0 < currentArg.length then .ok (args ++ [currentArg], tl)
      else .ok (args, tl)
    else if token.kind = .OpenBracket then
      scanMacroArgs macroName tl (currentArg ++ [token]) args depthParen
        (depthBracket + 1) depthCurly sawComma
    else if token.kind = .CloseBracket then
      scanMacroArgs macroName tl (currentArg ++ [token]) args depthParen
        (depthBracket - 1) depthCurly sawComma
    else if token.kind = .OpenCurly then
      scanMacroArgs macroName tl (currentArg ++ [token]) args depthParen
        depthBracket (depthCurly + 1) sawComma
    else if token.kind = .CloseCurly then
      scanMacroArgs macroName tl (currentArg ++ [token]) args depthParen
        depthBracket (depthCurly - 1) sawComma
    else if token.kind = .Comma && depthParen = 0 && depthBracket = 0 && depthCurly = 0 then
      scanMacroArgs macroName tl [] (args ++ [currentArg]) depthParen
        depthBracket depthCurly true
    else
      scanMacroArgs macroName tl (currentArg ++ [token]) args depthParen
        depthBracket depthCurly sawComma

/-- `parseMacroInvocation`, list form: `after` is the token list following
the macro identifier.  `none` means no `(` follows (skipping trivia), so the
name stays a plain reference and nothing is consumed. -/
def parseMacroInvocation (macroName : String) (after : List Token) :
    Except PPErr (Option (List (List Token) × List Token)) :=
  match after.dropWhile (fun t => isTrivia t.kind) with
  | t :: tl =>
    if t.kind = .OpenParen then
      match scanMacroArgs macroName tl [] [] 0 0 0 false with
      | .error e => .error e
      | .ok (args, remaining) => .ok (some (args, remaining))
    else .ok none
  | [] => .ok none

theorem scanMacroArgs_remaining_lt {macroName : String} {l currentArg : List Token}
    {args : List (List Token)} {dp db dc : Nat} {sawComma : Bool}
    {res : List (List Token)} {remaining : List Token}
    (h : scanMacroArgs macroName l currentArg args dp db dc sawComma =
      .ok (res, remaining)) : remaining.length < l.length := by
  induction l generalizing currentArg args dp db dc sawComma res remaining with
  | nil => simp [scanMacroArgs] at h
  | cons token tl ih =>
    simp only [scanMacroArgs] at h
    split at h
    · exact lt_of_lt_of_le (ih h) (by simp)
    · split at h
      · split at h
        · exact lt_of_lt_of_le (ih h) (by simp)
        · split at h
          · simp at h
          · split at h
            · simp only [Except.ok.injEq, Prod.mk.injEq] at h
              rw [← h.2]
              simp
            · simp only [Except.ok.injEq, Prod.mk.injEq] at h
              rw [← h.2]
              simp
      · split at h
        · exact lt_of_lt_of_le (ih h) (by simp)
        · split at h
          · exact lt_of_lt_of_le (ih h) (by simp)
          · split at h
            · exact lt_of_lt_of_le (ih h) (by simp)
            · split at h
              · exact lt_of_lt_of_le (ih h) (by simp)
              · split at h
                · exact lt_of_lt_of_le (ih h) (by simp)
                · exact lt_of_lt_of_le (ih h) (by simp)

theorem parseMacroInvocation_remaining_lt {macroName : String} {after : List Token}
    {args : List (List Token)} {remaining : List Token}
    (h : parseMacroInvocation macroName after = .ok (some (args, remaining))) :
    remaining.length < after.length := by
  unfold parseMacroInvocation at h
  cases hdw : after.dropWhile (fun t => isTrivia t.kind) with
  | nil => rw [hdw] at h; simp at h
  | cons t tl =>
    rw [hdw] at h
    simp only [] at h
    have hlen := (List.dropWhile_sublist (l := after) (fun t => isTrivia t.kind)).length_le
    rw [hdw] at hlen
    simp only [List.length_cons] at hlen
    split at h
    · cases hscan : scanMacroArgs macroName tl [] [] 0 0 0 false with
      | error e => rw [hscan] at h; simp at h
      | ok pr =>
        obtain ⟨res, rem⟩ := pr
        rw [hscan] at h
        simp only [Except.ok.injEq, Option.some.injEq, Prod.mk.injEq] at h
        have := scanMacroArgs_remaining_lt hscan
        rw [← h.2]
        omega
    · simp at h

/-- `expandTokens`: recursive macro expansion with the depth bound 24.
Total by well-founded recursion on `(25 - depth, tokens.length)`: nested
re-expansion strictly increases `depth` (checked against the bound on
entry), and the loop over the remaining tokens strictly shrinks the list. -/
def expandTokens (macros : MacroMap) (depth : Nat) (tokens : List Token) :
    Except PPErr (List Token) :=
  if 24 < depth then .error .depthExceeded
  else
    match tokens with
    | [] => .ok []
    | token :: rest =>
      if token.kind = .Identifier then
        match macroGet macros token.value with
        | none => (fun ts => token :: ts) <$> expandTokens macros depth rest
        | some mac =>
          match mac.parameters with
          | none =>
            if mac.replacement.length = 1 &&
                (match mac.replacement with
                 | [r] => r.kind = .Identifier && r.value = token.value
                 | _ => false) then
              (fun ts => token :: ts) <$> expandTokens macros depth rest
            else do
              let exp ← expandTokens macros (depth + 1) (cloneTokens mac.replacement)
              let restExp ← expandTokens macros depth rest
              .ok (exp ++ restExp)
          | some parameters =>
            match hinv : parseMacroInvocation token.value rest with
            | .error e => .error e
            | .ok none => (fun ts => token :: ts) <$> expandTokens macros depth rest
            | .ok (some (arguments, remaining)) =>
              if !(arguments.length = parameters.length) then
                .error (.macroArity token.value parameters.length arguments.length)
              else
                let argumentMap := parameters.zip (arguments.map cloneTokens)
                let replaced := mac.replacement.flatMap (fun rt =>
                  if !(rt.kind = .Identifier) then [rt]
                  else (((argumentMap.find? (fun e => e.1 = rt.value)).map
                    (fun e => e.2)).getD [rt]))
                do
                  let exp ← expandTokens macros (depth + 1) (cloneTokens replaced)
                  let restExp ← expandTokens macros depth remaining
                  .ok (exp ++ restExp)
      else (fun ts => token :: ts) <$> expandTokens macros depth rest
termination_by (25 - depth, tokens.length)
decreasing_by
  all_goals simp_wf
  all_goals try (first
    | (apply Prod.Lex.right; simp)
    | (apply Prod.Lex.left; omega))
  all_goals have := parseMacroInvocation_remaining_lt hinv
  all_goals apply Prod.Lex.right
  all_goals omega

/-- `evaluateIfCondition` from `preprocessor.ts`: re-tokenize and
macro-expand the condition text, then branch as the code does. -/
def evaluateIfCondition (condition : String) (macros : MacroMap) :
    Except PPErr Bool := do
  let raw ← tokenizeMacroValue condition
  let expanded ← expandTokens macros 0 raw
  let tokens := expanded.filter (fun t => !(isTrivia t.kind))
  if tokens.length = 0 then .ok false
  else
    match hfi : tokens.findIdx? (fun t => t.kind = .Equals || t.kind = .NotEquals) with
    | some eqIndex =>
      if 0 < eqIndex && eqIndex < tokens.length - 1 then
        let left := stringifyTokens (tokens.take eqIndex)
        let right := stringifyTokens (tokens.drop (eqIndex + 1))
        .ok (if (tokens.get? eqIndex).any (fun t => t.kind = .Equals) then
          left = right else !(left = right))
      else evalIfFallback tokens macros
    | none => evalIfFallback tokens macros
where
  /-- The single-identifier and truthiness branches shared by both
  no-comparison paths. -/
  evalIfFallback (tokens : List Token) (macros : MacroMap) : Except PPErr Bool :=
    if h : tokens.length = 1 ∧ (tokens.get? 0).any (fun t => t.kind = .Identifier) then
      match tokens with
      | [t] =>
        if t.value = "true" then .ok true
        else if t.value = "false" then .ok false
        else .ok (macroHas macros t.value)
      | _ => .ok false
    else
      let text := (stringifyTokens tokens).toLower
      .ok (!(text = "" || text = "0" || text = "false" || text = "null" ||
        text = "undefined"))

/-- One branch of an `$if` chain. -/
structure IfBranch where
  directive : Directive
  bodyTokens : List Token
  deriving DecidableEq, Repr

/-- The non-boundary part of the `collectIfChain` loop body: every
non-boundary token is pushed onto the current branch body, and only the
nested-`$if` depth changes (`$if` opens, `$fi` closes, a `$fi` at depth 0 is
an error).  Returns the new nesting depth. -/
def collectStepDepth (token : Token) (nestedIfDepth : Nat) : Except PPErr Nat :=
  if !(token.kind = .Preprocessor) then .ok nestedIfDepth
  else
    match parseDirectiveToken token with
    | .error e => .error e
    | .ok (.dir (.ifD _)) => .ok (nestedIfDepth + 1)
    | .ok .ifEnd =>
      if nestedIfDepth = 0 then .error .fiBeforeBrace
      else .ok (nestedIfDepth - 1)
    | .ok _ => .ok nestedIfDepth

/-- `collectIfChain`, list form.  `rest` is the token list after the `$if`
directive token; the result is the collected branches and the tokens after
the terminating `$fi`.  State mirrors the source loop: current branch
directive and body, already-collected branches, nested-`$if` depth and the
seen-`$else` flag. -/
def collectIfChain (rest : List Token) (currentDirective : Directive)
    (currentBody : List Token) (branches : List IfBranch)
    (nestedIfDepth : Nat) (seenElse : Bool) :
    Except PPErr (List IfBranch × List Token) :=
  match rest with
  | [] => .error .missingFi
  | token :: tl =>
    let step : Unit → Except PPErr (List IfBranch × List Token) := fun _ =>
      match collectStepDepth token nestedIfDepth with
      | .error e => .error e
      | .ok d2 =>
        collectIfChain tl currentDirective (currentBody ++ [token]) branches d2 seenElse
    if nestedIfDepth = 0 && token.kind = .CloseCurly then
      match hpr : tl.dropWhile (fun t => isTrivia t.kind) with
      | next :: tl2 =>
        if next.kind = .Preprocessor then
          match parseDirectiveToken next with
          | .error e => .error e
          | .ok .ifEnd =>
            .ok (branches ++ [⟨currentDirective, currentBody⟩], tl2)
          | .ok (.dir (.elifD c)) =>
            if seenElse then .error .elifAfterElse
            else
              collectIfChain tl2 (.elifD c) []
                (branches ++ [⟨currentDirective, currentBody⟩]) 0 seenElse
          | .ok (.dir .elseD) =>
            if seenElse then .error .elifAfterElse
            else
              collectIfChain tl2 .elseD []
                (branches ++ [⟨currentDirective, currentBody⟩]) 0 true
          | .ok _ => step ()
        else step ()
      | [] => step ()
    else step ()
termination_by rest.length
decreasing_by
  all_goals simp_wf
  all_goals try omega
  all_goals
    (have hle := (List.dropWhile_sublist (l := rest) (fun t => isTrivia t.kind)).length_le
     rw [hpr] at hle
     simp only [List.length_cons] at hle
     omega)

theorem collectIfChain_step_bounds {n : Nat}
    (ih : ∀ (rest : List Token) (cd : Directive) (cb : List Token)
      (br : List IfBranch) (d : Nat) (se : Bool) (res : List IfBranch)
      (after : List Token),
      rest.length ≤ n →
      collectIfChain rest cd cb br d se = .ok (res, after) →
      after.length ≤ rest.length ∧
        ∀ b ∈ res, b ∈ br ∨ b.bodyTokens.length ≤ cb.length + rest.length)
    {token : Token} {tl : List Token} {cd : Directive} {cb : List Token}
    {br : List IfBranch} {d : Nat} {se : Bool} {res : List IfBranch}
    {after : List Token} (hlen2 : tl.length ≤ n)
    (h : (match collectStepDepth token d with
          | .error e => (.error e : Except PPErr (List IfBranch × List Token))
          | .ok d2 =>
            collectIfChain tl cd (cb ++ [token]) br d2 se) = .ok (res, after)) :
    after.length ≤ (token :: tl).length ∧
      ∀ b ∈ res, b ∈ br ∨ b.bodyTokens.length ≤ cb.length + (token :: tl).length := by
  cases hsd : collectStepDepth token d with
  | error e => rw [hsd] at h; exact absurd h (by simp)
  | ok d2 =>
    rw [hsd] at h
    obtain ⟨h1, h2⟩ := ih _ _ _ _ _ _ _ _ hlen2 h
    constructor
    · simp only [List.length_cons]
      omega
    · intro b hb
      rcases h2 b hb with hmem | hlb
      · exact Or.inl hmem
      · right
        simp only [List.length_append, List.length_cons, List.length_nil] at hlb ⊢
        omega

theorem collectIfChain_chain_bounds {n : Nat}
    (ih : ∀ (rest : List Token) (cd : Directive) (cb : List Token)
      (br : List IfBranch) (d : Nat) (se : Bool) (res : List IfBranch)
      (after : List Token),
      rest.length ≤ n →
      collectIfChain rest cd cb br d se = .ok (res, after) →
      after.length ≤ rest.length ∧
        ∀ b ∈ res, b ∈ br ∨ b.bodyTokens.length ≤ cb.length + rest.length)
    {token : Token} {tl tl2 : List Token} {cd2 cd : Directive}
    {cb : List Token} {br : List IfBranch} {se2 : Bool}
    {res : List IfBranch} {after : List Token}
    (htl2 : tl2.length + 1 ≤ tl.length) (hlen2 : tl.length ≤ n)
    (h : collectIfChain tl2 cd2 [] (br ++ [⟨cd, cb⟩]) 0 se2 = .ok (res, after)) :
    after.length ≤ (token :: tl).length ∧
      ∀ b ∈ res, b ∈ br ∨ b.bodyTokens.length ≤ cb.length + (token :: tl).length := by
  obtain ⟨h1, h2⟩ := ih _ _ _ _ _ _ _ _ (by omega) h
  constructor
  · simp only [List.length_cons]
    omega
  · intro b hb
    rcases h2 b hb with hmem | hlb
    · rcases List.mem_append.mp hmem with hb1 | hb2
      · exact Or.inl hb1
      · right
        simp only [List.mem_singleton] at hb2
        rw [hb2]
        simp only [List.length_cons]
        omega
    · right
      simp only [List.length_nil] at hlb
      simp only [List.length_cons]
      omega

theorem collectIfChain_bounds :
    ∀ (n : Nat) (rest : List Token) (cd : Directive) (cb : List Token)
      (br : List IfBranch) (d : Nat) (se : Bool) (res : List IfBranch)
      (after : List Token),
    rest.length ≤ n →
    collectIfChain rest cd cb br d se = .ok (res, after) →
    after.length ≤ rest.length ∧
      ∀ b ∈ res, b ∈ br ∨ b.bodyTokens.length ≤ cb.length + rest.length := by
  intro n
  induction n with
  | zero =>
    intro rest cd cb br d se res after hlen h
    have : rest = [] := List.length_eq_zero.mp (Nat.le_zero.mp hlen)
    subst this
    simp [collectIfChain] at h
  | succ n ih =>
    intro rest cd cb br d se res after hlen h
    match rest, hlen with
    | [], _ => simp [collectIfChain] at h
    | token :: tl, hlen =>
      rw [collectIfChain.eq_def] at h
      simp only [] at h
      have hlen2 : tl.length ≤ n := by
        simp only [List.length_cons] at hlen
        omega
      by_cases hbd : (decide (d = 0) && decide (token.kind = TokenKind.CloseCurly)) = true
      case neg =>
        rw [if_neg hbd] at h
        exact collectIfChain_step_bounds ih hlen2 h
      case pos =>
        rw [if_pos hbd] at h
        cases hpr : List.dropWhile (fun t => isTrivia t.kind) tl with
        | nil =>
          rw [hpr] at h
          simp only [] at h
          exact collectIfChain_step_bounds ih hlen2 h
        | cons next tl2 =>
          rw [hpr] at h
          simp only [] at h
          have htl2 : tl2.length + 1 ≤ tl.length := by
            have hle := (List.dropWhile_sublist (l := tl) (fun t => isTrivia t.kind)).length_le
            rw [hpr] at hle
            simp only [List.length_cons] at hle
            omega
          by_cases hnp : next.kind = TokenKind.Preprocessor
          case neg =>
            rw [if_neg hnp] at h
            exact collectIfChain_step_bounds ih hlen2 h
          case pos =>
            rw [if_pos hnp] at h
            cases hpd : parseDirectiveToken next with
            | error e => rw [hpd] at h; exact absurd h (by simp)
            | ok parsed =>
              rw [hpd] at h
              cases parsed with
              | ifEnd =>
                simp only [Except.ok.injEq, Prod.mk.injEq] at h
                obtain ⟨hres, hafter⟩ := h
                constructor
                · rw [← hafter]
                  simp only [List.length_cons]
                  omega
                · intro b hb
                  rw [← hres] at hb
                  rcases List.mem_append.mp hb with hb1 | hb2
                  · exact Or.inl hb1
                  · right
                    simp only [List.mem_singleton] at hb2
                    rw [hb2]
                    simp only [List.length_cons]
                    omega
              | dir dd =>
                cases dd with
                | elifD c =>
                  simp only [] at h
                  by_cases hse : se = true
                  · rw [if_pos hse] at h
                    exact absurd h (by simp)
                  · rw [if_neg hse] at h
                    exact collectIfChain_chain_bounds ih htl2 hlen2 h
                | elseD =>
                  simp only [] at h
                  by_cases hse : se = true
                  · rw [if_pos hse] at h
                    exact absurd h (by simp)
                  · rw [if_neg hse] at h
                    exact collectIfChain_chain_bounds ih htl2 hlen2 h
                | ifD c => exact collectIfChain_step_bounds ih hlen2 h
                | includeD src => exact collectIfChain_step_bounds ih hlen2 h
                | define a b2 c => exact collectIfChain_step_bounds ih hlen2 h
                | undefine a => exact collectIfChain_step_bounds ih hlen2 h

/-- `branches.find(...)` with the condition evaluation of the chosen-branch
selection in `processTokenStream`: first branch whose directive is `$else`
or whose condition evaluates true; errors from evaluation propagate.
(Directives other than if/elif/else never occur in `collectIfChain` output;
skipping them keeps the function total.) -/
def findBranch (macros : MacroMap) : List IfBranch → Except PPErr (Option IfBranch)
  | [] => .ok none
  | b :: tl =>
    match b.directive with
    | .elseD => .ok (some b)
    | .ifD c =>
      match evaluateIfCondition c macros with
      | .error e => .error e
      | .ok true => .ok (some b)
      | .ok false => findBranch macros tl
    | .elifD c =>
      match evaluateIfCondition c macros with
      | .error e => .error e
      | .ok true => .ok (some b)
      | .ok false => findBranch macros tl
    | .includeD _ => findBranch macros tl
    | .define _ _ _ => findBranch macros tl
    | .undefine _ => findBranch macros tl

theorem findBranch_mem {macros : MacroMap} {l : List IfBranch} {b : IfBranch}
    (h : findBranch macros l = .ok (some b)) : b ∈ l := by
  induction l with
  | nil => simp [findBranch] at h
  | cons hd tl ih =>
    simp only [findBranch] at h
    cases hdir : hd.directive with
    | elseD =>
      rw [hdir] at h
      simp only [] at h
      simp only [Except.ok.injEq, Option.some.injEq] at h
      simp [h]
    | ifD c =>
      rw [hdir] at h
      simp only [] at h
      cases heval : evaluateIfCondition c macros with
      | error e => rw [heval] at h; simp at h
      | ok v =>
        rw [heval] at h
        cases v with
        | true =>
          simp only [Except.ok.injEq, Option.some.injEq] at h
          simp [h]
        | false => simp [ih h]
    | elifD c =>
      rw [hdir] at h
      simp only [] at h
      cases heval : evaluateIfCondition c macros with
      | error e => rw [heval] at h; simp at h
      | ok v =>
        rw [heval] at h
        cases v with
        | true =>
          simp only [Except.ok.injEq, Option.some.injEq] at h
          simp [h]
        | false => simp [ih h]
    | includeD src => rw [hdir] at h; simp only [] at h; simp [ih h]
    | define a b2 c => rw [hdir] at h; simp only [] at h; simp [ih h]
    | undefine a => rw [hdir] at h; simp only [] at h; simp [ih h]

/-- `assertDirectiveOnlyHeader`: an included file may contain only
directives and trivia (a `\x7d` directly closing a chain branch is also
tolerated). -/
def assertDirectiveOnlyHeader (tokens : List Token) (includePath : String) :
    Except PPErr Unit :=
  match tokens with
  | [] => .ok ()
  | token :: tl =>
    if token.kind = .Preprocessor || isTrivia token.kind then
      assertDirectiveOnlyHeader tl includePath
    else if token.kind = .CloseCurly then
      match tl.dropWhile (fun t => isTrivia t.kind) with
      | next :: _ =>
        if next.kind = .Preprocessor then
          match parseDirectiveToken next with
          | .error e => .error e
          | .ok parsed =>
            match parsed with
            | .ifEnd | .dir (.elifD _) | .dir .elseD =>
              assertDirectiveOnlyHeader tl includePath
            | _ => .error (.includeContent includePath)
        else .error (.includeContent includePath)
      | [] => .error (.includeContent includePath)
    else .error (.includeContent includePath)

/-- Modelled from node `path.resolve(baseDir, source)` for the inputs that
occur here: an absolute source wins outright, otherwise the source is
joined below `baseDir`.  (`.`/`..` normalization is not modelled; no claim
depends on it.) -/
def pathResolve (baseDir source : String) : String :=
  if source.toList.head? = some '/' then source else baseDir ++ "/" ++ source

/-- Modelled from node `path.dirname`: the part before the last slash. -/
def pathDirname (p : String) : String :=
  match p.toList.reverse.dropWhile (fun c => !(c = '/')) with
  | _ :: rest => if rest = [] then "/" else ⟨rest.reverse⟩
  | [] => "."

/-- `buildInitialMacros`: seed the macro table from the global constants
(object-like macros), validating each name. -/
def buildInitialMacros (acc : MacroMap) :
    List (String × String) → Except PPErr MacroMap
  | [] => .ok acc
  | (name, value) :: tl =>
    if !(isValidIdent name) then .error (.invalidConstantName name)
    else
      match tokenizeMacroValue value with
      | .error e => .error e
      | .ok replacement => buildInitialMacros (macroSet acc name ⟨none, replacement⟩) tl

/-- The mutable parts of `ProcessContext` (macro table, directive trace,
output buffer), threaded through `processTokenStream`. -/
structure PState where
  macros : MacroMap
  directives : List Directive
  output : List Token
  deriving DecidableEq

theorem filter_unstacked_lt {keys : List String} {stack : List String} {p : String}
    (hmem : p ∈ keys) (hnot : p ∉ stack) :
    (keys.filter (fun q => !decide (q ∈ stack ++ [p]))).length <
      (keys.filter (fun q => !decide (q ∈ stack))).length := by
  have hsub : (keys.filter (fun q => !decide (q ∈ stack ++ [p]))).Sublist
      (keys.filter (fun q => !decide (q ∈ stack))) := by
    apply List.monotone_filter_right
    intro a ha
    simp only [Bool.not_eq_true', decide_eq_false_iff_not, List.mem_append,
      List.mem_singleton] at ha ⊢
    intro hc
    exact ha (Or.inl hc)
  rcases Nat.lt_or_ge (keys.filter (fun q => !decide (q ∈ stack ++ [p]))).length
      (keys.filter (fun q => !decide (q ∈ stack))).length with hlt | hge
  · exact hlt
  · exfalso
    have heq := hsub.eq_of_length (Nat.le_antisymm hsub.length_le hge)
    have hp1 : p ∈ keys.filter (fun q => !decide (q ∈ stack)) := by
      simp only [List.mem_filter, Bool.not_eq_true', decide_eq_false_iff_not]
      exact ⟨hmem, hnot⟩
    rw [← heq] at hp1
    have hp2 := (List.mem_filter.mp hp1).2
    simp only [Bool.not_eq_true', decide_eq_false_iff_not, List.mem_append,
      List.mem_singleton] at hp2
    exact hp2 (Or.inr trivial)

/-- `processTokenStream`: the preprocessor's single left-to-right pass.
`loader` is the include loader (finite map resolved path → file text);
`baseDir`, `includeStack` and `emitOutput` mirror `ProcessContext`; the
mutable context parts are threaded through `st`.  Total by well-founded
recursion on (number of loadable paths not yet on the include stack,
remaining tokens): every include pushes a fresh loadable path onto the
stack, and every other step strictly consumes tokens. -/
def processTokenStream (loader : List (String × String)) (baseDir : String)
    (includeStack : List String) (emitOutput : Bool)
    (tokens : List Token) (st : PState) : Except PPErr PState :=
  match tokens with
  | [] => .ok st
  | token :: tl =>
    if token.kind = .Preprocessor then
      match parseDirectiveToken token with
      | .error e => .error e
      | .ok .ifEnd => .error .unexpectedFi
      | .ok (.dir (.ifD cond)) =>
        match hcol : collectIfChain tl (.ifD cond) [] [] 0 false with
        | .error e => .error e
        | .ok (branches, after) =>
          let st1 : PState :=
            { st with directives := st.directives ++ branches.map (fun b => b.directive) }
          match hfb : findBranch st1.macros branches with
          | .error e => .error e
          | .ok none =>
            processTokenStream loader baseDir includeStack emitOutput after st1
          | .ok (some chosen) =>
            match processTokenStream loader baseDir includeStack emitOutput
                chosen.bodyTokens st1 with
            | .error e => .error e
            | .ok st2 =>
              processTokenStream loader baseDir includeStack emitOutput after st2
      | .ok (.dir (.elifD _)) => .error (.unexpectedChain "elif")
      | .ok (.dir .elseD) => .error (.unexpectedChain "else")
      | .ok (.dir (.define name value parameters)) =>
        match tokenizeMacroValue value with
        | .error e => .error e
        | .ok replacement =>
          processTokenStream loader baseDir includeStack emitOutput tl
            { st with
                directives := st.directives ++ [.define name value parameters],
                macros := macroSet st.macros name ⟨parameters, replacement⟩ }
      | .ok (.dir (.undefine name)) =>
        processTokenStream loader baseDir includeStack emitOutput tl
          { st with
              directives := st.directives ++ [.undefine name],
              macros := macroDelete st.macros name }
      | .ok (.dir (.includeD source)) =>
        let st1 : PState := { st with directives := st.directives ++ [.includeD source] }
        let includePath := pathResolve baseDir source
        if hstk : includePath ∈ includeStack then .error (.circularInclude source)
        else
          match hload : loader.find? (fun e => e.1 = includePath) with
          | none => .error (.includeNotFound includePath)
          | some entry =>
            match tokenize entry.2 with
            | .error c => .error (.lex c)
            | .ok ts =>
              let includeTokens := ts.dropLast
              match assertDirectiveOnlyHeader includeTokens includePath with
              | .error e => .error e
              | .ok _ =>
                match processTokenStream loader (pathDirname includePath)
                    (includeStack ++ [includePath]) false includeTokens st1 with
                | .error e => .error e
                | .ok st2 =>
                  processTokenStream loader baseDir includeStack emitOutput tl st2
    else
      if !emitOutput then
        processTokenStream loader baseDir includeStack emitOutput tl st
      else
        let chunk := token :: tl.takeWhile (fun t => !(t.kind = .Preprocessor))
        match expandTokens st.macros 0 chunk with
        | .error e => .error e
        | .ok expanded =>
          processTokenStream loader baseDir includeStack emitOutput
            (tl.dropWhile (fun t => !(t.kind = .Preprocessor)))
            { st with output := st.output ++ expanded }
termination_by
  (((loader.map Prod.fst).filter (fun q => !decide (q ∈ includeStack))).length,
   tokens.length)
decreasing_by
  all_goals simp_wf
  · apply Prod.Lex.right
    have hb := (collectIfChain_bounds rest.length rest _ _ _ _ _ _ _ le_rfl hcol).1
    omega
  · apply Prod.Lex.right
    have hb := (collectIfChain_bounds rest.length rest _ _ _ _ _ _ _ le_rfl hcol).2
      chosen (findBranch_mem hfb)
    rcases hb with hmem | hlen
    · exact absurd hmem (List.not_mem_nil chosen)
    · simp only [List.length_nil] at hlen
      omega
  · apply Prod.Lex.right
    have hb := (collectIfChain_bounds rest.length rest _ _ _ _ _ _ _ le_rfl hcol).1
    omega
  · apply Prod.Lex.right
    omega
  · apply Prod.Lex.right
    omega
  · apply Prod.Lex.left
    have hmem2 : pathResolve baseDir source ∈ loader.map Prod.fst :=
      List.mem_map.mpr
        ⟨entry, List.mem_of_find?_eq_some hload, by simpa using List.find?_some hload⟩
    have hkey := filter_unstacked_lt hmem2 hstk
    simpa using hkey
  · apply Prod.Lex.right
    omega
  · apply Prod.Lex.right
    omega
  · apply Prod.Lex.right
    have := (List.dropWhile_sublist (l := rest) (fun t => !(t.kind = .Preprocessor))).length_le
    omega

/-- `PreprocessResult`. -/
structure PreprocessResult where
  tokens : List Token
  directives : List Directive
  defines : List (String × String)
  deriving DecidableEq

/-- `preprocessTokens`: the preprocessor entry point.  `loader` models the
injectable `readFile` (resolved path → file text); `globalConstants` seed
the macro table. -/
def preprocessTokens (tokens : List Token) (baseDir : String)
    (loader : List (String × String)) (globalConstants : List (String × String)) :
    Except PPErr PreprocessResult := do
  let eof := tokens.getLast?.getD ⟨.EOF, ""⟩
  let body := tokens.dropLast
  let macros ← buildInitialMacros [] globalConstants
  let st ← processTokenStream loader baseDir [] true body ⟨macros, [], []⟩
  .ok
    { tokens := st.output ++ [eof]
      directives := st.directives
      defines := st.macros.map (fun e =>
        (e.1, jsTrim (String.intercalate " " (e.2.replacement.map (fun t => t.value))))) }

/-!
## Parser and AST (`src/ast/ast.ts`)
-/

/-- Digits to a natural number. -/
def digitsToNat (cs : List Char) : Nat :=
  cs.foldl (fun n c => n * 10 + (c.toNat - '0'.toNat)) 0

/-- Models JS `parseFloat` on the tokenizer's `Number` tokens (shape
`\d+(\.\d+)?`), as an exact decimal rational.  The binary64 rounding of a
JS number is not modelled; no claim depends on arithmetic over the parsed
value.  (On other inputs JS would give `NaN`; `Number` tokens always start
with a digit, so that case is unreachable and mapped to 0.) -/
def parseFloatQ (s : String) : ℚ :=
  let cs := s.toList
  let intPart := cs.takeWhile isDigitChar
  let rest := cs.dropWhile isDigitChar
  let intVal : ℚ := (digitsToNat intPart : ℚ)
  match rest with
  | '.' :: r2 =>
    let frac := r2.takeWhile isDigitChar
    intVal + (digitsToNat frac : ℚ) / ((10 : ℚ) ^ frac.length)
  | _ => intVal

/-- The brace-depth scan of `parseTemplateParts` (counts nested braces,
stopping just past the brace that closes the interpolation, or at the end
of the text).  Returns the scanned span (including the closing brace) and
the rest. -/
def templBraceScan : Nat → List Char → (List Char × List Char)
  | _, [] => ([], [])
  | depth, c :: r =>
    let depth2 :=
      if c = '\x7b' then depth + 1 else if c = '\x7d' then depth - 1 else depth
    if depth2 = 0 then ([c], r)
    else
      let (a, b) := templBraceScan depth2 r
      (c :: a, b)

mutual
/-- `Expr` from `ast.ts`.  `BlockStmt` bodies are represented by their
statement lists; dict entries are `(key, value)` pairs. -/
inductive Expr where
  | num (value : ℚ)
  | str (value : String)
  | ident (name : String)
  | template (parts : List TemplatePart)
  | binary (op : String) (left : Expr) (right : Expr)
  | unary (op : String) (operand : Expr) (pfx : Bool)
  | assign (op : String) (target : Expr) (value : Expr)
  | ternary (condition : Expr) (consequent : Expr) (alternate : Expr)
  | call (callee : Expr) (args : List Expr)
  | index (object : Expr) (idx : Expr)
  | member (object : Expr) (property : String)
  | group (inner : Expr)
  | arrowFunc (params : List String) (body : List Stmt)
  | list (elements : List Expr)
  | dict (entries : List (Expr × Expr))

/-- `TemplatePart`: plain text or an interpolated expression. -/
inductive TemplatePart where
  | text (text : String)
  | expr (expr : Expr)

/-- `BindingPattern`: identifier, list, or object pattern
(object properties are `(key, binding)` pairs). -/
inductive BindingPattern where
  | identPattern (name : String)
  | listPattern (elements : List BindingPattern)
  | objectPattern (properties : List (String × BindingPattern))

/-- The init clause of a classic `for`: declaration or expression. -/
inductive ForInit where
  | decl (s : Stmt)
  | init (e : Expr)

/-- `Stmt` from `ast.ts`.  `LetStmt`/`VarStmt` have a name form and a
pattern form; `ImportSpecifier` is `(imported, local)`; `Block` bodies are
statement lists. -/
inductive Stmt where
  | exprStmt (expr : Expr)
  | letStmt (name : String) (value : Expr)
  | letPatternStmt (pattern : BindingPattern) (value : Expr)
  | varStmt (name : String) (value : Expr)
  | varPatternStmt (pattern : BindingPattern) (value : Expr)
  | returnStmt (value : Option Expr)
  | commentStmt (value : String)
  | importStmt (source : String) (defaultImport : Option String)
      (namespaceImport : Option String) (namedImports : List (String × String))
  | funcDecl (name : String) (params : List String) (body : List Stmt)
  | block (stmts : List Stmt)
  | ifStmt (condition : Expr) (consequent : List Stmt) (alternate : Option (List Stmt))
  | whileStmt (condition : Expr) (body : List Stmt)
  | forInStmt (iterator : String) (iterable : Expr) (body : List Stmt)
  | forStmt (initClause : Option ForInit) (condition : Option Expr)
      (update : Option Expr) (body : List Stmt)
  | enumDecl (name : String) (members : List (String × Option Expr))
end

/-- `Program`: the root statement list. -/
def Program := List Stmt

/-! The binding-power table `BP` from `ast.ts`. -/

namespace BP

def None : Nat := 0
def Assignment : Nat := 2
def AssignmentRight : Nat := 1
def Ternary : Nat := 4
def TernaryRight : Nat := 3
def LogicalOr : Nat := 6
def LogicalAnd : Nat := 8
def Equality : Nat := 10
def Relational : Nat := 12
def Bitwise : Nat := 13
def Additive : Nat := 14
def Multiplicative : Nat := 16
def Unary : Nat := 18
def Postfix : Nat := 20
def Call : Nat := 22
def Member : Nat := 24

end BP

/-- Defunctionalized prefix (nud) handlers registered in
`Parser.registerDefaults`. -/
inductive NudTag where
  | number
  | string
  | template
  | ident
  | paren
  | bracket
  | curly
  | prefixUnary (op : String)
  deriving DecidableEq, Repr

/-- Defunctionalized infix (led) handlers registered in
`Parser.registerDefaults`. -/
inductive LedTag where
  | binary (op : String)
  | assign (op : String)
  | ternary
  | postOp (op : String)
  | call
  | index
  | member
  deriving DecidableEq, Repr

/-- The nud registrations of `registerDefaults`, as a lookup by token kind
(`nudMap`). -/
def nudOf : TokenKind → Option NudTag
  | .Number => some .number
  | .String => some .string
  | .TemplateLiteral => some .template
  | .Identifier => some .ident
  | .OpenParen => some .paren
  | .OpenBracket => some .bracket
  | .OpenCurly => some .curly
  | .Minus => some (.prefixUnary "-")
  | .Not => some (.prefixUnary "!")
  | .Delete => some (.prefixUnary "delete")
  | .PlusPlus => some (.prefixUnary "++")
  | .MinusMinus => some (.prefixUnary "--")
  | .Tilde => some (.prefixUnary "~")
  | _ => none

/-- The led registrations of `registerDefaults`, as a lookup by token kind
(`ledMap`): binding power and handler. -/
def ledOf : TokenKind → Option (Nat × LedTag)
  | .Plus => some (BP.Additive, .binary "+")
  | .Minus => some (BP.Additive, .binary "-")
  | .Star => some (BP.Multiplicative, .binary "*")
  | .Slash => some (BP.Multiplicative, .binary "/")
  | .Percent => some (BP.Multiplicative, .binary "%")
  | .Equals => some (BP.Equality, .binary "==")
  | .NotEquals => some (BP.Equality, .binary "!=")
  | .Less => some (BP.Relational, .binary "<")
  | .LessEquals => some (BP.Relational, .binary "<=")
  | .Greater => some (BP.Relational, .binary ">")
  | .GreaterEquals => some (BP.Relational, .binary ">=")
  | .LogicalOr => some (BP.LogicalOr, .binary "||")
  | .LogicalAnd => some (BP.LogicalAnd, .binary "&&")
  | .Ampersand => some (BP.Bitwise, .binary "&")
  | .Pipe => some (BP.Bitwise, .binary "|")
  | .Caret => some (BP.Bitwise, .binary "^")
  | .LeftShift => some (BP.Additive, .binary "<<")
  | .RightShift => some (BP.Additive, .binary ">>")
  | .UnsignedRightShift => some (BP.Additive, .binary ">>>")
  | .Assignment => some (BP.Assignment, .assign "=")
  | .PlusEquals => some (BP.Assignment, .assign "+=")
  | .MinusEquals => some (BP.Assignment, .assign "-=")
  | .AmpersandEquals => some (BP.Assignment, .assign "&=")
  | .PipeEquals => some (BP.Assignment, .assign "|=")
  | .CaretEquals => some (BP.Assignment, .assign "^=")
  | .LeftShiftEquals => some (BP.Assignment, .assign "<<=")
  | .RightShiftEquals => some (BP.Assignment, .assign ">>=")
  | .UnsignedRightShiftEquals => some (BP.Assignment, .assign ">>>=")
  | .Question => some (BP.Ternary, .ternary)
  | .PlusPlus => some (BP.Postfix, .postOp "++")
  | .MinusMinus => some (BP.Postfix, .postOp "--")
  | .OpenParen => some (BP.Call, .call)
  | .OpenBracket => some (BP.Member, .index)
  | .Dot => some (BP.Member, .member)
  | _ => none

/-- The parser's thrown `Error`s.  `.oob` models a JS crash from reading an
undefined array slot (never reached, see the safety theorem); `.fuel` is
the embedding's recursion budget, not a source behavior. -/
inductive PErr where
  | fuel
  | oob
  | unexpectedExprToken (kind : TokenKind) (value : String)
  | expected (kind : TokenKind) (got : TokenKind) (value : String)
  | importAfterComma
  | invalidImport
  | expectedBindingPattern (kind : TokenKind) (value : String)
  | expectedColonAfterStringKey
  | lex (c : Char)
  deriving DecidableEq, Repr

/-- `Parser.current()`: `tokens[pos]`; an out-of-bounds read is the `.oob`
error. -/
def currentT (ts : List Token) (pos : Nat) : Except PErr Token :=
  match ts.get? pos with
  | some t => .ok t
  | none => .error .oob

/-- `Parser.peek(offset)`: clamped to the last token. -/
def peekT (ts : List Token) (pos : Nat) (offset : Nat) : Except PErr Token :=
  match ts.get? (if pos + offset < ts.length then pos + offset else ts.length - 1) with
  | some t => .ok t
  | none => .error .oob

/-- `Parser.advance()`: returns the current token; moves only when it is
not EOF. -/
def advanceT (ts : List Token) (pos : Nat) : Except PErr (Token × Nat) := do
  let t ← currentT ts pos
  .ok (t, if t.kind = .EOF then pos else pos + 1)

/-- `Parser.expect(kind)`. -/
def expectT (ts : List Token) (pos : Nat) (kind : TokenKind) :
    Except PErr (Token × Nat) := do
  let t ← currentT ts pos
  if t.kind = kind then advanceT ts pos
  else .error (.expected kind t.kind t.value)

/-- `Parser.check(kind)`. -/
def checkT (ts : List Token) (pos : Nat) (kind : TokenKind) : Except PErr Bool := do
  let t ← currentT ts pos
  .ok (t.kind = kind)

/-- `Parser.match(...kinds)`. -/
def matchT (ts : List Token) (pos : Nat) (kinds : List TokenKind) :
    Except PErr (Bool × Nat) := do
  let t ← currentT ts pos
  if t.kind ∈ kinds then
    let (_, p2) ← advanceT ts pos
    .ok (true, p2)
  else .ok (false, pos)

/-- `Parser.atEnd()`. -/
def atEndT (ts : List Token) (pos : Nat) : Except PErr Bool := do
  let t ← currentT ts pos
  .ok (t.kind = .EOF)

/-- `Parser.isCommentToken`. -/
def isCommentToken (kind : TokenKind) : Bool :=
  kind = .LineComment || kind = .BlockComment

/-- `Parser.skipSeparators()`: skip newlines and semicolons. -/
def skipSeparators (ts : List Token) (pos : Nat) : Except PErr Nat :=
  match h : ts.get? pos with
  | none => .error .oob
  | some t =>
    if t.kind = .Newline || t.kind = .Semicolon then
      skipSeparators ts (pos + 1)
    else .ok pos
termination_by ts.length - pos
decreasing_by
  have : pos < ts.length := List.get?_eq_some.mp h |>.1
  omega

/-- `Parser.eatSeparator()`: consume at most one separator. -/
def eatSeparator (ts : List Token) (pos : Nat) : Except PErr Nat := do
  let t ← currentT ts pos
  if t.kind = .Newline || t.kind = .Semicolon then
    let (_, p2) ← advanceT ts pos
    .ok p2
  else .ok pos

/-- The comment-skipping loop at the head of `parseExpr`. -/
def skipComments (ts : List Token) (pos : Nat) : Except PErr Nat :=
  match h : ts.get? pos with
  | none => .error .oob
  | some t =>
    if isCommentToken t.kind then skipComments ts (pos + 1)
    else .ok pos
termination_by ts.length - pos
decreasing_by
  have : pos < ts.length := List.get?_eq_some.mp h |>.1
  omega

/-- `Parser.isArrowFunc`: pure lookahead from just after the consumed `(`
for the shape `[Identifier (Comma Identifier)*] CloseParen Arrow`
(optional-chaining reads never fault). -/
def isArrowFunc (ts : List Token) (pos : Nat) : Bool :=
  if (ts.get? pos).any (fun t => t.kind = .CloseParen) &&
      (ts.get? (pos + 1)).any (fun t => t.kind = .Arrow) then true
  else
    arrowScan ts pos
where
  /-- The ident/comma scan loop of `isArrowFunc`, then the close-paren and
  arrow check. -/
  arrowScan (ts : List Token) (i : Nat) : Bool :=
    if h : (ts.get? i).any (fun t => t.kind = .Identifier) then
      if (ts.get? (i + 1)).any (fun t => t.kind = .Comma) then arrowScan ts (i + 2)
      else
        (ts.get? (i + 1)).any (fun t => t.kind = .CloseParen) &&
          (ts.get? (i + 2)).any (fun t => t.kind = .Arrow)
    else
      (ts.get? i).any (fun t => t.kind = .CloseParen) &&
        (ts.get? (i + 1)).any (fun t => t.kind = .Arrow)
  termination_by ts.length - i
  decreasing_by
    have : i < ts.length := by
      cases hg : ts.get? i with
      | none => rw [hg] at h; simp at h
      | some t => exact (List.get?_eq_some.mp hg).1
    omega

/-!
The parser proper.  All mutually recursive parsing functions carry an
explicit `fuel` budget (structural recursion; `.fuel` is returned when the
budget runs out, which for well-formed inputs never happens with a budget
as large as the token count allows).  Each function takes the fixed token
array `ts` and the current position, and returns the parsed node with the
new position, mirroring the mutable `this.pos` of the `Parser` class.
-/

mutual

/-- `Parser.parseExpr(minBP)`: the core Pratt loop (prefix dispatch, then
the infix loop). -/
def parseExpr : Nat → List Token → Nat → Nat → Except PErr (Expr × Nat)
  | 0, _, _, _ => .error .fuel
  | fuel + 1, ts, minBP, pos => do
    let pos ← skipComments ts pos
    let t ← currentT ts pos
    match nudOf t.kind with
    | none => .error (.unexpectedExprToken t.kind t.value)
    | some tag =>
      let (_, pos) ← advanceT ts pos
      let (left, pos) ← applyNud fuel ts tag pos
      parseExprLoop fuel ts minBP left pos
termination_by structural f _ _ _ => f

/-- The `while (true)` infix loop of `parseExpr`. -/
def parseExprLoop : Nat → List Token → Nat → Expr → Nat → Except PErr (Expr × Nat)
  | 0, _, _, _, _ => .error .fuel
  | fuel + 1, ts, minBP, left, pos => do
    let t ← currentT ts pos
    if isCommentToken t.kind then
      let (_, pos) ← advanceT ts pos
      parseExprLoop fuel ts minBP left pos
    else if t.kind = .Newline || t.kind = .Semicolon then .ok (left, pos)
    else if t.kind = .EOF then .ok (left, pos)
    else
      match ledOf t.kind with
      | none => .ok (left, pos)
      | some (bp, tag) =>
        if bp ≤ minBP then .ok (left, pos)
        else do
          let (_, pos) ← advanceT ts pos
          let (left2, pos) ← applyLed fuel ts tag bp left pos
          parseExprLoop fuel ts minBP left2 pos
termination_by structural f _ _ _ _ => f

/-- Apply a registered prefix handler; `pos` is just past the dispatched
token, which the handlers re-read as `tokens[pos - 1]`. -/
def applyNud : Nat → List Token → NudTag → Nat → Except PErr (Expr × Nat)
  | 0, _, _, _ => .error .fuel
  | fuel + 1, ts, tag, pos => do
    match tag with
    | .number => do
      let t ← currentT ts (pos - 1)
      .ok (.num (parseFloatQ t.value), pos)
    | .string => do
      let t ← currentT ts (pos - 1)
      .ok (.str ⟨(t.value.toList.drop 1).dropLast⟩, pos)
    | .template => do
      let t ← currentT ts (pos - 1)
      let parts ← parseTemplateParts fuel t.value
      .ok (.template parts, pos)
    | .ident => do
      let t ← currentT ts (pos - 1)
      .ok (.ident t.value, pos)
    | .paren =>
      if isArrowFunc ts pos then finishArrowFunc fuel ts pos
      else do
        let (inner, pos) ← parseExpr fuel ts BP.None pos
        let (_, pos) ← expectT ts pos .CloseParen
        .ok (.group inner, pos)
    | .bracket => do
      let pos ← skipSeparators ts pos
      listElements fuel ts [] pos
    | .curly => do
      let pos ← skipSeparators ts pos
      dictEntries fuel ts [] pos
    | .prefixUnary op => do
      let (operand, pos) ← parseExpr fuel ts BP.Unary pos
      .ok (.unary op operand true, pos)
termination_by structural f _ _ _ => f

/-- The list-literal element loop (nud of `[`). -/
def listElements : Nat → List Token → List Expr → Nat → Except PErr (Expr × Nat)
  | 0, _, _, _ => .error .fuel
  | fuel + 1, ts, acc, pos => do
    let t ← currentT ts pos
    if t.kind = .CloseBracket || t.kind = .EOF then do
      let (_, pos) ← expectT ts pos .CloseBracket
      .ok (.list acc, pos)
    else do
      let (e, pos) ← parseExpr fuel ts BP.None pos
      let pos ← skipSeparators ts pos
      let (m, pos) ← matchT ts pos [.Comma]
      if m then do
        let pos ← skipSeparators ts pos
        listElements fuel ts (acc ++ [e]) pos
      else do
        let (_, pos) ← expectT ts pos .CloseBracket
        .ok (.list (acc ++ [e]), pos)
termination_by structural f _ _ _ => f

/-- The dict-literal entry loop (nud of `\x7b`). -/
def dictEntries : Nat → List Token → List (Expr × Expr) → Nat →
    Except PErr (Expr × Nat)
  | 0, _, _, _ => .error .fuel
  | fuel + 1, ts, acc, pos => do
    let t ← currentT ts pos
    if t.kind = .CloseCurly || t.kind = .EOF then do
      let (_, pos) ← expectT ts pos .CloseCurly
      .ok (.dict acc, pos)
    else do
      let isStr ← checkT ts pos .String
      let (key, defaultValue, pos) ←
        if isStr then do
          let (tok, pos) ← advanceT ts pos
          pure ((Expr.str ⟨(tok.value.toList.drop 1).dropLast⟩ : Expr),
            (none : Option Expr), pos)
        else do
          let (tok, pos) ← expectT ts pos .Identifier
          pure ((Expr.ident tok.value : Expr), some (Expr.ident tok.value), pos)
      let (hasColon, pos) ← matchT ts pos [.Colon]
      let (value, pos) ←
        if hasColon then parseExpr fuel ts BP.None pos
        else
          match defaultValue with
          | some dv => pure (dv, pos)
          | none => .error .expectedColonAfterStringKey
      let pos ← skipSeparators ts pos
      let (m, pos) ← matchT ts pos [.Comma]
      if m then do
        let pos ← skipSeparators ts pos
        dictEntries fuel ts (acc ++ [(key, value)]) pos
      else do
        let (_, pos) ← expectT ts pos .CloseCurly
        .ok (.dict (acc ++ [(key, value)]), pos)
termination_by structural f _ _ _ => f

/-- Apply a registered infix handler; the operator token is consumed and
the handler receives its binding power as the source handlers do. -/
def applyLed : Nat → List Token → LedTag → Nat → Expr → Nat →
    Except PErr (Expr × Nat)
  | 0, _, _, _, _, _ => .error .fuel
  | fuel + 1, ts, tag, bp, left, pos => do
    match tag with
    | .binary op => do
      let (right, pos) ← parseExpr fuel ts bp pos
      .ok (.binary op left right, pos)
    | .assign op => do
      let (value, pos) ← parseExpr fuel ts BP.AssignmentRight pos
      .ok (.assign op left value, pos)
    | .ternary => do
      let (consequent, pos) ← parseExpr fuel ts BP.None pos
      let (_, pos) ← expectT ts pos .Colon
      let (alternate, pos) ← parseExpr fuel ts BP.TernaryRight pos
      .ok (.ternary left consequent alternate, pos)
    | .postOp op => .ok (.unary op left false, pos)
    | .call => callArgs fuel ts left [] pos
    | .index => do
      let (idx, pos) ← parseExpr fuel ts BP.None pos
      let (_, pos) ← expectT ts pos .CloseBracket
      .ok (.index left idx, pos)
    | .member => do
      let (prop, pos) ← expectT ts pos .Identifier
      .ok (.member left prop.value, pos)
termination_by structural f _ _ _ _ _ => f

/-- The call-argument loop (led of `(`). -/
def callArgs : Nat → List Token → Expr → List Expr → Nat → Except PErr (Expr × Nat)
  | 0, _, _, _, _ => .error .fuel
  | fuel + 1, ts, callee, acc, pos => do
    let t ← currentT ts pos
    if t.kind = .CloseParen || t.kind = .EOF then do
      let (_, pos) ← expectT ts pos .CloseParen
      .ok (.call callee acc, pos)
    else do
      let (e, pos) ← parseExpr fuel ts BP.None pos
      let (m, pos) ← matchT ts pos [.Comma]
      if m then callArgs fuel ts callee (acc ++ [e]) pos
      else do
        let (_, pos) ← expectT ts pos .CloseParen
        .ok (.call callee (acc ++ [e]), pos)
termination_by structural f _ _ _ _ => f

/-- `parseTemplateParts`: split a raw backtick token into text and
interpolation parts (full brace-depth scan), re-tokenizing and re-parsing
each interpolation. -/
def parseTemplateParts : Nat → String → Except PErr (List TemplatePart)
  | 0, _ => .error .fuel
  | fuel + 1, raw =>
    templateLoop fuel ((raw.toList.drop 1).dropLast) [] []
termination_by structural f _ => f

/-- The character loop of `parseTemplateParts` over the inner text;
`textAcc` is the pending plain-text run (in order), `parts` the collected
parts. -/
def templateLoop : Nat → List Char → List Char → List TemplatePart →
    Except PErr (List TemplatePart)
  | 0, _, _, _ => .error .fuel
  | fuel + 1, inner, textAcc, parts =>
    match inner with
    | [] => .ok (if textAcc = [] then parts else parts ++ [.text ⟨textAcc⟩])
    | '$' :: '\x7b' :: r =>
      let parts1 := if textAcc = [] then parts else parts ++ [.text ⟨textAcc⟩]
      let (span, rest) := templBraceScan 1 r
      let exprSrc : List Char := span.dropLast
      match tokenize ⟨exprSrc⟩ with
      | .error c => .error (.lex c)
      | .ok exprTokens =>
        match parseExpr fuel exprTokens BP.None 0 with
        | .error e => .error e
        | .ok (e, _) => templateLoop fuel rest [] (parts1 ++ [.expr e])
    | '\\' :: c :: r => templateLoop fuel r (textAcc ++ [c]) parts
    | c :: r => templateLoop fuel r (textAcc ++ [c]) parts
termination_by structural f _ _ _ => f

/-- `Parser.parseStmt()`: statement dispatch on the leading token. -/
def parseStmt : Nat → List Token → Nat → Except PErr (Stmt × Nat)
  | 0, _, _ => .error .fuel
  | fuel + 1, ts, pos => do
    let pos ← skipSeparators ts pos
    let t ← currentT ts pos
    match t.kind with
    | .Import => parseImportStmt fuel ts pos
    | .Let => parseLetStmt fuel ts pos
    | .Var => parseVarStmt fuel ts pos
    | .Func => parseFuncDecl fuel ts pos
    | .Return => parseReturnStmt fuel ts pos
    | .LineComment => parseCommentStmt fuel ts pos
    | .BlockComment => parseCommentStmt fuel ts pos
    | .If => parseIfStmt fuel ts pos
    | .While => parseWhileStmt fuel ts pos
    | .For => parseForStmt fuel ts pos
    | .Enum => parseEnumDecl fuel ts pos
    | .OpenCurly => do
      let (stmts, pos) ← parseBlock fuel ts pos
      .ok (.block stmts, pos)
    | _ => parseExprStmt fuel ts pos
termination_by structural f _ _ => f

/-- `parseLetStmt`. -/
def parseLetStmt : Nat → List Token → Nat → Except PErr (Stmt × Nat)
  | 0, _, _ => .error .fuel
  | fuel + 1, ts, pos => do
    let (_, pos) ← expectT ts pos .Let
    let (stmt, pos) ← parseVariableInit fuel ts true pos
    let pos ← eatSeparator ts pos
    .ok (stmt, pos)
termination_by structural f _ _ => f

/-- `parseVarStmt`. -/
def parseVarStmt : Nat → List Token → Nat → Except PErr (Stmt × Nat)
  | 0, _, _ => .error .fuel
  | fuel + 1, ts, pos => do
    let (_, pos) ← expectT ts pos .Var
    let (stmt, pos) ← parseVariableInit fuel ts false pos
    let pos ← eatSeparator ts pos
    .ok (stmt, pos)
termination_by structural f _ _ => f

/-- `parseVariableInit(kind)`: `isLet` selects the Let/Var node. -/
def parseVariableInit : Nat → List Token → Bool → Nat → Except PErr (Stmt × Nat)
  | 0, _, _, _ => .error .fuel
  | fuel + 1, ts, isLet, pos => do
    let isIdent ← checkT ts pos .Identifier
    if isIdent then do
      let (tok, pos) ← advanceT ts pos
      let (_, pos) ← expectT ts pos .Assignment
      let (value, pos) ← parseExpr fuel ts BP.None pos
      .ok (if isLet then (.letStmt tok.value value : Stmt) else .varStmt tok.value value, pos)
    else do
      let (pattern, pos) ← parseBindingPattern fuel ts pos
      let (_, pos) ← expectT ts pos .Assignment
      let (value, pos) ← parseExpr fuel ts BP.None pos
      .ok (if isLet then (.letPatternStmt pattern value : Stmt)
        else .varPatternStmt pattern value, pos)
termination_by structural f _ _ _ => f

/-- `parseBindingPattern`. -/
def parseBindingPattern : Nat → List Token → Nat → Except PErr (BindingPattern × Nat)
  | 0, _, _ => .error .fuel
  | fuel + 1, ts, pos => do
    let t ← currentT ts pos
    if t.kind = .Identifier then do
      let (tok, pos) ← advanceT ts pos
      .ok (.identPattern tok.value, pos)
    else if t.kind = .OpenBracket then parseListPattern fuel ts pos
    else if t.kind = .OpenCurly then parseObjectPattern fuel ts pos
    else .error (.expectedBindingPattern t.kind t.value)
termination_by structural f _ _ => f

/-- `parseListPattern`. -/
def parseListPattern : Nat → List Token → Nat → Except PErr (BindingPattern × Nat)
  | 0, _, _ => .error .fuel
  | fuel + 1, ts, pos => do
    let (_, pos) ← expectT ts pos .OpenBracket
    listPatternLoop fuel ts [] pos
termination_by structural f _ _ => f

/-- The element loop of `parseListPattern`. -/
def listPatternLoop : Nat → List Token → List BindingPattern → Nat →
    Except PErr (BindingPattern × Nat)
  | 0, _, _, _ => .error .fuel
  | fuel + 1, ts, acc, pos => do
    let t ← currentT ts pos
    if t.kind = .CloseBracket || t.kind = .EOF then do
      let (_, pos) ← expectT ts pos .CloseBracket
      .ok (.listPattern acc, pos)
    else do
      let (p, pos) ← parseBindingPattern fuel ts pos
      let (m, pos) ← matchT ts pos [.Comma]
      if m then listPatternLoop fuel ts (acc ++ [p]) pos
      else do
        let (_, pos) ← expectT ts pos .CloseBracket
        .ok (.listPattern (acc ++ [p]), pos)
termination_by structural f _ _ _ => f

/-- `parseObjectPattern`. -/
def parseObjectPattern : Nat → List Token → Nat → Except PErr (BindingPattern × Nat)
  | 0, _, _ => .error .fuel
  | fuel + 1, ts, pos => do
    let (_, pos) ← expectT ts pos .OpenCurly
    objectPatternLoop fuel ts [] pos
termination_by structural f _ _ => f

/-- The property loop of `parseObjectPattern` (shorthand keys alias an
identifier pattern of the same name). -/
def objectPatternLoop : Nat → List Token → List (String × BindingPattern) → Nat →
    Except PErr (BindingPattern × Nat)
  | 0, _, _, _ => .error .fuel
  | fuel + 1, ts, acc, pos => do
    let t ← currentT ts pos
    if t.kind = .CloseCurly || t.kind = .EOF then do
      let (_, pos) ← expectT ts pos .CloseCurly
      .ok (.objectPattern acc, pos)
    else do
      let (keyTok, pos) ← expectT ts pos .Identifier
      let (hasColon, pos) ← matchT ts pos [.Colon]
      let (binding, pos) ←
        if hasColon then parseBindingPattern fuel ts pos
        else pure ((BindingPattern.identPattern keyTok.value : BindingPattern), pos)
      let (m, pos) ← matchT ts pos [.Comma]
      if m then objectPatternLoop fuel ts (acc ++ [(keyTok.value, binding)]) pos
      else do
        let (_, pos) ← expectT ts pos .CloseCurly
        .ok (.objectPattern (acc ++ [(keyTok.value, binding)]), pos)
termination_by structural f _ _ _ => f

/-- `parseImportStmt`. -/
def parseImportStmt : Nat → List Token → Nat → Except PErr (Stmt × Nat)
  | 0, _, _ => .error .fuel
  | fuel + 1, ts, pos => do
    let (_, pos) ← expectT ts pos .Import
    let isStr ← checkT ts pos .String
    if isStr then do
      let (tok, pos) ← expectT ts pos .String
      let pos ← eatSeparator ts pos
      .ok (.importStmt ⟨(tok.value.toList.drop 1).dropLast⟩ none none [], pos)
    else do
      let isId ← checkT ts pos .Identifier
      let isStar ← checkT ts pos .Star
      let isCurly ← checkT ts pos .OpenCurly
      let (defaultImport, namespaceImport, namedImports, pos) ←
        if isId then do
          let (tok, pos) ← advanceT ts pos
          let (m, pos) ← matchT ts pos [.Comma]
          if m then do
            let isStar2 ← checkT ts pos .Star
            let isCurly2 ← checkT ts pos .OpenCurly
            if isStar2 then do
              let (ns, pos) ← parseNamespaceImport fuel ts pos
              pure (some tok.value, some ns, ([] : List (String × String)), pos)
            else if isCurly2 then do
              let (named, pos) ← parseNamedImports fuel ts pos
              pure (some tok.value, (none : Option String), named, pos)
            else .error .importAfterComma
          else pure (some tok.value, (none : Option String), ([] : List (String × String)), pos)
        else if isStar then do
          let (ns, pos) ← parseNamespaceImport fuel ts pos
          pure ((none : Option String), some ns, ([] : List (String × String)), pos)
        else if isCurly then do
          let (named, pos) ← parseNamedImports fuel ts pos
          pure ((none : Option String), (none : Option String), named, pos)
        else .error .invalidImport
      let (_, pos) ← expectT ts pos .From
      let (srcTok, pos) ← expectT ts pos .String
      let pos ← eatSeparator ts pos
      .ok (.importStmt ⟨(srcTok.value.toList.drop 1).dropLast⟩ defaultImport
        namespaceImport namedImports, pos)

/-- `parseNamespaceImport`: `* as name`. -/
def parseNamespaceImport : Nat → List Token → Nat → Except PErr (String × Nat)
  | 0, _, _ => .error .fuel
  | fuel + 1, ts, pos => do
    let (_, pos) ← expectT ts pos .Star
    let (_, pos) ← expectT ts pos .As
    let (tok, pos) ← expectT ts pos .Identifier
    .ok (tok.value, pos)

/-- `parseNamedImports`. -/
def parseNamedImports : Nat → List Token → Nat →
    Except PErr (List (String × String) × Nat)
  | 0, _, _ => .error .fuel
  | fuel + 1, ts, pos => do
    let (_, pos) ← expectT ts pos .OpenCurly
    namedImportsLoop fuel ts [] pos

/-- The specifier loop of `parseNamedImports`. -/
def namedImportsLoop : Nat → List Token → List (String × String) → Nat →
    Except PErr (List (String × String) × Nat)
  | 0, _, _, _ => .error .fuel
  | fuel + 1, ts, acc, pos => do
    let t ← currentT ts pos
    if t.kind = .CloseCurly || t.kind = .EOF then do
      let (_, pos) ← expectT ts pos .CloseCurly
      .ok (acc, pos)
    else do
      let (imp, pos) ← expectT ts pos .Identifier
      let (hasAs, pos) ← matchT ts pos [.As]
      let (localName, pos) ←
        if hasAs then do
          let (tok, pos) ← expectT ts pos .Identifier
          pure (tok.value, pos)
        else pure (imp.value, pos)
      let (m, pos) ← matchT ts pos [.Comma]
      if m then namedImportsLoop fuel ts (acc ++ [(imp.value, localName)]) pos
      else do
        let (_, pos) ← expectT ts pos .CloseCurly
        .ok (acc ++ [(imp.value, localName)], pos)
termination_by structural f _ _ _ => f

/-- `parseFuncDecl`. -/
def parseFuncDecl : Nat → List Token → Nat → Except PErr (Stmt × Nat)
  | 0, _, _ => .error .fuel
  | fuel + 1, ts, pos => do
    let (_, pos) ← expectT ts pos .Func
    let (nameTok, pos) ← expectT ts pos .Identifier
    let (params, pos) ← parseParamList fuel ts pos
    let pos ← skipSeparators ts pos
    let (body, pos) ← parseBlock fuel ts pos
    .ok (.funcDecl nameTok.value params body, pos)
termination_by structural f _ _ => f

/-- `parseParamList`. -/
def parseParamList : Nat → List Token → Nat → Except PErr (List String × Nat)
  | 0, _, _ => .error .fuel
  | fuel + 1, ts, pos => do
    let (_, pos) ← expectT ts pos .OpenParen
    paramListLoop fuel ts [] pos

/-- The parameter loop of `parseParamList`. -/
def paramListLoop : Nat → List Token → List String → Nat →
    Except PErr (List String × Nat)
  | 0, _, _, _ => .error .fuel
  | fuel + 1, ts, acc, pos => do
    let t ← currentT ts pos
    if t.kind = .CloseParen || t.kind = .EOF then do
      let (_, pos) ← expectT ts pos .CloseParen
      .ok (acc, pos)
    else do
      let (tok, pos) ← expectT ts pos .Identifier
      let (m, pos) ← matchT ts pos [.Comma]
      if m then paramListLoop fuel ts (acc ++ [tok.value]) pos
      else do
        let (_, pos) ← expectT ts pos .CloseParen
        .ok (acc ++ [tok.value], pos)
termination_by structural f _ _ _ => f

/-- `parseReturnStmt`. -/
def parseReturnStmt : Nat → List Token → Nat → Except PErr (Stmt × Nat)
  | 0, _, _ => .error .fuel
  | fuel + 1, ts, pos => do
    let (_, pos) ← expectT ts pos .Return
    let t ← currentT ts pos
    let noValue := t.kind = .Newline || t.kind = .Semicolon ||
      t.kind = .CloseCurly || t.kind = .EOF
    if noValue then do
      let pos ← eatSeparator ts pos
      .ok (.returnStmt none, pos)
    else do
      let (value, pos) ← parseExpr fuel ts BP.None pos
      let pos ← eatSeparator ts pos
      .ok (.returnStmt (some value), pos)
termination_by structural f _ _ => f

/-- `parseCommentStmt`. -/
def parseCommentStmt : Nat → List Token → Nat → Except PErr (Stmt × Nat)
  | 0, _, _ => .error .fuel
  | _ + 1, ts, pos => do
    let (tok, pos) ← advanceT ts pos
    .ok (.commentStmt tok.value, pos)

/-- `parseIfStmt`. -/
def parseIfStmt : Nat → List Token → Nat → Except PErr (Stmt × Nat)
  | 0, _, _ => .error .fuel
  | fuel + 1, ts, pos => do
    let (_, pos) ← expectT ts pos .If
    let (_, pos) ← expectT ts pos .OpenParen
    let (condition, pos) ← parseExpr fuel ts BP.None pos
    let (_, pos) ← expectT ts pos .CloseParen
    let pos ← skipSeparators ts pos
    let (consequent, pos) ← parseBlock fuel ts pos
    let pos ← skipSeparators ts pos
    let isElse ← checkT ts pos .Else
    if isElse then do
      let (_, pos) ← advanceT ts pos
      let pos ← skipSeparators ts pos
      let (alternate, pos) ← parseBlock fuel ts pos
      .ok (.ifStmt condition consequent (some alternate), pos)
    else .ok (.ifStmt condition consequent none, pos)
termination_by structural f _ _ => f

/-- `parseWhileStmt`. -/
def parseWhileStmt : Nat → List Token → Nat → Except PErr (Stmt × Nat)
  | 0, _, _ => .error .fuel
  | fuel + 1, ts, pos => do
    let (_, pos) ← expectT ts pos .While
    let (_, pos) ← expectT ts pos .OpenParen
    let (condition, pos) ← parseExpr fuel ts BP.None pos
    let (_, pos) ← expectT ts pos .CloseParen
    let pos ← skipSeparators ts pos
    let (body, pos) ← parseBlock fuel ts pos
    .ok (.whileStmt condition body, pos)
termination_by structural f _ _ => f

/-- `parseForStmt`: one-token lookahead selects the for-in form. -/
def parseForStmt : Nat → List Token → Nat → Except PErr (Stmt × Nat)
  | 0, _, _ => .error .fuel
  | fuel + 1, ts, pos => do
    let (_, pos) ← expectT ts pos .For
    let (_, pos) ← expectT ts pos .OpenParen
    let isId ← checkT ts pos .Identifier
    let nxt ← peekT ts pos 1
    if isId && nxt.kind = .In then do
      let (iterTok, pos) ← advanceT ts pos
      let (_, pos) ← expectT ts pos .In
      let (iterable, pos) ← parseExpr fuel ts BP.None pos
      let (_, pos) ← expectT ts pos .CloseParen
      let pos ← skipSeparators ts pos
      let (body, pos) ← parseBlock fuel ts pos
      .ok (.forInStmt iterTok.value iterable body, pos)
    else do
      let isSemi ← checkT ts pos .Semicolon
      let (initClause, pos) ←
        if isSemi then pure ((none : Option ForInit), pos)
        else do
          let isLet ← checkT ts pos .Let
          let isVar ← checkT ts pos .Var
          if isLet then do
            let (_, pos) ← expectT ts pos .Let
            let (s, pos) ← parseVariableInit fuel ts true pos
            pure (some (ForInit.decl s), pos)
          else if isVar then do
            let (_, pos) ← expectT ts pos .Var
            let (s, pos) ← parseVariableInit fuel ts false pos
            pure (some (ForInit.decl s), pos)
          else do
            let (e, pos) ← parseExpr fuel ts BP.None pos
            pure (some (ForInit.init e), pos)
      let (_, pos) ← expectT ts pos .Semicolon
      let isSemi2 ← checkT ts pos .Semicolon
      let (condition, pos) ←
        if isSemi2 then pure ((none : Option Expr), pos)
        else do
          let (e, pos) ← parseExpr fuel ts BP.None pos
          pure (some e, pos)
      let (_, pos) ← expectT ts pos .Semicolon
      let isClose ← checkT ts pos .CloseParen
      let (update, pos) ←
        if isClose then pure ((none : Option Expr), pos)
        else do
          let (e, pos) ← parseExpr fuel ts BP.None pos
          pure (some e, pos)
      let (_, pos) ← expectT ts pos .CloseParen
      let pos ← skipSeparators ts pos
      let (body, pos) ← parseBlock fuel ts pos
      .ok (.forStmt initClause condition update body, pos)
termination_by structural f _ _ => f

/-- `parseEnumDecl`. -/
def parseEnumDecl : Nat → List Token → Nat → Except PErr (Stmt × Nat)
  | 0, _, _ => .error .fuel
  | fuel + 1, ts, pos => do
    let (_, pos) ← expectT ts pos .Enum
    let (nameTok, pos) ← expectT ts pos .Identifier
    let (_, pos) ← expectT ts pos .OpenCurly
    let pos ← skipSeparators ts pos
    enumMembersLoop fuel ts nameTok.value [] pos
termination_by structural f _ _ => f

/-- The member loop of `parseEnumDecl`. -/
def enumMembersLoop : Nat → List Token → String → List (String × Option Expr) →
    Nat → Except PErr (Stmt × Nat)
  | 0, _, _, _, _ => .error .fuel
  | fuel + 1, ts, name, acc, pos => do
    let t ← currentT ts pos
    if t.kind = .CloseCurly || t.kind = .EOF then do
      let (_, pos) ← expectT ts pos .CloseCurly
      .ok (.enumDecl name acc, pos)
    else do
      let (memberTok, pos) ← expectT ts pos .Identifier
      let (hasColon, pos) ← matchT ts pos [.Colon]
      let (value, pos) ←
        if hasColon then do
          let (e, pos) ← parseExpr fuel ts BP.None pos
          pure (some e, pos)
        else pure ((none : Option Expr), pos)
      let (_, pos) ← matchT ts pos [.Comma]
      let pos ← skipSeparators ts pos
      enumMembersLoop fuel ts name (acc ++ [(memberTok.value, value)]) pos
termination_by structural f _ _ _ _ => f

/-- `parseBlock`: returns the block statement list. -/
def parseBlock : Nat → List Token → Nat → Except PErr (List Stmt × Nat)
  | 0, _, _ => .error .fuel
  | fuel + 1, ts, pos => do
    let (_, pos) ← expectT ts pos .OpenCurly
    let pos ← skipSeparators ts pos
    blockLoop fuel ts [] pos
termination_by structural f _ _ => f

/-- The statement loop of `parseBlock`. -/
def blockLoop : Nat → List Token → List Stmt → Nat → Except PErr (List Stmt × Nat)
  | 0, _, _, _ => .error .fuel
  | fuel + 1, ts, acc, pos => do
    let t ← currentT ts pos
    if t.kind = .CloseCurly || t.kind = .EOF then do
      let (_, pos) ← expectT ts pos .CloseCurly
      .ok (acc, pos)
    else do
      let (s, pos) ← parseStmt fuel ts pos
      let pos ← skipSeparators ts pos
      blockLoop fuel ts (acc ++ [s]) pos
termination_by structural f _ _ _ => f

/-- `parseExprStmt`. -/
def parseExprStmt : Nat → List Token → Nat → Except PErr (Stmt × Nat)
  | 0, _, _ => .error .fuel
  | fuel + 1, ts, pos => do
    let (e, pos) ← parseExpr fuel ts BP.None pos
    let pos ← eatSeparator ts pos
    .ok (.exprStmt e, pos)
termination_by structural f _ _ => f

/-- `finishArrowFunc`: params (already past `(`), `=>`, then the brace
body. -/
def finishArrowFunc : Nat → List Token → Nat → Except PErr (Expr × Nat)
  | 0, _, _ => .error .fuel
  | fuel + 1, ts, pos => arrowParamsLoop fuel ts [] pos
termination_by structural f _ _ => f

/-- The parameter loop of `finishArrowFunc`, then arrow and body. -/
def arrowParamsLoop : Nat → List Token → List String → Nat →
    Except PErr (Expr × Nat)
  | 0, _, _, _ => .error .fuel
  | fuel + 1, ts, acc, pos => do
    let t ← currentT ts pos
    if t.kind = .CloseParen || t.kind = .EOF then do
      let (_, pos) ← expectT ts pos .CloseParen
      let (_, pos) ← expectT ts pos .Arrow
      let pos ← skipSeparators ts pos
      let (body, pos) ← parseBlock fuel ts pos
      .ok (.arrowFunc acc body, pos)
    else do
      let (tok, pos) ← expectT ts pos .Identifier
      let (m, pos) ← matchT ts pos [.Comma]
      if m then arrowParamsLoop fuel ts (acc ++ [tok.value]) pos
      else do
        let (_, pos) ← expectT ts pos .CloseParen
        let (_, pos) ← expectT ts pos .Arrow
        let pos ← skipSeparators ts pos
        let (body, pos) ← parseBlock fuel ts pos
        .ok (.arrowFunc (acc ++ [tok.value]) body, pos)
termination_by structural f _ _ _ => f

/-- `Parser.parseProgram()`. -/
def parseProgram : Nat → List Token → Nat → Except PErr (List Stmt × Nat)
  | 0, _, _ => .error .fuel
  | fuel + 1, ts, pos => do
    let pos ← skipSeparators ts pos
    programLoop fuel ts [] pos

/-- The top-level statement loop of `parseProgram`. -/
def programLoop : Nat → List Token → List Stmt → Nat →
    Except PErr (List Stmt × Nat)
  | 0, _, _, _ => .error .fuel
  | fuel + 1, ts, acc, pos => do
    let ended ← atEndT ts pos
    if ended then .ok (acc, pos)
    else do
      let (s, pos) ← parseStmt fuel ts pos
      let pos ← skipSeparators ts pos
      programLoop fuel ts (acc ++ [s]) pos
termination_by structural f _ _ _ => f

end

/-- Parse a source string as a single expression: tokenize, then run
`parseExpr` at the lowest binding power from position 0.  The fuel budget
grows with the input and is ample for every input considered here. -/
def parseExprSource (src : String) : Except PErr Expr :=
  match tokenize src with
  | .error c => .error (.lex c)
  | .ok ts => (parseExpr (src.length * 32 + 32) ts BP.None 0).map Prod.fst

/-- Parse a source string as a whole program (`Parser.parseProgram`). -/
def parseProgramSource (src : String) : Except PErr Program :=
  match tokenize src with
  | .error c => .error (.lex c)
  | .ok ts => (parseProgram (src.length * 32 + 32) ts 0).map Prod.fst

/-!
## The claims
-/

unseal tokenizeCore skipComments skipSeparators in
/-- C1: operator precedence and associativity follow the binding-power
table.  Multiplicative binds tighter than additive, binary arithmetic is
left-associative, and assignment and ternary are right-associative: their
right-hand side is parsed with a threshold (`BP.AssignmentRight`,
`BP.TernaryRight`) strictly below the operator's own binding power, as the
infix handlers show definitionally. -/
theorem c1_operator_precedence_and_associativity :
    parseExprSource "1 + 2 * 3" =
      .ok (.binary "+" (.num 1) (.binary "*" (.num 2) (.num 3))) ∧
    parseExprSource "1 - 2 - 3" =
      .ok (.binary "-" (.binary "-" (.num 1) (.num 2)) (.num 3)) ∧
    parseExprSource "a = b = 1" =
      .ok (.assign "=" (.ident "a") (.assign "=" (.ident "b") (.num 1))) ∧
    parseExprSource "a ? b : c ? d : e" =
      .ok (.ternary (.ident "a") (.ident "b")
        (.ternary (.ident "c") (.ident "d") (.ident "e"))) ∧
    BP.AssignmentRight < BP.Assignment ∧ BP.TernaryRight < BP.Ternary ∧
    BP.Additive < BP.Multiplicative ∧
    (∀ (fuel : Nat) (ts : List Token) (op : String) (left : Expr) (pos : Nat),
      applyLed (fuel + 1) ts (.assign op) BP.Assignment left pos =
        (parseExpr fuel ts BP.AssignmentRight pos).bind
          (fun vp => .ok (.assign op left vp.1, vp.2))) ∧
    (∀ (fuel : Nat) (ts : List Token) (left : Expr) (pos : Nat),
      applyLed (fuel + 1) ts .ternary BP.Ternary left pos =
        (parseExpr fuel ts BP.None pos).bind (fun cp =>
          (expectT ts cp.2 .Colon).bind (fun up =>
            (parseExpr fuel ts BP.TernaryRight up.2).bind (fun ap =>
              .ok (.ternary left cp.1 ap.1, ap.2))))) :=
  ⟨rfl, rfl, rfl, rfl, by decide, by decide, by decide,
   fun _ _ _ _ _ => rfl, fun _ _ _ _ => rfl⟩

theorem braceSplit_append {l inner r : List Char}
    (h : braceSplit l = some (inner, r)) : inner ++ '\x7d' :: r = l := by
  unfold braceSplit at h
  cases hdw : l.dropWhile (fun ch => !(ch = '\x7d')) with
  | nil => rw [hdw] at h; simp at h
  | cons hd tl =>
    rw [hdw] at h
    split at h
    · rename_i x r2 heq
      injection heq with ha hb
      simp only [Option.some.injEq, Prod.mk.injEq] at h
      rw [← h.1, ← h.2]
      conv_rhs => rw [← List.takeWhile_append_dropWhile
        (p := fun ch => !decide (ch = '\x7d')) (l := l)]
      rw [hdw, ha, hb]
    · simp at h

/-- The template scan consumes exactly the span it reports: the matched
characters followed by the rest reassemble the input. -/
theorem scanTemplate_append {cs m rest : List Char}
    (h : scanTemplate cs = some (m, rest)) : m ++ rest = cs := by
  induction cs using scanTemplate.induct generalizing m rest with
  | case1 => simp [scanTemplate] at h
  | case2 tl =>
    rw [scanTemplate.eq_def] at h
    simp only [Char.reduceEq, reduceIte, Option.some.injEq, Prod.mk.injEq] at h
    rw [← h.1, ← h.2]
    rfl
  | case3 => rw [scanTemplate.eq_def] at h; simp at h
  | case4 c2 tl2 hdot _ ih =>
    rw [scanTemplate.eq_def] at h
    simp only [Char.reduceEq, reduceIte, hdot, if_true] at h
    cases hmap : scanTemplate tl2 with
    | none => rw [hmap] at h; simp at h
    | some pr =>
      obtain ⟨m2, r2⟩ := pr
      rw [hmap] at h
      simp only [Option.map_some', Option.some.injEq, Prod.mk.injEq] at h
      rw [← h.1, ← h.2]
      simp [ih hmap]
  | case5 c2 tl2 hdot _ =>
    rw [scanTemplate.eq_def] at h
    simp [hdot] at h
  | case6 =>
    rw [scanTemplate.eq_def] at h
    simp at h
  | case7 tl1 inner tl2 hbr _ _ ih =>
    rw [scanTemplate.eq_def] at h
    simp only [Char.reduceEq, reduceIte] at h
    split at h
    · rename_i inner2 rest2 heq
      rw [hbr] at heq
      injection heq with heq2
      injection heq2 with ha hb
      subst ha
      subst hb
      cases hmap : scanTemplate tl2 with
      | none => rw [hmap] at h; simp at h
      | some pr =>
        obtain ⟨m2, r2⟩ := pr
        rw [hmap] at h
        simp only [Option.map_some', Option.some.injEq, Prod.mk.injEq] at h
        rw [← h.1, ← h.2]
        have h1 := ih hmap
        have h2 := braceSplit_append hbr
        simp only [List.cons_append, List.append_assoc, List.cons_inj_right]
        rw [← h2]
        simp [h1]
    · rename_i heq
      rw [hbr] at heq
      simp at heq
  | case8 tl1 hbr _ _ =>
    rw [scanTemplate.eq_def] at h
    simp only [Char.reduceEq, reduceIte] at h
    split at h
    · rename_i inner2 rest2 heq
      rw [hbr] at heq
      simp at heq
    · simp at h
  | case9 c2 tl hc2 _ _ ih =>
    rw [scanTemplate.eq_def] at h
    simp only [Char.reduceEq, reduceIte, hc2, if_false] at h
    cases hmap : scanTemplate (c2 :: tl) with
    | none => rw [hmap] at h; simp at h
    | some pr =>
      obtain ⟨m2, r2⟩ := pr
      rw [hmap] at h
      simp only [Option.map_some', Option.some.injEq, Prod.mk.injEq] at h
      rw [← h.1, ← h.2]
      simp [ih hmap]
  | case10 c2 tl hbt hbs hds ih =>
    rw [scanTemplate.eq_def] at h
    simp only [Char.reduceEq, reduceIte, hbt, hbs, hds, if_false] at h
    cases hmap : scanTemplate tl with
    | none => rw [hmap] at h; simp at h
    | some pr =>
      obtain ⟨m2, r2⟩ := pr
      rw [hmap] at h
      simp only [Option.map_some', Option.some.injEq, Prod.mk.injEq] at h
      rw [← h.1, ← h.2]
      simp [ih hmap]

unseal tokenizeCore scanTemplate in
/-- C4: a backtick template literal is captured whole (both backticks
included) as one `TemplateLiteral` token: concretely, an interpolation
containing a dict literal still yields a single token covering the entire
source; and in general a successful template scan consumes exactly the
span reported, so the pattern always emits one token whose text is the
whole matched literal. -/
theorem c4_template_literal_single_token :
    tokenize "`$\x7b \x7ba: 1\x7d \x7d`" =
      .ok [⟨.TemplateLiteral, "`$\x7b \x7ba: 1\x7d \x7d`"⟩, ⟨.EOF, ""⟩] ∧
    (∀ (acc : List Token) (tl m rest : List Char),
      scanTemplate tl = some (m, rest) →
      ('`' :: m) ++ rest = '`' :: tl ∧
      tokStepTemplate acc ('`' :: tl) =
        some (acc ++ [⟨.TemplateLiteral, ⟨'`' :: m⟩⟩], rest)) := by
  refine ⟨rfl, ?_⟩
  intro acc tl m rest h
  refine ⟨by simp [scanTemplate_append h], ?_⟩
  simp only [tokStepTemplate]
  rw [h]

unseal scanTemplate in
/-- C4 witness: the scan-level component at the concrete template input. -/
theorem c4_template_literal_single_token_witness :
    scanTemplate ['x', '`'] = some (['x', '`'], []) ∧
    tokStepTemplate [] ['`', 'x', '`'] =
      some ([⟨.TemplateLiteral, "`x`"⟩], []) := by
  have hscan : scanTemplate ['x', '`'] = some (['x', '`'], []) := rfl
  exact ⟨hscan,
    (c4_template_literal_single_token.2 [] ['x', '`'] ['x', '`'] [] hscan).2⟩

unseal expandTokens in
/-- C5: macro expansion is total and bounded: `expandTokens` is a total
function (well-founded recursion, see its definition), any call whose
nesting depth has passed the bound 24 fails with the depth-exceeded error
for every token list and macro table, and concretely a pair of mutually
recursive object-like macros fails with that error instead of diverging. -/
theorem c5_expansion_depth_bounded :
    (∀ (macros : MacroMap) (depth : Nat) (tokens : List Token),
      24 < depth → expandTokens macros depth tokens = .error .depthExceeded) ∧
    expandTokens
      [("A", ⟨none, [⟨.Identifier, "B"⟩]⟩), ("B", ⟨none, [⟨.Identifier, "A"⟩]⟩)]
      0 [⟨.Identifier, "A"⟩] = .error .depthExceeded := by
  constructor
  · intro macros depth tokens h
    rw [expandTokens.eq_def, if_pos h]
  · rfl

/-- C5 witness: the depth-bound component at a concrete over-deep call. -/
theorem c5_expansion_depth_bounded_witness :
    24 < 25 ∧ expandTokens [] 25 [⟨.Identifier, "x"⟩] = .error .depthExceeded :=
  ⟨by decide, c5_expansion_depth_bounded.1 [] 25 [⟨.Identifier, "x"⟩] (by decide)⟩

/-- C6: a self-alias macro (object-like, replacement exactly one identifier
token equal to its own name) is terminal: expanding an occurrence leaves
the token unchanged and proceeds to the rest of the list with the same
depth, with no recursive re-expansion; in particular a lone occurrence
expands to itself, not to a depth-exceeded error. -/
theorem c6_self_alias_no_reexpansion :
    ∀ (macros : MacroMap) (name : String) (depth : Nat) (rest : List Token),
      depth ≤ 24 →
      macroGet macros name = some ⟨none, [⟨.Identifier, name⟩]⟩ →
      expandTokens macros depth ((⟨.Identifier, name⟩ : Token) :: rest) =
        (fun ts => (⟨.Identifier, name⟩ : Token) :: ts) <$>
          expandTokens macros depth rest ∧
      expandTokens macros depth [(⟨.Identifier, name⟩ : Token)] =
        .ok [(⟨.Identifier, name⟩ : Token)] := by
  intro macros name depth rest hd hget
  have hstep : ∀ (r : List Token),
      expandTokens macros depth ((⟨.Identifier, name⟩ : Token) :: r) =
        (fun ts => (⟨.Identifier, name⟩ : Token) :: ts) <$>
          expandTokens macros depth r := by
    intro r
    rw [expandTokens.eq_def, if_neg (by omega)]
    simp only [hget]
    simp
  refine ⟨hstep rest, ?_⟩
  rw [hstep []]
  rw [expandTokens.eq_def, if_neg (by omega)]
  rfl

/-- C6 witness: the designed escape hatch at the concrete alias
`true → true`. -/
theorem c6_self_alias_no_reexpansion_witness :
    macroGet [("true", ⟨none, [⟨.Identifier, "true"⟩]⟩)] "true" =
      some ⟨none, [⟨.Identifier, "true"⟩]⟩ ∧
    expandTokens [("true", ⟨none, [⟨.Identifier, "true"⟩]⟩)] 0
      [(⟨.Identifier, "true"⟩ : Token)] = .ok [(⟨.Identifier, "true"⟩ : Token)] :=
  ⟨rfl,
   (c6_self_alias_no_reexpansion [("true", ⟨none, [⟨.Identifier, "true"⟩]⟩)]
     "true" 0 [] (by decide) rfl).2⟩

/-- The `seenElse` invariant of `collectIfChain`: the number of `$else`
branches in an ok result is bounded by those already collected, plus one
for a current `$else` branch, plus one more only while no `$else` has been
seen. -/
theorem collectIfChain_countElse :
    ∀ (n : Nat) (rest : List Token) (cd : Directive) (cb : List Token)
      (br : List IfBranch) (d : Nat) (se : Bool) (res : List IfBranch)
      (after : List Token),
    rest.length ≤ n →
    collectIfChain rest cd cb br d se = .ok (res, after) →
    res.countP (fun b => decide (b.directive = .elseD)) ≤
      br.countP (fun b => decide (b.directive = .elseD)) +
      (if cd = .elseD then 1 else 0) + (if se then 0 else 1) := by
  intro n
  induction n with
  | zero =>
    intro rest cd cb br d se res after hlen h
    have : rest = [] := List.length_eq_zero.mp (Nat.le_zero.mp hlen)
    subst this
    simp [collectIfChain] at h
  | succ n ih =>
    intro rest cd cb br d se res after hlen h
    match rest, hlen with
    | [], _ => simp [collectIfChain] at h
    | token :: tl, hlen =>
      rw [collectIfChain.eq_def] at h
      simp only [] at h
      have hlen2 : tl.length ≤ n := by
        simp only [List.length_cons] at hlen
        omega
      have hstep : ∀ (d0 : Nat),
          (match collectStepDepth token d0 with
           | .error e => (.error e : Except PPErr (List IfBranch × List Token))
           | .ok d2 => collectIfChain tl cd (cb ++ [token]) br d2 se) =
            .ok (res, after) →
          res.countP (fun b => decide (b.directive = .elseD)) ≤
            br.countP (fun b => decide (b.directive = .elseD)) +
            (if cd = .elseD then 1 else 0) + (if se then 0 else 1) := by
        intro d0 hh
        cases hsd : collectStepDepth token d0 with
        | error e => rw [hsd] at hh; exact absurd hh (by simp)
        | ok d2 =>
          rw [hsd] at hh
          exact ih _ _ _ _ _ _ _ _ hlen2 hh
      by_cases hbd : (decide (d = 0) && decide (token.kind = TokenKind.CloseCurly)) = true
      case neg =>
        rw [if_neg hbd] at h
        exact hstep d h
      case pos =>
        rw [if_pos hbd] at h
        cases hpr : List.dropWhile (fun t => isTrivia t.kind) tl with
        | nil =>
          rw [hpr] at h
          simp only [] at h
          exact hstep d h
        | cons next tl2 =>
          rw [hpr] at h
          simp only [] at h
          have htl2 : tl2.length + 1 ≤ tl.length := by
            have hle := (List.dropWhile_sublist (l := tl) (fun t => isTrivia t.kind)).length_le
            rw [hpr] at hle
            simp only [List.length_cons] at hle
            omega
          by_cases hnp : next.kind = TokenKind.Preprocessor
          case neg =>
            rw [if_neg hnp] at h
            exact hstep d h
          case pos =>
            rw [if_pos hnp] at h
            cases hpd : parseDirectiveToken next with
            | error e => rw [hpd] at h; exact absurd h (by simp)
            | ok parsed =>
              rw [hpd] at h
              cases parsed with
              | ifEnd =>
                simp only [Except.ok.injEq, Prod.mk.injEq] at h
                rw [← h.1]
                simp only [List.countP_append, List.countP_cons, List.countP_nil]
                by_cases hcd : cd = .elseD
                · simp [hcd]
                · simp [hcd]
              | dir dd =>
                cases dd with
                | elifD c =>
                  simp only [] at h
                  by_cases hse : se = true
                  · rw [if_pos hse] at h
                    exact absurd h (by simp)
                  · rw [if_neg hse] at h
                    have hse2 : se = false := by simpa using hse
                    subst hse2
                    have hrec := ih _ _ _ _ _ _ _ _ (by omega) h
                    simp only [List.countP_append, List.countP_cons,
                      List.countP_nil] at hrec
                    by_cases hcd : cd = Directive.elseD <;>
                      simp [hcd] at hrec ⊢ <;> omega
                | elseD =>
                  simp only [] at h
                  by_cases hse : se = true
                  · rw [if_pos hse] at h
                    exact absurd h (by simp)
                  · rw [if_neg hse] at h
                    have hse2 : se = false := by simpa using hse
                    subst hse2
                    have hrec := ih _ _ _ _ _ _ _ _ (by omega) h
                    simp only [List.countP_append, List.countP_cons,
                      List.countP_nil] at hrec
                    by_cases hcd : cd = Directive.elseD <;>
                      simp [hcd] at hrec ⊢ <;> omega
                | ifD c => exact hstep d h
                | includeD src => exact hstep d h
                | define a b2 c => exact hstep d h
                | undefine a => exact hstep d h

unseal collectIfChain in
/-- C9: once an `$else` branch has been collected, any further chain
directive before `$fi` is rejected with the elif-after-else error — a
second `$else` included — so an ok chain never holds two `$else`
branches. -/
theorem c9_second_else_rejected :
    (∀ (rest : List Token) (cond : String) (res : List IfBranch)
      (after : List Token),
      collectIfChain rest (.ifD cond) [] [] 0 false = .ok (res, after) →
      res.countP (fun b => decide (b.directive = .elseD)) ≤ 1) ∧
    collectIfChain [⟨.CloseCurly, "\x7d"⟩, ⟨.Preprocessor, "$else $\x7b"⟩,
        ⟨.CloseCurly, "\x7d"⟩, ⟨.Preprocessor, "$else $\x7b"⟩]
      (.ifD "a") [] [] 0 false = .error .elifAfterElse ∧
    collectIfChain [⟨.CloseCurly, "\x7d"⟩, ⟨.Preprocessor, "$else $\x7b"⟩,
        ⟨.CloseCurly, "\x7d"⟩, ⟨.Preprocessor, "$elif b $\x7b"⟩]
      (.ifD "a") [] [] 0 false = .error .elifAfterElse := by
  refine ⟨?_, rfl, rfl⟩
  intro rest cond res after h
  have hb := collectIfChain_countElse rest.length rest (.ifD cond) [] [] 0 false
    res after le_rfl h
  simpa using hb

unseal collectIfChain in
/-- C9 witness: a concrete chain with exactly one `$else` branch satisfies
the bound. -/
theorem c9_second_else_rejected_witness :
    collectIfChain [⟨.CloseCurly, "\x7d"⟩, ⟨.Preprocessor, "$else $\x7b"⟩,
        ⟨.CloseCurly, "\x7d"⟩, ⟨.Preprocessor, "$fi"⟩] (.ifD "a") [] [] 0 false =
      .ok ([⟨.ifD "a", []⟩, ⟨.elseD, []⟩], []) ∧
    ([(⟨.ifD "a", []⟩ : IfBranch), ⟨.elseD, []⟩].countP
      (fun b => decide (b.directive = .elseD))) ≤ 1 := by
  have h : collectIfChain [⟨.CloseCurly, "\x7d"⟩, ⟨.Preprocessor, "$else $\x7b"⟩,
      ⟨.CloseCurly, "\x7d"⟩, ⟨.Preprocessor, "$fi"⟩] (.ifD "a") [] [] 0 false =
      .ok ([⟨.ifD "a", []⟩, ⟨.elseD, []⟩], []) := rfl
  exact ⟨h, c9_second_else_rejected.1 _ "a" _ _ h⟩

/-- The single-identifier and truthiness fallback, as the spec words it:
a single bare identifier is literal for `true`/`false` and otherwise truthy
exactly when present in the macro table; any other shape stringifies and is
false exactly on `""`, `"0"`, `"false"`, `"null"`, `"undefined"`
(case-insensitive).  (Spec-following definition, for comparison with
`evaluateIfCondition`.) -/
def specIfFallback (tokens : List Token) (macros : MacroMap) : Except PPErr Bool :=
  match tokens with
  | [t] =>
    if t.kind = .Identifier then
      if t.value = "true" then .ok true
      else if t.value = "false" then .ok false
      else .ok (macroHas macros t.value)
    else
      let text := (stringifyTokens tokens).toLower
      .ok (!(text = "" || text = "0" || text = "false" || text = "null" ||
        text = "undefined"))
  | _ =>
    let text := (stringifyTokens tokens).toLower
    .ok (!(text = "" || text = "0" || text = "false" || text = "null" ||
      text = "undefined"))

/-- The claim's literal reading (spec-following definition): the comparison
fires on a `==`/`!=` token *with at least one token on each side* — i.e. on
the first position that both holds a comparator and is strictly inside the
list — rather than on the first comparator token wherever it sits. -/
def claimEvaluateIfCondition (condition : String) (macros : MacroMap) :
    Except PPErr Bool := do
  let raw ← tokenizeMacroValue condition
  let expanded ← expandTokens macros 0 raw
  let tokens := expanded.filter (fun t => !(isTrivia t.kind))
  if tokens.length = 0 then .ok false
  else
    match (List.range tokens.length).find? (fun i =>
        (tokens.get? i).any (fun t => t.kind = .Equals || t.kind = .NotEquals) &&
        decide (0 < i) && decide (i < tokens.length - 1)) with
    | some i =>
      let left := stringifyTokens (tokens.take i)
      let right := stringifyTokens (tokens.drop (i + 1))
      .ok (if (tokens.get? i).any (fun t => t.kind = .Equals) then
        decide (left = right) else !(left = right))
    | none => specIfFallback tokens macros

/-- The amended reading (spec-following definition): the *first* `==`/`!=`
token is the comparator, and the comparison fires only when that token has
at least one token on each side; otherwise evaluation falls through to the
single-identifier and truthiness rules. -/
def amendedEvaluateIfCondition (condition : String) (macros : MacroMap) :
    Except PPErr Bool := do
  let raw ← tokenizeMacroValue condition
  let expanded ← expandTokens macros 0 raw
  let tokens := expanded.filter (fun t => !(isTrivia t.kind))
  if tokens.length = 0 then .ok false
  else
    match tokens.dropWhile (fun t => !(t.kind = .Equals || t.kind = .NotEquals)) with
    | cmp :: rhs =>
      let lhs := tokens.takeWhile (fun t => !(t.kind = .Equals || t.kind = .NotEquals))
      if 0 < lhs.length ∧ 0 < rhs.length then
        .ok (if cmp.kind = .Equals
          then decide (stringifyTokens lhs = stringifyTokens rhs)
          else !(stringifyTokens lhs = stringifyTokens rhs))
      else specIfFallback tokens macros
    | [] => specIfFallback tokens macros

theorem evalIfFallback_eq_spec (tokens : List Token) (macros : MacroMap) :
    evaluateIfCondition.evalIfFallback tokens macros =
      specIfFallback tokens macros := by
  unfold evaluateIfCondition.evalIfFallback specIfFallback
  match tokens with
  | [] => simp
  | [t] =>
    by_cases ht : t.kind = TokenKind.Identifier
    · rw [dif_pos (by simp [ht])]
      simp [ht]
    · rw [dif_neg (by simp [ht])]
      simp [ht]
  | a :: b :: r => simp

/-- Bridge between `findIdx?` and the `takeWhile`/`dropWhile` split at the
first satisfying element. -/
theorem findIdx_split {α : Type} (p : α → Bool) (l : List α) :
    (l.findIdx? p = none → l.dropWhile (fun a => !p a) = []) ∧
    (∀ i, l.findIdx? p = some i →
      l.takeWhile (fun a => !p a) = l.take i ∧
      l.dropWhile (fun a => !p a) = l.drop i ∧
      (l.takeWhile (fun a => !p a)).length = i ∧ i < l.length) := by
  induction l with
  | nil => simp
  | cons a tl ih =>
    constructor
    · intro hnone
      rw [List.findIdx?_cons] at hnone
      by_cases hp : p a
      · simp [hp] at hnone
      · simp only [hp, Bool.false_eq_true, if_false, List.findIdx?_succ,
          Option.map_eq_none'] at hnone
        simp only [List.dropWhile_cons, hp, Bool.not_false, if_pos rfl]
        exact ih.1 hnone
    · intro i hi
      rw [List.findIdx?_cons] at hi
      by_cases hp : p a
      · simp only [hp, if_true, Option.some.injEq] at hi
        subst hi
        simp [List.takeWhile_cons, List.dropWhile_cons, hp]
      · simp only [hp, Bool.false_eq_true, if_false, List.findIdx?_succ] at hi
        cases hj : tl.findIdx? p with
        | none => rw [hj] at hi; simp at hi
        | some j =>
          rw [hj] at hi
          simp only [Option.map_some', Option.some.injEq] at hi
          subst hi
          obtain ⟨h1, h2, h3, h4⟩ := ih.2 j hj
          simp only [List.takeWhile_cons, List.dropWhile_cons, hp, Bool.not_false,
            if_true, if_pos rfl, List.take_succ_cons, List.drop_succ_cons,
            List.length_cons]
          exact ⟨by rw [h1], by rw [h2], by simp [h3], by omega⟩

/-- C3 (corrected): `evaluateIfCondition` agrees everywhere with the
amended reading — the comparator is the *first* `==`/`!=` token and the
comparison fires only when it has tokens on both sides. -/
theorem c3_if_condition_first_comparator :
    ∀ (condition : String) (macros : MacroMap),
      evaluateIfCondition condition macros =
        amendedEvaluateIfCondition condition macros := by
  intro condition macros
  unfold evaluateIfCondition amendedEvaluateIfCondition
  cases hraw : tokenizeMacroValue condition with
  | error e => simp [bind, Except.bind]
  | ok raw =>
    simp only [bind, Except.bind]
    cases hexp : expandTokens macros 0 raw with
    | error e => simp
    | ok expanded =>
      simp only []
      set tokens := expanded.filter (fun t => !(isTrivia t.kind)) with htok
      by_cases hlen : tokens.length = 0
      · simp [hlen]
      · rw [if_neg hlen, if_neg hlen]
        set p : Token → Bool :=
          (fun t => t.kind = TokenKind.Equals || t.kind = TokenKind.NotEquals) with hp
        cases hfi : tokens.findIdx? p with
        | none =>
          have hdw := (findIdx_split p tokens).1 hfi
          rw [hdw]
          exact evalIfFallback_eq_spec tokens macros
        | some i =>
          obtain ⟨h1, h2, h3, h4⟩ := (findIdx_split p tokens).2 i hfi
          have hdrop : tokens.drop i =
              tokens.get ⟨i, h4⟩ :: tokens.drop (i + 1) := by
            rw [List.drop_eq_getElem_cons h4]
            simp
          rw [h2, hdrop]
          simp only []
          rw [h1]
          have hgets : tokens.get? i = some (tokens.get ⟨i, h4⟩) :=
            List.get?_eq_get h4
          by_cases hcond : 0 < i ∧ i < tokens.length - 1
          · rw [if_pos (show (decide (0 < i) && decide (i < tokens.length - 1)) = true
              by simp [hcond.1, hcond.2])]
            rw [if_pos (show 0 < (tokens.take i).length ∧
                0 < (tokens.drop (i + 1)).length by
              constructor
              · simp only [List.length_take]
                omega
              · simp only [List.length_drop]
                omega)]
            simp [List.getElem?_eq_getElem h4]
          · rw [if_neg (show ¬((decide (0 < i) && decide (i < tokens.length - 1)) = true)
              by simpa using hcond)]
            rw [if_neg (show ¬(0 < (tokens.take i).length ∧
                0 < (tokens.drop (i + 1)).length) by
              intro hc
              obtain ⟨hc1, hc2⟩ := hc
              simp only [List.length_take] at hc1
              simp only [List.length_drop] at hc2
              exact hcond ⟨by omega, by omega⟩)]
            exact evalIfFallback_eq_spec tokens macros

unseal tokenizeCore expandTokens String.mapAux in
/-- C3 counterexample: on `"== a == b"` with no macros the code evaluates
true (its comparator search takes the *first* `==`, which sits at index 0,
so the comparison never fires and the non-empty token text is truthy),
while the claim's literal reading compares around the second `==` — a
comparator with tokens on both sides — and yields false. -/
theorem c3_if_condition_counterexample :
    evaluateIfCondition "== a == b" [] = .ok true ∧
    claimEvaluateIfCondition "== a == b" [] = .ok false ∧
    evaluateIfCondition "== a == b" [] ≠ claimEvaluateIfCondition "== a == b" [] :=
  ⟨rfl, rfl, by
    intro h
    have h1 : (.ok true : Except PPErr Bool) = .ok false :=
      calc (.ok true : Except PPErr Bool)
          = evaluateIfCondition "== a == b" [] := rfl
        _ = claimEvaluateIfCondition "== a == b" [] := h
        _ = .ok false := rfl
    simp at h1⟩

unseal tokenizeCore processTokenStream in
/-- C7: preprocessing cannot recurse forever through includes
(`processTokenStream` is total by well-founded recursion on the loader
paths not yet on the include stack): a `$include` whose resolved path is
already on the active include stack fails with the circular-include error,
for every loader, stack and state; and a concrete two-file include cycle
ends in that error rather than divergence. -/
theorem c7_circular_include_rejected :
    (∀ (loader : List (String × String)) (baseDir : String)
      (includeStack : List String) (emitOutput : Bool) (token : Token)
      (tl : List Token) (st : PState) (source : String),
      token.kind = .Preprocessor →
      parseDirectiveToken token = .ok (.dir (.includeD source)) →
      pathResolve baseDir source ∈ includeStack →
      processTokenStream loader baseDir includeStack emitOutput (token :: tl) st =
        .error (.circularInclude source)) ∧
    (match tokenize "$include /a" with
     | .error c => .error (.lex c)
     | .ok ts =>
       preprocessTokens ts "" [("/a", "$include /b"), ("/b", "$include /a")] []) =
      (.error (.circularInclude "/a") : Except PPErr PreprocessResult) := by
  constructor
  · intro loader baseDir includeStack emitOutput token tl st source hkind hparse hmem
    rw [processTokenStream.eq_def]
    simp only [hkind, if_pos rfl, hparse]
    rw [dif_pos hmem]
    simp
  · rfl

/-- C7 witness: the stack-check component at a concrete on-stack include. -/
theorem c7_circular_include_rejected_witness :
    processTokenStream [] "" ["/a"] true
      [⟨.Preprocessor, "$include /a"⟩] ⟨[], [], []⟩ =
      .error (.circularInclude "/a") :=
  c7_circular_include_rejected.1 [] "" ["/a"] true
    ⟨.Preprocessor, "$include /a"⟩ [] ⟨[], [], []⟩ "/a" rfl rfl
    (by simp [pathResolve])

/-- With an empty macro table, expansion at depth 0 is the identity. -/
theorem expandTokens_nil_macros (ts : List Token) :
    expandTokens [] 0 ts = .ok ts := by
  induction ts with
  | nil => rw [expandTokens.eq_def]; rfl
  | cons t rest ih =>
    rw [expandTokens.eq_def]
    simp only [show ¬(24 < 0) by omega, if_false]
    by_cases hk : t.kind = TokenKind.Identifier
    · simp only [hk, if_pos rfl]
      have hget : macroGet [] t.value = none := rfl
      rw [hget]
      rw [ih]
      rfl
    · rw [if_neg hk, ih]
      rfl

/-- A directive-free token list is passed through `processTokenStream` in
one output chunk, untouched, when the macro table is empty. -/
theorem processTokenStream_no_directives (ts : List Token)
    (loader : List (String × String)) (baseDir : String)
    (includeStack : List String) (dirs : List Directive) (out : List Token)
    (hnp : ∀ t ∈ ts, ¬(t.kind = .Preprocessor)) :
    processTokenStream loader baseDir includeStack true ts ⟨[], dirs, out⟩ =
      .ok ⟨[], dirs, out ++ ts⟩ := by
  cases ts with
  | nil => rw [processTokenStream.eq_def]; simp
  | cons token tl =>
    rw [processTokenStream.eq_def]
    have hk := hnp token (by simp)
    simp only [if_neg hk]
    have htw : tl.takeWhile (fun t => !(t.kind = TokenKind.Preprocessor)) = tl :=
      List.takeWhile_eq_self_iff.mpr (by
        intro a ha
        simpa using hnp a (by simp [ha]))
    have hdw : tl.dropWhile (fun t => !(t.kind = TokenKind.Preprocessor)) = [] :=
      List.dropWhile_eq_nil_iff.mpr (by
        intro a ha
        simpa using hnp a (by simp [ha]))
    simp only [Bool.not_true, htw, hdw]
    rw [expandTokens_nil_macros]
    simp only [Bool.false_eq_true, if_false]
    rw [processTokenStream.eq_def]

/-- C8: preprocessing a directive-free, EOF-terminated stream with an empty
macro table is the identity transform: the tokens come back verbatim ending
in the original EOF sentinel, the directive trace is empty and no defines
are reported. -/
theorem c8_no_directives_identity :
    ∀ (tokens : List Token) (baseDir : String) (loader : List (String × String))
      (hne : tokens ≠ []),
      (tokens.getLast hne).kind = .EOF →
      (∀ t ∈ tokens, ¬(t.kind = .Preprocessor)) →
      preprocessTokens tokens baseDir loader [] =
        .ok ⟨tokens, [], []⟩ := by
  intro tokens baseDir loader hne hEOF hnp
  unfold preprocessTokens
  have hmac : buildInitialMacros [] [] = .ok [] := rfl
  rw [hmac]
  simp only [bind, Except.bind]
  rw [processTokenStream_no_directives tokens.dropLast loader baseDir [] [] []
    (fun t ht => hnp t (List.dropLast_sublist tokens |>.mem ht))]
  simp only [List.nil_append]
  have hlast : tokens.getLast? = some (tokens.getLast hne) :=
    List.getLast?_eq_getLast tokens hne
  rw [hlast]
  simp only [Option.getD_some]
  rw [List.dropLast_append_getLast hne]
  rfl

/-- C8 witness: a concrete directive-free stream is returned verbatim. -/
theorem c8_no_directives_identity_witness :
    preprocessTokens [⟨.Identifier, "x"⟩, ⟨.EOF, ""⟩] "" [] [] =
      .ok ⟨[⟨.Identifier, "x"⟩, ⟨.EOF, ""⟩], [], []⟩ :=
  c8_no_directives_identity [⟨.Identifier, "x"⟩, ⟨.EOF, ""⟩] "" []
    (by simp) (by simp) (by decide)

/-- The newline handler emission condition: the last emitted non-comment
token can end a statement. -/
def newlineEmitCond (acc : List Token) : Bool :=
  (lastNonCommentToken acc).any (fun p => decide (p.kind ∈ stmtEnders))

/-- Sound newline placement: every `Newline` token is preceded by an
emitted-token prefix whose last non-comment member can end a statement. -/
def newlineSound (out : List Token) : Prop :=
  ∀ (pre : List Token) (nl : Token) (post : List Token),
    out = pre ++ nl :: post → nl.kind = .Newline → newlineEmitCond pre = true

/-- Shape of one tokenizer step's emissions: nothing, or a single token
that may be a `Newline` only under the emission condition. -/
def stepEmitsOk (acc acc2 : List Token) : Prop :=
  acc2 = acc ∨
    ∃ t, acc2 = acc ++ [t] ∧ (t.kind = .Newline → newlineEmitCond acc = true)

theorem keywordKind_ne_newline {w : String} {k : TokenKind}
    (h : keywordKind w = some k) : ¬k = .Newline := by
  intro hk
  subst hk
  unfold keywordKind at h
  by_cases h0 : w = "enum"
  · rw [if_pos h0] at h
    injection h with h2
    exact TokenKind.noConfusion h2
  rw [if_neg h0] at h
  by_cases h1 : w = "import"
  · rw [if_pos h1] at h
    injection h with h2
    exact TokenKind.noConfusion h2
  rw [if_neg h1] at h
  by_cases h2 : w = "from"
  · rw [if_pos h2] at h
    injection h with h2
    exact TokenKind.noConfusion h2
  rw [if_neg h2] at h
  by_cases h3 : w = "as"
  · rw [if_pos h3] at h
    injection h with h2
    exact TokenKind.noConfusion h2
  rw [if_neg h3] at h
  by_cases h4 : w = "var"
  · rw [if_pos h4] at h
    injection h with h2
    exact TokenKind.noConfusion h2
  rw [if_neg h4] at h
  by_cases h5 : w = "delete"
  · rw [if_pos h5] at h
    injection h with h2
    exact TokenKind.noConfusion h2
  rw [if_neg h5] at h
  by_cases h6 : w = "let"
  · rw [if_pos h6] at h
    injection h with h2
    exact TokenKind.noConfusion h2
  rw [if_neg h6] at h
  by_cases h7 : w = "func"
  · rw [if_pos h7] at h
    injection h with h2
    exact TokenKind.noConfusion h2
  rw [if_neg h7] at h
  by_cases h8 : w = "return"
  · rw [if_pos h8] at h
    injection h with h2
    exact TokenKind.noConfusion h2
  rw [if_neg h8] at h
  by_cases h9 : w = "if"
  · rw [if_pos h9] at h
    injection h with h2
    exact TokenKind.noConfusion h2
  rw [if_neg h9] at h
  by_cases h10 : w = "else"
  · rw [if_pos h10] at h
    injection h with h2
    exact TokenKind.noConfusion h2
  rw [if_neg h10] at h
  by_cases h11 : w = "for"
  · rw [if_pos h11] at h
    injection h with h2
    exact TokenKind.noConfusion h2
  rw [if_neg h11] at h
  by_cases h12 : w = "while"
  · rw [if_pos h12] at h
    injection h with h2
    exact TokenKind.noConfusion h2
  rw [if_neg h12] at h
  by_cases h13 : w = "in"
  · rw [if_pos h13] at h
    injection h with h2
    exact TokenKind.noConfusion h2
  rw [if_neg h13] at h
  exact Option.noConfusion h

theorem matchOp_ne_newline {cs : List Char} {st : String} {k : TokenKind}
    {rest : List Char} (h : matchOp cs = some (st, k, rest)) : ¬k = .Newline := by
  unfold matchOp at h
  obtain ⟨e, hmem, hf⟩ := List.exists_of_findSome?_eq_some h
  split at hf
  · simp only [Option.some.injEq, Prod.mk.injEq] at hf
    obtain ⟨-, h2, -⟩ := hf
    rw [← h2]
    have hall : ∀ e ∈ opTable, ¬e.2 = TokenKind.Newline := by decide
    exact hall e hmem
  · simp at hf

theorem tokStepIdent_emits {acc acc2 : List Token} {cs rest : List Char}
    (h : tokStepIdent acc cs = some (acc2, rest)) : stepEmitsOk acc acc2 := by
  unfold tokStepIdent at h
  cases cs with
  | nil => simp at h
  | cons c tl =>
    by_cases hc : isIdentStart c
    · simp only [hc, if_true, Option.some.injEq, Prod.mk.injEq] at h
      refine Or.inr ⟨_, h.1.symm, ?_⟩
      intro hk
      exfalso
      cases hkk : keywordKind ⟨c :: tl.takeWhile isWordChar⟩ with
      | none => rw [hkk] at hk; exact absurd hk (by simp)
      | some k => rw [hkk] at hk; exact keywordKind_ne_newline hkk hk
    · simp [hc] at h

theorem tokStepOp_emits {acc acc2 : List Token} {cs rest : List Char}
    (h : tokStepOp acc cs = some (acc2, rest)) : stepEmitsOk acc acc2 := by
  unfold tokStepOp at h
  cases hop : matchOp cs with
  | none => rw [hop] at h; exact tokStepIdent_emits h
  | some pr =>
    obtain ⟨st, k, r⟩ := pr
    rw [hop] at h
    simp only [Option.some.injEq, Prod.mk.injEq] at h
    exact Or.inr ⟨_, h.1.symm, fun hk => absurd hk (matchOp_ne_newline hop)⟩

theorem tokStepNumber_emits {acc acc2 : List Token} {cs rest : List Char}
    (h : tokStepNumber acc cs = some (acc2, rest)) : stepEmitsOk acc acc2 := by
  unfold tokStepNumber at h
  cases hrun : takeRun1 isDigitChar cs with
  | none => rw [hrun] at h; exact tokStepOp_emits h
  | some pr =>
    obtain ⟨intPart, r⟩ := pr
    rw [hrun] at h
    simp only [] at h
    cases r with
    | nil =>
      simp only [Option.some.injEq, Prod.mk.injEq] at h
      exact Or.inr ⟨_, h.1.symm, fun hk => absurd hk (by simp)⟩
    | cons c1 tl2 =>
      by_cases hdot : c1 = '.'
      · subst hdot
        simp only [] at h
        cases hrun2 : takeRun1 isDigitChar tl2 with
        | none =>
          rw [hrun2] at h
          simp only [Option.some.injEq, Prod.mk.injEq] at h
          exact Or.inr ⟨_, h.1.symm, fun hk => absurd hk (by simp)⟩
        | some pr2 =>
          obtain ⟨frac, r2⟩ := pr2
          rw [hrun2] at h
          simp only [Option.some.injEq, Prod.mk.injEq] at h
          exact Or.inr ⟨_, h.1.symm, fun hk => absurd hk (by simp)⟩
      · split at h
        · rename_i heq
          injection heq with ha hb
          exact absurd ha hdot
        · simp only [Option.some.injEq, Prod.mk.injEq] at h
          exact Or.inr ⟨_, h.1.symm, fun hk => absurd hk (by simp)⟩

theorem tokStepSQuote_emits {acc acc2 : List Token} {cs rest : List Char}
    (h : tokStepSQuote acc cs = some (acc2, rest)) : stepEmitsOk acc acc2 := by
  unfold tokStepSQuote at h
  split at h
  · rename_i tl
    cases hscan : scanStringLit '\'' tl with
    | none => rw [hscan] at h; simp at h
    | some pr =>
      obtain ⟨m2, r2⟩ := pr
      rw [hscan] at h
      simp only [Option.some.injEq, Prod.mk.injEq] at h
      exact Or.inr ⟨_, h.1.symm, fun hk => absurd hk (by simp)⟩
  · exact tokStepNumber_emits h

theorem tokStepDQuote_emits {acc acc2 : List Token} {cs rest : List Char}
    (h : tokStepDQuote acc cs = some (acc2, rest)) : stepEmitsOk acc acc2 := by
  unfold tokStepDQuote at h
  split at h
  · rename_i tl
    cases hscan : scanStringLit '"' tl with
    | none => rw [hscan] at h; simp at h
    | some pr =>
      obtain ⟨m2, r2⟩ := pr
      rw [hscan] at h
      simp only [Option.some.injEq, Prod.mk.injEq] at h
      exact Or.inr ⟨_, h.1.symm, fun hk => absurd hk (by simp)⟩
  · exact tokStepSQuote_emits h

theorem tokStepTemplate_emits {acc acc2 : List Token} {cs rest : List Char}
    (h : tokStepTemplate acc cs = some (acc2, rest)) : stepEmitsOk acc acc2 := by
  unfold tokStepTemplate at h
  split at h
  · rename_i tl
    cases hscan : scanTemplate tl with
    | none => rw [hscan] at h; simp at h
    | some pr =>
      obtain ⟨m2, r2⟩ := pr
      rw [hscan] at h
      simp only [Option.some.injEq, Prod.mk.injEq] at h
      exact Or.inr ⟨_, h.1.symm, fun hk => absurd hk (by simp)⟩
  · exact tokStepDQuote_emits h

theorem tokStepPre_emits {acc acc2 : List Token} {cs rest : List Char}
    (h : tokStepPre acc cs = some (acc2, rest)) : stepEmitsOk acc acc2 := by
  unfold tokStepPre at h
  split at h
  · simp only [Option.some.injEq, Prod.mk.injEq] at h
    exact Or.inr ⟨_, h.1.symm, fun hk => absurd hk (by simp)⟩
  · exact tokStepTemplate_emits h

theorem tokStepBlock_emits {acc acc2 : List Token} {cs rest : List Char}
    (h : tokStepBlock acc cs = some (acc2, rest)) : stepEmitsOk acc acc2 := by
  unfold tokStepBlock at h
  split at h
  · rename_i tl
    cases hscan : scanBlockComment tl with
    | none => rw [hscan] at h; simp at h
    | some pr =>
      obtain ⟨m2, r2⟩ := pr
      rw [hscan] at h
      simp only [Option.some.injEq, Prod.mk.injEq] at h
      exact Or.inr ⟨_, h.1.symm, fun hk => absurd hk (by simp)⟩
  · exact tokStepPre_emits h

theorem tokStepLine_emits {acc acc2 : List Token} {cs rest : List Char}
    (h : tokStepLine acc cs = some (acc2, rest)) : stepEmitsOk acc acc2 := by
  unfold tokStepLine at h
  split at h
  · simp only [Option.some.injEq, Prod.mk.injEq] at h
    exact Or.inr ⟨_, h.1.symm, fun hk => absurd hk (by simp)⟩
  · exact tokStepBlock_emits h

theorem tokStepNewline_emits {acc acc2 : List Token} {cs rest : List Char}
    (h : tokStepNewline acc cs = some (acc2, rest)) : stepEmitsOk acc acc2 := by
  unfold tokStepNewline at h
  cases hrun : takeRun1 (fun c => c = '\n') cs with
  | none => rw [hrun] at h; exact tokStepLine_emits h
  | some pr =>
    obtain ⟨m2, r2⟩ := pr
    rw [hrun] at h
    simp only [Option.some.injEq, Prod.mk.injEq] at h
    cases hlast : lastNonCommentToken acc with
    | none =>
      rw [hlast] at h
      exact Or.inl h.1.symm
    | some prev =>
      rw [hlast] at h
      by_cases hend : prev.kind ∈ stmtEnders
      · simp only [if_pos hend] at h
        refine Or.inr ⟨_, h.1.symm, fun _ => ?_⟩
        unfold newlineEmitCond
        rw [hlast]
        simp [hend]
      · simp only [if_neg hend] at h
        exact Or.inl h.1.symm

theorem tokStep_emits {acc acc2 : List Token} {cs rest : List Char}
    (h : tokStep acc cs = some (acc2, rest)) : stepEmitsOk acc acc2 := by
  unfold tokStep at h
  cases hrun : takeRun1 isHWs cs with
  | none => rw [hrun] at h; exact tokStepNewline_emits h
  | some pr =>
    obtain ⟨m2, r2⟩ := pr
    rw [hrun] at h
    simp only [Option.some.injEq, Prod.mk.injEq] at h
    exact Or.inl h.1.symm

theorem stepEmitsOk_sound {acc acc2 : List Token}
    (hs : newlineSound acc) (he : stepEmitsOk acc acc2) : newlineSound acc2 := by
  rcases he with rfl | ⟨t, rfl, himp⟩
  · exact hs
  · intro pre nl post heq hnl
    rcases List.eq_nil_or_concat post with rfl | ⟨ys, y, rfl⟩
    · obtain ⟨h1, h2⟩ := List.append_inj' heq rfl
      injection h2 with h2
      subst h1
      exact himp (h2 ▸ hnl)
    · have heq2 : acc ++ [t] = (pre ++ nl :: ys) ++ [y] := by
        simpa [List.append_assoc] using heq
      obtain ⟨h1, -⟩ := List.append_inj' heq2 rfl
      exact hs pre nl ys h1 hnl

theorem tokenizeCore_newlineSound :
    ∀ (cs : List Char) (acc : List Token), newlineSound acc →
      ∀ out, tokenizeCore cs acc = .ok out → newlineSound out := by
  intro cs acc
  induction cs, acc using tokenizeCore.induct with
  | case1 acc =>
    intro hs out hout
    simp only [tokenizeCore, Except.ok.injEq] at hout
    subst hout
    exact stepEmitsOk_sound hs
      (Or.inr ⟨⟨.EOF, ""⟩, rfl, fun hk => absurd hk (by decide)⟩)
  | case2 c tl acc acc2 rest hstep ih =>
    intro hs out hout
    rw [tokenizeCore.eq_def] at hout
    simp only [] at hout
    split at hout
    · rename_i acc2b restb hstep2
      rw [hstep] at hstep2
      injection hstep2 with hpr
      injection hpr with ha hb
      subst ha
      subst hb
      exact ih (stepEmitsOk_sound hs (tokStep_emits hstep)) out hout
    · rename_i hstep2
      rw [hstep] at hstep2
      exact absurd hstep2 (by simp)
  | case3 c tl acc hstep =>
    intro hs out hout
    rw [tokenizeCore.eq_def] at hout
    simp only [] at hout
    split at hout
    · rename_i acc2b restb hstep2
      rw [hstep] at hstep2
      exact absurd hstep2 (by simp)
    · exact absurd hout (by simp)

/-- C2: a run of newline characters emits one `Newline` token exactly when
the most recent non-comment token is in the fixed statement-ending set —
the whole run is consumed by that one step, so a maximal run yields at most
one token — and in any tokenizer output every `Newline` token is preceded
by a last non-comment token from that set (hence none at stream start and
none after operators, commas or open brackets, whose kinds are not in the
set). -/
theorem c2_newline_emission :
    (∀ (acc : List Token) (tl : List Char),
      tokStep acc ('\n' :: tl) =
        some ((match lastNonCommentToken acc with
          | some prev =>
            if prev.kind ∈ stmtEnders then acc ++ [⟨.Newline, "\n"⟩] else acc
          | none => acc), tl.dropWhile (fun c => c = '\n'))) ∧
    (∀ (src : String) (out : List Token), tokenize src = .ok out →
      ∀ (pre : List Token) (nl : Token) (post : List Token),
        out = pre ++ nl :: post → nl.kind = .Newline →
        newlineEmitCond pre = true) := by
  constructor
  · intro acc tl
    unfold tokStep
    have h1 : takeRun1 isHWs ('\n' :: tl) = none := by
      unfold takeRun1
      simp [isHWs]
    rw [h1]
    unfold tokStepNewline
    have h2 : takeRun1 (fun c => c = '\n') ('\n' :: tl) =
        some ('\n' :: tl.takeWhile (fun c => c = '\n'),
          tl.dropWhile (fun c => c = '\n')) := by
      unfold takeRun1
      simp
    rw [h2]
  · intro src out hout pre nl post heq hnl
    exact tokenizeCore_newlineSound src.toList [] (by intro p n q hq _; simp at hq)
      out hout pre nl post heq hnl

unseal tokenizeCore in
/-- C2 witness: after an identifier the newline run emits one `Newline`;
the stream-level component instantiated on a concrete source. -/
theorem c2_newline_emission_witness :
    tokStep [⟨.Identifier, "a"⟩] ['\n', '\n', 'b'] =
      some ([⟨.Identifier, "a"⟩, ⟨.Newline, "\n"⟩], ['b']) ∧
    newlineEmitCond [⟨.Identifier, "a"⟩] = true := by
  constructor
  · have h := c2_newline_emission.1 [⟨.Identifier, "a"⟩] ['\n', 'b']
    simpa using h
  · have htok : tokenize "a\n\nb" =
        .ok [⟨.Identifier, "a"⟩, ⟨.Newline, "\n"⟩, ⟨.Identifier, "b"⟩,
          ⟨.EOF, ""⟩] := rfl
    exact c2_newline_emission.2 "a\n\nb" _ htok
      [⟨.Identifier, "a"⟩] ⟨.Newline, "\n"⟩ [⟨.Identifier, "b"⟩, ⟨.EOF, ""⟩]
      rfl rfl

/-- The token array ends in an `EOF` sentinel. -/
def endsEOF (ts : List Token) : Prop :=
  ts.getLast?.map Token.kind = some .EOF

/-- Position safety of a parser result: never the out-of-bounds error, and
an ok position stays inside the token array. -/
def POk {α : Type} (ts : List Token) : Except PErr (α × Nat) → Prop
  | .error e => ¬e = .oob
  | .ok (_, p) => p < ts.length

/-- A positionless result: never the out-of-bounds error. -/
def NOk {α : Type} : Except PErr α → Prop
  | .error e => ¬e = .oob
  | .ok _ => True

/-- A bare-position result: never out of bounds, position inside the
array. -/
def PosOk (ts : List Token) : Except PErr Nat → Prop
  | .error e => ¬e = .oob
  | .ok p => p < ts.length

theorem pOk_error {α : Type} {ts : List Token} {e : PErr} (h : ¬e = .oob) :
    POk (α := α) ts (.error e) := h

theorem pOk_ok {α : Type} {ts : List Token} {a : α} {p : Nat}
    (h : p < ts.length) : POk ts (.ok (a, p)) := h

theorem nOk_error {α : Type} {e : PErr} (h : ¬e = .oob) :
    NOk (α := α) (.error e) := h

theorem nOk_ok {α : Type} {a : α} : NOk (.ok a) := trivial

theorem pOk_bind {α β : Type} {ts : List Token} {r : Except PErr (α × Nat)}
    {f : α × Nat → Except PErr (β × Nat)} (h1 : POk ts r)
    (h2 : ∀ a p, r = .ok (a, p) → p < ts.length → POk ts (f (a, p))) :
    POk ts (r >>= f) := by
  cases r with
  | error e => exact h1
  | ok ap => exact h2 ap.1 ap.2 (by rw [Prod.mk.eta]) h1

theorem pOk_bindN {β : Type} {ts : List Token} {r : Except PErr Nat}
    {f : Nat → Except PErr (β × Nat)} (h1 : PosOk ts r)
    (h2 : ∀ p, r = .ok p → p < ts.length → POk ts (f p)) :
    POk ts (r >>= f) := by
  cases r with
  | error e => exact h1
  | ok p => exact h2 p rfl h1

theorem pOk_bindA {α β : Type} {ts : List Token} {r : Except PErr α}
    {f : α → Except PErr (β × Nat)} (h1 : NOk r)
    (h2 : ∀ a, r = .ok a → POk ts (f a)) :
    POk ts (r >>= f) := by
  cases r with
  | error e => exact h1
  | ok a => exact h2 a rfl

theorem nOk_bindA {α β : Type} {r : Except PErr α}
    {f : α → Except PErr β} (h1 : NOk r)
    (h2 : ∀ a, r = .ok a → NOk (f a)) :
    NOk (r >>= f) := by
  cases r with
  | error e => exact h1
  | ok a => exact h2 a rfl

theorem posOk_bindA {α : Type} {ts : List Token} {r : Except PErr α}
    {f : α → Except PErr Nat} (h1 : NOk r)
    (h2 : ∀ a, r = .ok a → PosOk ts (f a)) :
    PosOk ts (r >>= f) := by
  cases r with
  | error e => exact h1
  | ok a => exact h2 a rfl

theorem endsEOF_succ_lt {ts : List Token} {pos : Nat} (hE : endsEOF ts)
    (hp : pos < ts.length) (hk : ¬(ts.get ⟨pos, hp⟩).kind = .EOF) :
    pos + 1 < ts.length := by
  rcases Nat.lt_or_ge (pos + 1) ts.length with h | h
  · exact h
  · exfalso
    have hpe : pos = ts.length - 1 := by omega
    have h1 : ts.getLast? = some (ts.get ⟨pos, hp⟩) := by
      rw [List.getLast?_eq_getElem?, List.getElem?_eq_getElem (by omega)]
      simp only [List.get_eq_getElem, Option.some.injEq]
      congr 1
      omega
    unfold endsEOF at hE
    rw [h1] at hE
    simp only [Option.map_some', Option.some.injEq] at hE
    exact hk hE

theorem currentT_eq {ts : List Token} {pos : Nat} (hp : pos < ts.length) :
    currentT ts pos = .ok (ts.get ⟨pos, hp⟩) := by
  unfold currentT
  rw [List.get?_eq_get hp]

theorem currentT_nOk {ts : List Token} {pos : Nat} (hp : pos < ts.length) :
    NOk (currentT ts pos) := by
  rw [currentT_eq hp]
  exact nOk_ok

theorem advanceT_eq {ts : List Token} {pos : Nat} (hp : pos < ts.length) :
    advanceT ts pos = .ok (ts.get ⟨pos, hp⟩,
      if (ts.get ⟨pos, hp⟩).kind = .EOF then pos else pos + 1) := by
  unfold advanceT
  rw [currentT_eq hp]
  rfl

theorem advanceT_pOk {ts : List Token} {pos : Nat} (hE : endsEOF ts)
    (hp : pos < ts.length) : POk ts (advanceT ts pos) := by
  rw [advanceT_eq hp]
  by_cases hk : (ts.get ⟨pos, hp⟩).kind = .EOF
  · rw [if_pos hk]
    exact pOk_ok hp
  · rw [if_neg hk]
    exact pOk_ok (endsEOF_succ_lt hE hp hk)

theorem posOk_bindP {α : Type} {ts : List Token} {r : Except PErr (α × Nat)}
    {f : α × Nat → Except PErr Nat} (h1 : POk ts r)
    (h2 : ∀ a p, r = .ok (a, p) → p < ts.length → PosOk ts (f (a, p))) :
    PosOk ts (r >>= f) := by
  cases r with
  | error e => exact h1
  | ok ap => exact h2 ap.1 ap.2 (by rw [Prod.mk.eta]) h1

theorem expectT_pOk {ts : List Token} {pos : Nat} {k : TokenKind}
    (hE : endsEOF ts) (hp : pos < ts.length) : POk ts (expectT ts pos k) := by
  unfold expectT
  refine pOk_bindA (currentT_nOk hp) (fun t ht => ?_)
  by_cases hk : t.kind = k
  · rw [if_pos hk]
    exact advanceT_pOk hE hp
  · rw [if_neg hk]
    exact pOk_error (by simp)

theorem checkT_nOk {ts : List Token} {pos : Nat} {k : TokenKind}
    (hp : pos < ts.length) : NOk (checkT ts pos k) := by
  unfold checkT
  exact nOk_bindA (currentT_nOk hp) (fun t ht => nOk_ok)

theorem matchT_pOk {ts : List Token} {pos : Nat} {ks : List TokenKind}
    (hE : endsEOF ts) (hp : pos < ts.length) : POk ts (matchT ts pos ks) := by
  unfold matchT
  refine pOk_bindA (currentT_nOk hp) (fun t ht => ?_)
  by_cases hk : t.kind ∈ ks
  · rw [if_pos hk]
    exact pOk_bind (advanceT_pOk hE hp) (fun a p _ hlt => pOk_ok hlt)
  · rw [if_neg hk]
    exact pOk_ok hp

theorem atEndT_nOk {ts : List Token} {pos : Nat} (hp : pos < ts.length) :
    NOk (atEndT ts pos) := by
  unfold atEndT
  exact nOk_bindA (currentT_nOk hp) (fun t ht => nOk_ok)

theorem peekT_nOk {ts : List Token} {pos off : Nat} (hp : pos < ts.length) :
    NOk (peekT ts pos off) := by
  unfold peekT
  by_cases hlt : pos + off < ts.length
  · rw [if_pos hlt, List.get?_eq_get hlt]
    exact nOk_ok
  · rw [if_neg hlt, List.get?_eq_get (show ts.length - 1 < ts.length by omega)]
    exact nOk_ok

theorem skipSeparators_posOk {ts : List Token} {pos : Nat} (hE : endsEOF ts)
    (hp : pos < ts.length) : PosOk ts (skipSeparators ts pos) := by
  rw [skipSeparators.eq_def]
  split
  · rename_i hnone
    rw [List.get?_eq_get hp] at hnone
    exact absurd hnone (by simp)
  · rename_i t hsome
    rw [List.get?_eq_get hp] at hsome
    injection hsome with hteq
    by_cases hk : (t.kind = TokenKind.Newline || t.kind = TokenKind.Semicolon) = true
    · rw [if_pos hk]
      have hne : ¬(ts.get ⟨pos, hp⟩).kind = .EOF := by
        rw [hteq]
        intro hEOF
        rw [hEOF] at hk
        exact absurd hk (by decide)
      exact skipSeparators_posOk hE (endsEOF_succ_lt hE hp hne)
    · rw [if_neg hk]
      exact hp
termination_by ts.length - pos

theorem skipComments_posOk {ts : List Token} {pos : Nat} (hE : endsEOF ts)
    (hp : pos < ts.length) : PosOk ts (skipComments ts pos) := by
  rw [skipComments.eq_def]
  split
  · rename_i hnone
    rw [List.get?_eq_get hp] at hnone
    exact absurd hnone (by simp)
  · rename_i t hsome
    rw [List.get?_eq_get hp] at hsome
    injection hsome with hteq
    by_cases hk : isCommentToken t.kind = true
    · rw [if_pos hk]
      have hne : ¬(ts.get ⟨pos, hp⟩).kind = .EOF := by
        rw [hteq]
        intro hEOF
        rw [hEOF] at hk
        exact absurd hk (by decide)
      exact skipComments_posOk hE (endsEOF_succ_lt hE hp hne)
    · rw [if_neg hk]
      exact hp
termination_by ts.length - pos

theorem eatSeparator_posOk {ts : List Token} {pos : Nat} (hE : endsEOF ts)
    (hp : pos < ts.length) : PosOk ts (eatSeparator ts pos) := by
  unfold eatSeparator
  refine posOk_bindA (currentT_nOk hp) (fun t ht => ?_)
  by_cases hk : (t.kind = TokenKind.Newline || t.kind = TokenKind.Semicolon) = true
  · rw [if_pos hk]
    exact posOk_bindP (advanceT_pOk hE hp) (fun a p _ hlt => hlt)
  · rw [if_neg hk]
    exact hp

theorem tokenizeCore_concat_eof :
    ∀ (cs : List Char) (acc out : List Token),
      tokenizeCore cs acc = .ok out → ∃ pre, out = pre ++ [⟨.EOF, ""⟩] := by
  intro cs acc
  induction cs, acc using tokenizeCore.induct with
  | case1 acc =>
    intro out hout
    simp only [tokenizeCore, Except.ok.injEq] at hout
    exact ⟨acc, hout.symm⟩
  | case2 c tl acc acc2 rest hstep ih =>
    intro out hout
    rw [tokenizeCore.eq_def] at hout
    simp only [] at hout
    split at hout
    · rename_i a2 r2 hstep2
      rw [hstep] at hstep2
      injection hstep2 with hpr
      injection hpr with ha hb
      subst ha
      subst hb
      exact ih out hout
    · rename_i hstep2
      rw [hstep] at hstep2
      exact absurd hstep2 (by simp)
  | case3 c tl acc hstep =>
    intro out hout
    rw [tokenizeCore.eq_def] at hout
    simp only [] at hout
    split at hout
    · rename_i a2 r2 hstep2
      rw [hstep] at hstep2
      exact absurd hstep2 (by simp)
    · exact absurd hout (by simp)

/-- The tokenizer always terminates its stream with the EOF sentinel. -/
theorem tokenize_endsEOF {src : String} {out : List Token}
    (h : tokenize src = .ok out) : endsEOF out ∧ 0 < out.length := by
  obtain ⟨pre, hpre⟩ := tokenizeCore_concat_eof src.toList [] out h
  subst hpre
  constructor
  · unfold endsEOF
    simp
  · simp

/-- Safety for triple-valued results (value, value, position). -/
def POk3 {α β : Type} (ts : List Token) : Except PErr (α × β × Nat) → Prop
  | .error e => ¬e = .oob
  | .ok s => s.2.2 < ts.length

/-- Safety for quadruple-valued results. -/
def POk4 {α β γ : Type} (ts : List Token) :
    Except PErr (α × β × γ × Nat) → Prop
  | .error e => ¬e = .oob
  | .ok s => s.2.2.2 < ts.length

theorem pOk3_error {α β : Type} {ts : List Token} {e : PErr} (h : ¬e = .oob) :
    POk3 (α := α) (β := β) ts (.error e) := h

theorem pOk3_ok {α β : Type} {ts : List Token} {a : α} {b : β} {p : Nat}
    (h : p < ts.length) : POk3 ts (.ok (a, b, p)) := h

theorem pOk4_error {α β γ : Type} {ts : List Token} {e : PErr} (h : ¬e = .oob) :
    POk4 (α := α) (β := β) (γ := γ) ts (.error e) := h

theorem pOk4_ok {α β γ : Type} {ts : List Token} {a : α} {b : β} {c : γ}
    {p : Nat} (h : p < ts.length) : POk4 ts (.ok (a, b, c, p)) := h

theorem pOk3_bindA {α β γ : Type} {ts : List Token} {r : Except PErr α}
    {f : α → Except PErr (β × γ × Nat)} (h1 : NOk r)
    (h2 : ∀ a, r = .ok a → POk3 ts (f a)) : POk3 ts (r >>= f) := by
  cases r with
  | error e => exact h1
  | ok a => exact h2 a rfl

theorem pOk3_bindP {α β γ : Type} {ts : List Token} {r : Except PErr (α × Nat)}
    {f : α × Nat → Except PErr (β × γ × Nat)} (h1 : POk ts r)
    (h2 : ∀ a p, r = .ok (a, p) → p < ts.length → POk3 ts (f (a, p))) :
    POk3 ts (r >>= f) := by
  cases r with
  | error e => exact h1
  | ok ap => exact h2 ap.1 ap.2 (by rw [Prod.mk.eta]) h1

theorem pOk_bind3 {α β γ : Type} {ts : List Token}
    {r : Except PErr (α × β × Nat)} {f : α × β × Nat → Except PErr (γ × Nat)}
    (h1 : POk3 ts r)
    (h2 : ∀ a b p, r = .ok (a, b, p) → p < ts.length → POk ts (f (a, b, p))) :
    POk ts (r >>= f) := by
  cases r with
  | error e => exact h1
  | ok s => exact h2 s.1 s.2.1 s.2.2 (by simp) h1

theorem pOk4_bindA {α β γ δ : Type} {ts : List Token} {r : Except PErr α}
    {f : α → Except PErr (β × γ × δ × Nat)} (h1 : NOk r)
    (h2 : ∀ a, r = .ok a → POk4 ts (f a)) : POk4 ts (r >>= f) := by
  cases r with
  | error e => exact h1
  | ok a => exact h2 a rfl

theorem pOk4_bindP {α β γ δ : Type} {ts : List Token} {r : Except PErr (α × Nat)}
    {f : α × Nat → Except PErr (β × γ × δ × Nat)} (h1 : POk ts r)
    (h2 : ∀ a p, r = .ok (a, p) → p < ts.length → POk4 ts (f (a, p))) :
    POk4 ts (r >>= f) := by
  cases r with
  | error e => exact h1
  | ok ap => exact h2 ap.1 ap.2 (by rw [Prod.mk.eta]) h1

theorem pOk_bind4 {α β γ δ : Type} {ts : List Token}
    {r : Except PErr (α × β × γ × Nat)}
    {f : α × β × γ × Nat → Except PErr (δ × Nat)} (h1 : POk4 ts r)
    (h2 : ∀ a b c p, r = .ok (a, b, c, p) → p < ts.length →
      POk ts (f (a, b, c, p))) :
    POk ts (r >>= f) := by
  cases r with
  | error e => exact h1
  | ok s => exact h2 s.1 s.2.1 s.2.2.1 s.2.2.2 (by simp) h1

/-- The joint position-safety statement for every function of the parser
block, at a given fuel. -/
def ParserSafe (fuel : Nat) : Prop :=
  (∀ (ts : List Token) (minBP pos : Nat), endsEOF ts → pos < ts.length →
    POk ts (parseExpr fuel ts minBP pos)) ∧
  (∀ (ts : List Token) (minBP : Nat) (left : Expr) (pos : Nat),
    endsEOF ts → pos < ts.length →
    POk ts (parseExprLoop fuel ts minBP left pos)) ∧
  (∀ (ts : List Token) (tag : NudTag) (pos : Nat), endsEOF ts →
    pos < ts.length → POk ts (applyNud fuel ts tag pos)) ∧
  (∀ (ts : List Token) (acc : List Expr) (pos : Nat), endsEOF ts →
    pos < ts.length → POk ts (listElements fuel ts acc pos)) ∧
  (∀ (ts : List Token) (acc : List (Expr × Expr)) (pos : Nat), endsEOF ts →
    pos < ts.length → POk ts (dictEntries fuel ts acc pos)) ∧
  (∀ (ts : List Token) (tag : LedTag) (bp : Nat) (left : Expr) (pos : Nat),
    endsEOF ts → pos < ts.length → POk ts (applyLed fuel ts tag bp left pos)) ∧
  (∀ (ts : List Token) (callee : Expr) (acc : List Expr) (pos : Nat),
    endsEOF ts → pos < ts.length → POk ts (callArgs fuel ts callee acc pos)) ∧
  (∀ (raw : String), NOk (parseTemplateParts fuel raw)) ∧
  (∀ (inner textAcc : List Char) (parts : List TemplatePart),
    NOk (templateLoop fuel inner textAcc parts)) ∧
  (∀ (ts : List Token) (pos : Nat), endsEOF ts → pos < ts.length →
    POk ts (parseStmt fuel ts pos)) ∧
  (∀ (ts : List Token) (pos : Nat), endsEOF ts → pos < ts.length →
    POk ts (parseLetStmt fuel ts pos)) ∧
  (∀ (ts : List Token) (pos : Nat), endsEOF ts → pos < ts.length →
    POk ts (parseVarStmt fuel ts pos)) ∧
  (∀ (ts : List Token) (isLet : Bool) (pos : Nat), endsEOF ts →
    pos < ts.length → POk ts (parseVariableInit fuel ts isLet pos)) ∧
  (∀ (ts : List Token) (pos : Nat), endsEOF ts → pos < ts.length →
    POk ts (parseBindingPattern fuel ts pos)) ∧
  (∀ (ts : List Token) (pos : Nat), endsEOF ts → pos < ts.length →
    POk ts (parseListPattern fuel ts pos)) ∧
  (∀ (ts : List Token) (acc : List BindingPattern) (pos : Nat), endsEOF ts →
    pos < ts.length → POk ts (listPatternLoop fuel ts acc pos)) ∧
  (∀ (ts : List Token) (pos : Nat), endsEOF ts → pos < ts.length →
    POk ts (parseObjectPattern fuel ts pos)) ∧
  (∀ (ts : List Token) (acc : List (String × BindingPattern)) (pos : Nat),
    endsEOF ts → pos < ts.length → POk ts (objectPatternLoop fuel ts acc pos)) ∧
  (∀ (ts : List Token) (pos : Nat), endsEOF ts → pos < ts.length →
    POk ts (parseImportStmt fuel ts pos)) ∧
  (∀ (ts : List Token) (pos : Nat), endsEOF ts → pos < ts.length →
    POk ts (parseNamespaceImport fuel ts pos)) ∧
  (∀ (ts : List Token) (pos : Nat), endsEOF ts → pos < ts.length →
    POk ts (parseNamedImports fuel ts pos)) ∧
  (∀ (ts : List Token) (acc : List (String × String)) (pos : Nat),
    endsEOF ts → pos < ts.length → POk ts (namedImportsLoop fuel ts acc pos)) ∧
  (∀ (ts : List Token) (pos : Nat), endsEOF ts → pos < ts.length →
    POk ts (parseFuncDecl fuel ts pos)) ∧
  (∀ (ts : List Token) (pos : Nat), endsEOF ts → pos < ts.length →
    POk ts (parseParamList fuel ts pos)) ∧
  (∀ (ts : List Token) (acc : List String) (pos : Nat), endsEOF ts →
    pos < ts.length → POk ts (paramListLoop fuel ts acc pos)) ∧
  (∀ (ts : List Token) (pos : Nat), endsEOF ts → pos < ts.length →
    POk ts (parseReturnStmt fuel ts pos)) ∧
  (∀ (ts : List Token) (pos : Nat), endsEOF ts → pos < ts.length →
    POk ts (parseCommentStmt fuel ts pos)) ∧
  (∀ (ts : List Token) (pos : Nat), endsEOF ts → pos < ts.length →
    POk ts (parseIfStmt fuel ts pos)) ∧
  (∀ (ts : List Token) (pos : Nat), endsEOF ts → pos < ts.length →
    POk ts (parseWhileStmt fuel ts pos)) ∧
  (∀ (ts : List Token) (pos : Nat), endsEOF ts → pos < ts.length →
    POk ts (parseForStmt fuel ts pos)) ∧
  (∀ (ts : List Token) (pos : Nat), endsEOF ts → pos < ts.length →
    POk ts (parseEnumDecl fuel ts pos)) ∧
  (∀ (ts : List Token) (name : String) (acc : List (String × Option Expr))
    (pos : Nat), endsEOF ts → pos < ts.length →
    POk ts (enumMembersLoop fuel ts name acc pos)) ∧
  (∀ (ts : List Token) (pos : Nat), endsEOF ts → pos < ts.length →
    POk ts (parseBlock fuel ts pos)) ∧
  (∀ (ts : List Token) (acc : List Stmt) (pos : Nat), endsEOF ts →
    pos < ts.length → POk ts (blockLoop fuel ts acc pos)) ∧
  (∀ (ts : List Token) (pos : Nat), endsEOF ts → pos < ts.length →
    POk ts (parseExprStmt fuel ts pos)) ∧
  (∀ (ts : List Token) (pos : Nat), endsEOF ts → pos < ts.length →
    POk ts (finishArrowFunc fuel ts pos)) ∧
  (∀ (ts : List Token) (acc : List String) (pos : Nat), endsEOF ts →
    pos < ts.length → POk ts (arrowParamsLoop fuel ts acc pos)) ∧
  (∀ (ts : List Token) (pos : Nat), endsEOF ts → pos < ts.length →
    POk ts (parseProgram fuel ts pos)) ∧
  (∀ (ts : List Token) (acc : List Stmt) (pos : Nat), endsEOF ts →
    pos < ts.length → POk ts (programLoop fuel ts acc pos))


theorem parserSafe : ∀ fuel : Nat, ParserSafe fuel := by
  intro fuel
  induction fuel with
  | zero =>
    unfold ParserSafe
    refine ⟨?_, ?_, ?_, ?_, ?_, ?_, ?_, ?_, ?_, ?_, ?_, ?_, ?_, ?_, ?_, ?_,
      ?_, ?_, ?_, ?_, ?_, ?_, ?_, ?_, ?_, ?_, ?_, ?_, ?_, ?_, ?_, ?_, ?_, ?_,
      ?_, ?_, ?_, ?_, ?_⟩ <;>
      intros <;>
      first
        | exact pOk_error (by decide)
        | exact nOk_error (by decide)
  | succ fuel ih =>
    unfold ParserSafe at ih ⊢
    obtain ⟨ih1, ih2, ih3, ih4, ih5, ih6, ih7, ih8, ih9, ih10, ih11, ih12,
      ih13, ih14, ih15, ih16, ih17, ih18, ih19, ih20, ih21, ih22, ih23, ih24,
      ih25, ih26, ih27, ih28, ih29, ih30, ih31, ih32, ih33, ih34, ih35, ih36,
      ih37, ih38, ih39⟩ := ih
    refine ⟨?_, ?_, ?_, ?_, ?_, ?_, ?_, ?_, ?_, ?_, ?_, ?_, ?_, ?_, ?_, ?_,
      ?_, ?_, ?_, ?_, ?_, ?_, ?_, ?_, ?_, ?_, ?_, ?_, ?_, ?_, ?_, ?_, ?_, ?_,
      ?_, ?_, ?_, ?_, ?_⟩
    · -- parseExpr
      intro ts minBP pos hE hp
      simp only [parseExpr]
      refine pOk_bindN (skipComments_posOk hE hp) (fun p1 hskip hp1 => ?_)
      refine pOk_bindA (currentT_nOk hp1) (fun t ht => ?_)
      split
      · exact pOk_error (by simp)
      · refine pOk_bind (advanceT_pOk hE hp1) (fun a p2 ha hp2 => ?_)
        refine pOk_bind (ih3 ts _ p2 hE hp2) (fun l p3 hl hp3 => ?_)
        exact ih2 ts minBP l p3 hE hp3
    · -- parseExprLoop
      intro ts minBP left pos hE hp
      simp only [parseExprLoop]
      refine pOk_bindA (currentT_nOk hp) (fun t ht => ?_)
      split
      · refine pOk_bind (advanceT_pOk hE hp) (fun a p2 ha hp2 => ?_)
        exact ih2 ts minBP left p2 hE hp2
      · split
        · exact pOk_ok hp
        · split
          · exact pOk_ok hp
          · split
            · exact pOk_ok hp
            · rename_i bptag
              split
              · exact pOk_ok hp
              · refine pOk_bind (advanceT_pOk hE hp) (fun a p2 ha hp2 => ?_)
                refine pOk_bind (ih6 ts _ _ left p2 hE hp2)
                  (fun l2 p3 hl hp3 => ?_)
                exact ih2 ts minBP l2 p3 hE hp3
    · -- applyNud
      intro ts tag pos hE hp
      have hpm : pos - 1 < ts.length := lt_of_le_of_lt (Nat.sub_le pos 1) hp
      simp only [applyNud]
      split
      · exact pOk_bindA (currentT_nOk hpm) (fun t ht => pOk_ok hp)
      · exact pOk_bindA (currentT_nOk hpm) (fun t ht => pOk_ok hp)
      · refine pOk_bindA (currentT_nOk hpm) (fun t ht => ?_)
        exact pOk_bindA (ih8 t.value) (fun parts hparts => pOk_ok hp)
      · exact pOk_bindA (currentT_nOk hpm) (fun t ht => pOk_ok hp)
      · split
        · exact ih36 ts pos hE hp
        · refine pOk_bind (ih1 ts BP.None pos hE hp) (fun e p2 he hp2 => ?_)
          exact pOk_bind (expectT_pOk hE hp2) (fun a p3 ha hp3 => pOk_ok hp3)
      · refine pOk_bindN (skipSeparators_posOk hE hp) (fun p1 hs hp1 => ?_)
        exact ih4 ts [] p1 hE hp1
      · refine pOk_bindN (skipSeparators_posOk hE hp) (fun p1 hs hp1 => ?_)
        exact ih5 ts [] p1 hE hp1
      · refine pOk_bind (ih1 ts BP.Unary pos hE hp) (fun e p2 he hp2 => ?_)
        exact pOk_ok hp2
    · -- listElements
      intro ts acc pos hE hp
      simp only [listElements]
      refine pOk_bindA (currentT_nOk hp) (fun t ht => ?_)
      split
      · exact pOk_bind (expectT_pOk hE hp) (fun a p2 ha hp2 => pOk_ok hp2)
      · refine pOk_bind (ih1 ts BP.None pos hE hp) (fun e p2 he hp2 => ?_)
        refine pOk_bindN (skipSeparators_posOk hE hp2) (fun p3 hs hp3 => ?_)
        refine pOk_bind (matchT_pOk hE hp3) (fun m p4 hm hp4 => ?_)
        cases m with
        | true =>
          refine pOk_bindN (skipSeparators_posOk hE hp4) (fun p5 hs2 hp5 => ?_)
          exact ih4 ts _ p5 hE hp5
        | false =>
          exact pOk_bind (expectT_pOk hE hp4) (fun a p5 ha hp5 => pOk_ok hp5)
    · -- dictEntries
      intro ts acc pos hE hp
      simp only [dictEntries]
      refine pOk_bindA (currentT_nOk hp) (fun t ht => ?_)
      split
      · exact pOk_bind (expectT_pOk hE hp) (fun a p2 ha hp2 => pOk_ok hp2)
      · refine pOk_bindA (checkT_nOk hp) (fun isStr hchk => ?_)
        cases isStr with
        | true =>
          refine pOk_bind (advanceT_pOk hE hp) (fun tok p2 ha hp2 => ?_)
          refine pOk_bind (matchT_pOk hE hp2) (fun hasColon p3 hm hp3 => ?_)
          cases hasColon with
          | true =>
            refine pOk_bind (ih1 ts BP.None p3 hE hp3) (fun v p4 hv hp4 => ?_)
            refine pOk_bindN (skipSeparators_posOk hE hp4) (fun p5 hs hp5 => ?_)
            refine pOk_bind (matchT_pOk hE hp5) (fun m p6 hm2 hp6 => ?_)
            cases m with
            | true =>
              refine pOk_bindN (skipSeparators_posOk hE hp6)
                (fun p7 hs2 hp7 => ?_)
              exact ih5 ts _ p7 hE hp7
            | false =>
              exact pOk_bind (expectT_pOk hE hp6)
                (fun a p7 ha2 hp7 => pOk_ok hp7)
          | false => exact pOk_error (by simp)
        | false =>
          refine pOk_bind (expectT_pOk hE hp) (fun tok p2 ha hp2 => ?_)
          refine pOk_bind (matchT_pOk hE hp2) (fun hasColon p3 hm hp3 => ?_)
          cases hasColon with
          | true =>
            refine pOk_bind (ih1 ts BP.None p3 hE hp3) (fun v p4 hv hp4 => ?_)
            refine pOk_bindN (skipSeparators_posOk hE hp4) (fun p5 hs hp5 => ?_)
            refine pOk_bind (matchT_pOk hE hp5) (fun m p6 hm2 hp6 => ?_)
            cases m with
            | true =>
              refine pOk_bindN (skipSeparators_posOk hE hp6)
                (fun p7 hs2 hp7 => ?_)
              exact ih5 ts _ p7 hE hp7
            | false =>
              exact pOk_bind (expectT_pOk hE hp6)
                (fun a p7 ha2 hp7 => pOk_ok hp7)
          | false =>
            refine pOk_bindN (skipSeparators_posOk hE hp3) (fun p5 hs hp5 => ?_)
            refine pOk_bind (matchT_pOk hE hp5) (fun m p6 hm2 hp6 => ?_)
            cases m with
            | true =>
              refine pOk_bindN (skipSeparators_posOk hE hp6)
                (fun p7 hs2 hp7 => ?_)
              exact ih5 ts _ p7 hE hp7
            | false =>
              exact pOk_bind (expectT_pOk hE hp6)
                (fun a p7 ha2 hp7 => pOk_ok hp7)
    · -- applyLed
      intro ts tag bp left pos hE hp
      simp only [applyLed]
      split
      · exact pOk_bind (ih1 ts bp pos hE hp) (fun e p2 he hp2 => pOk_ok hp2)
      · exact pOk_bind (ih1 ts BP.AssignmentRight pos hE hp)
          (fun e p2 he hp2 => pOk_ok hp2)
      · refine pOk_bind (ih1 ts BP.None pos hE hp) (fun c p2 hc hp2 => ?_)
        refine pOk_bind (expectT_pOk hE hp2) (fun a p3 ha hp3 => ?_)
        exact pOk_bind (ih1 ts BP.TernaryRight p3 hE hp3)
          (fun alt p4 halt hp4 => pOk_ok hp4)
      · exact pOk_ok hp
      · exact ih7 ts left [] pos hE hp
      · refine pOk_bind (ih1 ts BP.None pos hE hp) (fun e p2 he hp2 => ?_)
        exact pOk_bind (expectT_pOk hE hp2) (fun a p3 ha hp3 => pOk_ok hp3)
      · exact pOk_bind (expectT_pOk hE hp) (fun a p2 ha hp2 => pOk_ok hp2)
    · -- callArgs
      intro ts callee acc pos hE hp
      simp only [callArgs]
      refine pOk_bindA (currentT_nOk hp) (fun t ht => ?_)
      split
      · exact pOk_bind (expectT_pOk hE hp) (fun a p2 ha hp2 => pOk_ok hp2)
      · refine pOk_bind (ih1 ts BP.None pos hE hp) (fun e p2 he hp2 => ?_)
        refine pOk_bind (matchT_pOk hE hp2) (fun m p3 hm hp3 => ?_)
        cases m with
        | true => exact ih7 ts callee _ p3 hE hp3
        | false =>
          exact pOk_bind (expectT_pOk hE hp3) (fun a p4 ha hp4 => pOk_ok hp4)
    · -- parseTemplateParts
      intro raw
      simp only [parseTemplateParts]
      exact ih9 _ _ _
    · -- templateLoop
      intro inner textAcc parts
      simp only [templateLoop]
      split
      · exact nOk_ok
      · rename_i r
        cases htb : templBraceScan 1 r with
        | mk span rest =>
          cases htk : tokenize ⟨span.dropLast⟩ with
          | error c => exact nOk_error (by simp)
          | ok exprTokens =>
            simp only []
            obtain ⟨hE2, hlen2⟩ := tokenize_endsEOF htk
            have hres := ih1 exprTokens BP.None 0 hE2 hlen2
            cases hpe : parseExpr fuel exprTokens BP.None 0 with
            | error e =>
              rw [hpe] at hres
              exact nOk_error hres
            | ok ep =>
              obtain ⟨e0, p0⟩ := ep
              exact ih9 _ _ _
      · exact ih9 _ _ _
      · exact ih9 _ _ _
    · -- parseStmt
      intro ts pos hE hp
      simp only [parseStmt]
      refine pOk_bindN (skipSeparators_posOk hE hp) (fun p1 hs hp1 => ?_)
      refine pOk_bindA (currentT_nOk hp1) (fun t ht => ?_)
      split
      · exact ih19 ts p1 hE hp1
      · exact ih11 ts p1 hE hp1
      · exact ih12 ts p1 hE hp1
      · exact ih23 ts p1 hE hp1
      · exact ih26 ts p1 hE hp1
      · exact ih27 ts p1 hE hp1
      · exact ih27 ts p1 hE hp1
      · exact ih28 ts p1 hE hp1
      · exact ih29 ts p1 hE hp1
      · exact ih30 ts p1 hE hp1
      · exact ih31 ts p1 hE hp1
      · exact pOk_bind (ih33 ts p1 hE hp1) (fun a p2 ha hp2 => pOk_ok hp2)
      · exact ih35 ts p1 hE hp1
    · -- parseLetStmt
      intro ts pos hE hp
      simp only [parseLetStmt]
      refine pOk_bind (expectT_pOk hE hp) (fun a p1 ha hp1 => ?_)
      refine pOk_bind (ih13 ts true p1 hE hp1) (fun st p2 hst hp2 => ?_)
      exact pOk_bindN (eatSeparator_posOk hE hp2) (fun p3 he2 hp3 => pOk_ok hp3)
    · -- parseVarStmt
      intro ts pos hE hp
      simp only [parseVarStmt]
      refine pOk_bind (expectT_pOk hE hp) (fun a p1 ha hp1 => ?_)
      refine pOk_bind (ih13 ts false p1 hE hp1) (fun st p2 hst hp2 => ?_)
      exact pOk_bindN (eatSeparator_posOk hE hp2) (fun p3 he2 hp3 => pOk_ok hp3)
    · -- parseVariableInit
      intro ts isLet pos hE hp
      simp only [parseVariableInit]
      refine pOk_bindA (checkT_nOk hp) (fun isIdent hchk => ?_)
      cases isIdent with
      | true =>
        refine pOk_bind (advanceT_pOk hE hp) (fun tok p1 ha hp1 => ?_)
        refine pOk_bind (expectT_pOk hE hp1) (fun a p2 ha2 hp2 => ?_)
        exact pOk_bind (ih1 ts BP.None p2 hE hp2)
          (fun v p3 hv hp3 => pOk_ok hp3)
      | false =>
        refine pOk_bind (ih14 ts pos hE hp) (fun pat p1 hpat hp1 => ?_)
        refine pOk_bind (expectT_pOk hE hp1) (fun a p2 ha2 hp2 => ?_)
        exact pOk_bind (ih1 ts BP.None p2 hE hp2)
          (fun v p3 hv hp3 => pOk_ok hp3)
    · -- parseBindingPattern
      intro ts pos hE hp
      simp only [parseBindingPattern]
      refine pOk_bindA (currentT_nOk hp) (fun t ht => ?_)
      split
      · exact pOk_bind (advanceT_pOk hE hp) (fun tok p1 ha hp1 => pOk_ok hp1)
      · split
        · exact ih15 ts pos hE hp
        · split
          · exact ih17 ts pos hE hp
          · exact pOk_error (by simp)
    · -- parseListPattern
      intro ts pos hE hp
      simp only [parseListPattern]
      refine pOk_bind (expectT_pOk hE hp) (fun a p1 ha hp1 => ?_)
      exact ih16 ts [] p1 hE hp1
    · -- listPatternLoop
      intro ts acc pos hE hp
      simp only [listPatternLoop]
      refine pOk_bindA (currentT_nOk hp) (fun t ht => ?_)
      split
      · exact pOk_bind (expectT_pOk hE hp) (fun a p1 ha hp1 => pOk_ok hp1)
      · refine pOk_bind (ih14 ts pos hE hp) (fun pat p1 hpat hp1 => ?_)
        refine pOk_bind (matchT_pOk hE hp1) (fun m p2 hm hp2 => ?_)
        cases m with
        | true => exact ih16 ts _ p2 hE hp2
        | false =>
          exact pOk_bind (expectT_pOk hE hp2) (fun a p3 ha hp3 => pOk_ok hp3)
    · -- parseObjectPattern
      intro ts pos hE hp
      simp only [parseObjectPattern]
      refine pOk_bind (expectT_pOk hE hp) (fun a p1 ha hp1 => ?_)
      exact ih18 ts [] p1 hE hp1
    · -- objectPatternLoop
      intro ts acc pos hE hp
      simp only [objectPatternLoop]
      refine pOk_bindA (currentT_nOk hp) (fun t ht => ?_)
      split
      · exact pOk_bind (expectT_pOk hE hp) (fun a p1 ha hp1 => pOk_ok hp1)
      · refine pOk_bind (expectT_pOk hE hp) (fun keyTok p1 hk hp1 => ?_)
        refine pOk_bind (matchT_pOk hE hp1) (fun hasColon p2 hm hp2 => ?_)
        cases hasColon with
        | true =>
          refine pOk_bind (ih14 ts p2 hE hp2) (fun b p3 hb hp3 => ?_)
          refine pOk_bind (matchT_pOk hE hp3) (fun m p4 hm2 hp4 => ?_)
          cases m with
          | true => exact ih18 ts _ p4 hE hp4
          | false =>
            exact pOk_bind (expectT_pOk hE hp4)
              (fun a p5 ha hp5 => pOk_ok hp5)
        | false =>
          first
            | refine pOk_bind (pOk_ok hp2) (fun bnd pb hb hpb => ?_)
            | have hpb := hp2
          refine pOk_bind (matchT_pOk hE hpb) (fun m p4 hm2 hp4 => ?_)
          cases m with
          | true => exact ih18 ts _ p4 hE hp4
          | false =>
            exact pOk_bind (expectT_pOk hE hp4)
              (fun a p5 ha hp5 => pOk_ok hp5)
    · -- parseImportStmt
      intro ts pos hE hp
      simp only [parseImportStmt]
      refine pOk_bind (expectT_pOk hE hp) (fun a p1 ha hp1 => ?_)
      refine pOk_bindA (checkT_nOk hp1) (fun isStr hchk => ?_)
      cases isStr with
      | true =>
        refine pOk_bind (expectT_pOk hE hp1) (fun tok p2 ht hp2 => ?_)
        exact pOk_bindN (eatSeparator_posOk hE hp2)
          (fun p3 he2 hp3 => pOk_ok hp3)
      | false =>
        refine pOk_bindA (checkT_nOk hp1) (fun isId hc1 => ?_)
        refine pOk_bindA (checkT_nOk hp1) (fun isStar hc2 => ?_)
        refine pOk_bindA (checkT_nOk hp1) (fun isCurly hc3 => ?_)
        cases isId with
        | true =>
          refine pOk_bind (advanceT_pOk hE hp1) (fun tok p2 ha2 hp2 => ?_)
          refine pOk_bind (matchT_pOk hE hp2) (fun m p3 hm hp3 => ?_)
          cases m with
          | true =>
            refine pOk_bindA (checkT_nOk hp3) (fun isStar2 hc4 => ?_)
            refine pOk_bindA (checkT_nOk hp3) (fun isCurly2 hc5 => ?_)
            cases isStar2 with
            | true =>
              refine pOk_bind (ih20 ts p3 hE hp3) (fun ns p4 hns hp4 => ?_)
              refine pOk_bind (expectT_pOk hE hp4) (fun b p5 hb hp5 => ?_)
              refine pOk_bind (expectT_pOk hE hp5) (fun c p6 hc hp6 => ?_)
              exact pOk_bindN (eatSeparator_posOk hE hp6)
                (fun p7 he2 hp7 => pOk_ok hp7)
            | false =>
              cases isCurly2 with
              | true =>
                refine pOk_bind (ih21 ts p3 hE hp3) (fun nm p4 hnm hp4 => ?_)
                refine pOk_bind (expectT_pOk hE hp4) (fun b p5 hb hp5 => ?_)
                refine pOk_bind (expectT_pOk hE hp5) (fun c p6 hc hp6 => ?_)
                exact pOk_bindN (eatSeparator_posOk hE hp6)
                  (fun p7 he2 hp7 => pOk_ok hp7)
              | false => exact pOk_error (by simp)
          | false =>
            refine pOk_bind (expectT_pOk hE hp3) (fun b p5 hb hp5 => ?_)
            refine pOk_bind (expectT_pOk hE hp5) (fun c p6 hc hp6 => ?_)
            exact pOk_bindN (eatSeparator_posOk hE hp6)
              (fun p7 he2 hp7 => pOk_ok hp7)
        | false =>
          cases isStar with
          | true =>
            refine pOk_bind (ih20 ts p1 hE hp1) (fun ns p4 hns hp4 => ?_)
            refine pOk_bind (expectT_pOk hE hp4) (fun b p5 hb hp5 => ?_)
            refine pOk_bind (expectT_pOk hE hp5) (fun c p6 hc hp6 => ?_)
            exact pOk_bindN (eatSeparator_posOk hE hp6)
              (fun p7 he2 hp7 => pOk_ok hp7)
          | false =>
            cases isCurly with
            | true =>
              refine pOk_bind (ih21 ts p1 hE hp1) (fun nm p4 hnm hp4 => ?_)
              refine pOk_bind (expectT_pOk hE hp4) (fun b p5 hb hp5 => ?_)
              refine pOk_bind (expectT_pOk hE hp5) (fun c p6 hc hp6 => ?_)
              exact pOk_bindN (eatSeparator_posOk hE hp6)
                (fun p7 he2 hp7 => pOk_ok hp7)
            | false => exact pOk_error (by simp)
    · -- parseNamespaceImport
      intro ts pos hE hp
      simp only [parseNamespaceImport]
      refine pOk_bind (expectT_pOk hE hp) (fun a p1 ha hp1 => ?_)
      refine pOk_bind (expectT_pOk hE hp1) (fun b p2 hb hp2 => ?_)
      exact pOk_bind (expectT_pOk hE hp2) (fun tok p3 ht hp3 => pOk_ok hp3)
    · -- parseNamedImports
      intro ts pos hE hp
      simp only [parseNamedImports]
      refine pOk_bind (expectT_pOk hE hp) (fun a p1 ha hp1 => ?_)
      exact ih22 ts [] p1 hE hp1
    · -- namedImportsLoop
      intro ts acc pos hE hp
      simp only [namedImportsLoop]
      refine pOk_bindA (currentT_nOk hp) (fun t ht => ?_)
      split
      · exact pOk_bind (expectT_pOk hE hp) (fun a p1 ha hp1 => pOk_ok hp1)
      · refine pOk_bind (expectT_pOk hE hp) (fun imp p1 hi hp1 => ?_)
        refine pOk_bind (matchT_pOk hE hp1) (fun hasAs p2 hm hp2 => ?_)
        cases hasAs with
        | true =>
          refine pOk_bind (expectT_pOk hE hp2) (fun tok p3 ht2 hp3 => ?_)
          first
            | refine pOk_bind (pOk_ok hp3) (fun ln pl hl hpl => ?_)
            | have hpl := hp3
          refine pOk_bind (matchT_pOk hE hpl) (fun m p4 hm2 hp4 => ?_)
          cases m with
          | true => exact ih22 ts _ p4 hE hp4
          | false =>
            exact pOk_bind (expectT_pOk hE hp4)
              (fun a p5 ha hp5 => pOk_ok hp5)
        | false =>
          first
            | refine pOk_bind (pOk_ok hp2) (fun ln pl hl hpl => ?_)
            | have hpl := hp2
          refine pOk_bind (matchT_pOk hE hpl) (fun m p4 hm2 hp4 => ?_)
          cases m with
          | true => exact ih22 ts _ p4 hE hp4
          | false =>
            exact pOk_bind (expectT_pOk hE hp4)
              (fun a p5 ha hp5 => pOk_ok hp5)
    · -- parseFuncDecl
      intro ts pos hE hp
      simp only [parseFuncDecl]
      refine pOk_bind (expectT_pOk hE hp) (fun a p1 ha hp1 => ?_)
      refine pOk_bind (expectT_pOk hE hp1) (fun nm p2 hn hp2 => ?_)
      refine pOk_bind (ih24 ts p2 hE hp2) (fun ps p3 hps hp3 => ?_)
      refine pOk_bindN (skipSeparators_posOk hE hp3) (fun p4 hs hp4 => ?_)
      exact pOk_bind (ih33 ts p4 hE hp4) (fun body p5 hb hp5 => pOk_ok hp5)
    · -- parseParamList
      intro ts pos hE hp
      simp only [parseParamList]
      refine pOk_bind (expectT_pOk hE hp) (fun a p1 ha hp1 => ?_)
      exact ih25 ts [] p1 hE hp1
    · -- paramListLoop
      intro ts acc pos hE hp
      simp only [paramListLoop]
      refine pOk_bindA (currentT_nOk hp) (fun t ht => ?_)
      split
      · exact pOk_bind (expectT_pOk hE hp) (fun a p1 ha hp1 => pOk_ok hp1)
      · refine pOk_bind (expectT_pOk hE hp) (fun tok p1 ht2 hp1 => ?_)
        refine pOk_bind (matchT_pOk hE hp1) (fun m p2 hm hp2 => ?_)
        cases m with
        | true => exact ih25 ts _ p2 hE hp2
        | false =>
          exact pOk_bind (expectT_pOk hE hp2) (fun a p3 ha hp3 => pOk_ok hp3)
    · -- parseReturnStmt
      intro ts pos hE hp
      simp only [parseReturnStmt]
      refine pOk_bind (expectT_pOk hE hp) (fun a p1 ha hp1 => ?_)
      refine pOk_bindA (currentT_nOk hp1) (fun t ht => ?_)
      split
      · exact pOk_bindN (eatSeparator_posOk hE hp1)
          (fun p2 he2 hp2 => pOk_ok hp2)
      · refine pOk_bind (ih1 ts BP.None p1 hE hp1) (fun v p2 hv hp2 => ?_)
        exact pOk_bindN (eatSeparator_posOk hE hp2)
          (fun p3 he2 hp3 => pOk_ok hp3)
    · -- parseCommentStmt
      intro ts pos hE hp
      simp only [parseCommentStmt]
      exact pOk_bind (advanceT_pOk hE hp) (fun tok p1 ha hp1 => pOk_ok hp1)
    · -- parseIfStmt
      intro ts pos hE hp
      simp only [parseIfStmt]
      refine pOk_bind (expectT_pOk hE hp) (fun a p1 ha hp1 => ?_)
      refine pOk_bind (expectT_pOk hE hp1) (fun b p2 hb hp2 => ?_)
      refine pOk_bind (ih1 ts BP.None p2 hE hp2) (fun c p3 hc hp3 => ?_)
      refine pOk_bind (expectT_pOk hE hp3) (fun d p4 hd hp4 => ?_)
      refine pOk_bindN (skipSeparators_posOk hE hp4) (fun p5 hs hp5 => ?_)
      refine pOk_bind (ih33 ts p5 hE hp5) (fun cons p6 hcons hp6 => ?_)
      refine pOk_bindN (skipSeparators_posOk hE hp6) (fun p7 hs2 hp7 => ?_)
      refine pOk_bindA (checkT_nOk hp7) (fun isElse hchk => ?_)
      cases isElse with
      | true =>
        refine pOk_bind (advanceT_pOk hE hp7) (fun e p8 he2 hp8 => ?_)
        refine pOk_bindN (skipSeparators_posOk hE hp8) (fun p9 hs3 hp9 => ?_)
        exact pOk_bind (ih33 ts p9 hE hp9) (fun alt p10 halt hp10 => pOk_ok hp10)
      | false => exact pOk_ok hp7
    · -- parseWhileStmt
      intro ts pos hE hp
      simp only [parseWhileStmt]
      refine pOk_bind (expectT_pOk hE hp) (fun a p1 ha hp1 => ?_)
      refine pOk_bind (expectT_pOk hE hp1) (fun b p2 hb hp2 => ?_)
      refine pOk_bind (ih1 ts BP.None p2 hE hp2) (fun c p3 hc hp3 => ?_)
      refine pOk_bind (expectT_pOk hE hp3) (fun d p4 hd hp4 => ?_)
      refine pOk_bindN (skipSeparators_posOk hE hp4) (fun p5 hs hp5 => ?_)
      exact pOk_bind (ih33 ts p5 hE hp5) (fun body p6 hb2 hp6 => pOk_ok hp6)
    · -- parseForStmt
      intro ts pos hE hp
      simp only [parseForStmt]
      refine pOk_bind (expectT_pOk hE hp) (fun a p1 ha hp1 => ?_)
      refine pOk_bind (expectT_pOk hE hp1) (fun b p2 hb hp2 => ?_)
      refine pOk_bindA (checkT_nOk hp2) (fun isId hc1 => ?_)
      refine pOk_bindA (peekT_nOk hp2) (fun nxt hpk => ?_)
      split
      · refine pOk_bind (advanceT_pOk hE hp2) (fun it p3 hit hp3 => ?_)
        refine pOk_bind (expectT_pOk hE hp3) (fun c p4 hc2 hp4 => ?_)
        refine pOk_bind (ih1 ts BP.None p4 hE hp4) (fun e p5 he2 hp5 => ?_)
        refine pOk_bind (expectT_pOk hE hp5) (fun d p6 hd hp6 => ?_)
        refine pOk_bindN (skipSeparators_posOk hE hp6) (fun p7 hs hp7 => ?_)
        exact pOk_bind (ih33 ts p7 hE hp7) (fun body p8 hb2 hp8 => pOk_ok hp8)
      · refine pOk_bindA (checkT_nOk hp2) (fun isSemi hc2 => ?_)
        cases isSemi with
        | true =>
          first
            | refine pOk_bind (pOk_ok hp2) (fun ini pi hini hqq => ?_)
            | have hqq := hp2
          refine pOk_bind (expectT_pOk hE hqq) (fun x p3b hx hp3b => ?_)
          refine pOk_bindA (checkT_nOk hp3b) (fun isSemi2 hc9 => ?_)
          cases isSemi2 with
          | true =>
            first
              | refine pOk_bind (pOk_ok hp3b) (fun cnd pc hcnd hpc => ?_)
              | have hpc := hp3b
            refine pOk_bind (expectT_pOk hE hpc) (fun x2 p5b hx2 hp5b => ?_)
            refine pOk_bindA (checkT_nOk hp5b) (fun isClose hc10 => ?_)
            cases isClose with
            | true =>
              first
                | refine pOk_bind (pOk_ok hp5b) (fun upd pu hupd hpu => ?_)
                | have hpu := hp5b
              refine pOk_bind (expectT_pOk hE hpu) (fun z pz hz hpz => ?_)
              refine pOk_bindN (skipSeparators_posOk hE hpz)
                (fun p7 hs9 hp7 => ?_)
              exact pOk_bind (ih33 ts p7 hE hp7)
                (fun body p8 hb9 hp8 => pOk_ok hp8)
            | false =>
              refine pOk_bind (ih1 ts BP.None p5b hE hp5b)
                (fun e2 pe2 he2b hpe2 => ?_)
              first
                | refine pOk_bind (pOk_ok hpe2) (fun upd pu hupd hpu => ?_)
                | have hpu := hpe2
              refine pOk_bind (expectT_pOk hE hpu) (fun z pz hz hpz => ?_)
              refine pOk_bindN (skipSeparators_posOk hE hpz)
                (fun p7 hs9 hp7 => ?_)
              exact pOk_bind (ih33 ts p7 hE hp7)
                (fun body p8 hb9 hp8 => pOk_ok hp8)
          | false =>
            refine pOk_bind (ih1 ts BP.None p3b hE hp3b)
              (fun ec pec hec hpec => ?_)
            first
              | refine pOk_bind (pOk_ok hpec) (fun cnd pc hcnd hpc => ?_)
              | have hpc := hpec
            refine pOk_bind (expectT_pOk hE hpc) (fun x2 p5b hx2 hp5b => ?_)
            refine pOk_bindA (checkT_nOk hp5b) (fun isClose hc10 => ?_)
            cases isClose with
            | true =>
              first
                | refine pOk_bind (pOk_ok hp5b) (fun upd pu hupd hpu => ?_)
                | have hpu := hp5b
              refine pOk_bind (expectT_pOk hE hpu) (fun z pz hz hpz => ?_)
              refine pOk_bindN (skipSeparators_posOk hE hpz)
                (fun p7 hs9 hp7 => ?_)
              exact pOk_bind (ih33 ts p7 hE hp7)
                (fun body p8 hb9 hp8 => pOk_ok hp8)
            | false =>
              refine pOk_bind (ih1 ts BP.None p5b hE hp5b)
                (fun e2 pe2 he2b hpe2 => ?_)
              first
                | refine pOk_bind (pOk_ok hpe2) (fun upd pu hupd hpu => ?_)
                | have hpu := hpe2
              refine pOk_bind (expectT_pOk hE hpu) (fun z pz hz hpz => ?_)
              refine pOk_bindN (skipSeparators_posOk hE hpz)
                (fun p7 hs9 hp7 => ?_)
              exact pOk_bind (ih33 ts p7 hE hp7)
                (fun body p8 hb9 hp8 => pOk_ok hp8)
        | false =>
          refine pOk_bindA (checkT_nOk hp2) (fun isLet hc3 => ?_)
          refine pOk_bindA (checkT_nOk hp2) (fun isVar hc4 => ?_)
          cases isLet with
          | true =>
            refine pOk_bind (expectT_pOk hE hp2) (fun c p3 hc5 hp3 => ?_)
            refine pOk_bind (ih13 ts true p3 hE hp3) (fun st p4 hst hp4 => ?_)
            first
              | refine pOk_bind (pOk_ok hp4) (fun ini pi hini hqq => ?_)
              | have hqq := hp4
            refine pOk_bind (expectT_pOk hE hqq) (fun x p3b hx hp3b => ?_)
            refine pOk_bindA (checkT_nOk hp3b) (fun isSemi2 hc9 => ?_)
            cases isSemi2 with
            | true =>
              first
                | refine pOk_bind (pOk_ok hp3b) (fun cnd pc hcnd hpc => ?_)
                | have hpc := hp3b
              refine pOk_bind (expectT_pOk hE hpc) (fun x2 p5b hx2 hp5b => ?_)
              refine pOk_bindA (checkT_nOk hp5b) (fun isClose hc10 => ?_)
              cases isClose with
              | true =>
                first
                  | refine pOk_bind (pOk_ok hp5b) (fun upd pu hupd hpu => ?_)
                  | have hpu := hp5b
                refine pOk_bind (expectT_pOk hE hpu) (fun z pz hz hpz => ?_)
                refine pOk_bindN (skipSeparators_posOk hE hpz)
                  (fun p7 hs9 hp7 => ?_)
                exact pOk_bind (ih33 ts p7 hE hp7)
                  (fun body p8 hb9 hp8 => pOk_ok hp8)
              | false =>
                refine pOk_bind (ih1 ts BP.None p5b hE hp5b)
                  (fun e2 pe2 he2b hpe2 => ?_)
                first
                  | refine pOk_bind (pOk_ok hpe2) (fun upd pu hupd hpu => ?_)
                  | have hpu := hpe2
                refine pOk_bind (expectT_pOk hE hpu) (fun z pz hz hpz => ?_)
                refine pOk_bindN (skipSeparators_posOk hE hpz)
                  (fun p7 hs9 hp7 => ?_)
                exact pOk_bind (ih33 ts p7 hE hp7)
                  (fun body p8 hb9 hp8 => pOk_ok hp8)
            | false =>
              refine pOk_bind (ih1 ts BP.None p3b hE hp3b)
                (fun ec pec hec hpec => ?_)
              first
                | refine pOk_bind (pOk_ok hpec) (fun cnd pc hcnd hpc => ?_)
                | have hpc := hpec
              refine pOk_bind (expectT_pOk hE hpc) (fun x2 p5b hx2 hp5b => ?_)
              refine pOk_bindA (checkT_nOk hp5b) (fun isClose hc10 => ?_)
              cases isClose with
              | true =>
                first
                  | refine pOk_bind (pOk_ok hp5b) (fun upd pu hupd hpu => ?_)
                  | have hpu := hp5b
                refine pOk_bind (expectT_pOk hE hpu) (fun z pz hz hpz => ?_)
                refine pOk_bindN (skipSeparators_posOk hE hpz)
                  (fun p7 hs9 hp7 => ?_)
                exact pOk_bind (ih33 ts p7 hE hp7)
                  (fun body p8 hb9 hp8 => pOk_ok hp8)
              | false =>
                refine pOk_bind (ih1 ts BP.None p5b hE hp5b)
                  (fun e2 pe2 he2b hpe2 => ?_)
                first
                  | refine pOk_bind (pOk_ok hpe2) (fun upd pu hupd hpu => ?_)
                  | have hpu := hpe2
                refine pOk_bind (expectT_pOk hE hpu) (fun z pz hz hpz => ?_)
                refine pOk_bindN (skipSeparators_posOk hE hpz)
                  (fun p7 hs9 hp7 => ?_)
                exact pOk_bind (ih33 ts p7 hE hp7)
                  (fun body p8 hb9 hp8 => pOk_ok hp8)
          | false =>
            cases isVar with
            | true =>
              refine pOk_bind (expectT_pOk hE hp2) (fun c p3 hc5 hp3 => ?_)
              refine pOk_bind (ih13 ts false p3 hE hp3)
                (fun st p4 hst hp4 => ?_)
              first
                | refine pOk_bind (pOk_ok hp4) (fun ini pi hini hqq => ?_)
                | have hqq := hp4
              refine pOk_bind (expectT_pOk hE hqq) (fun x p3b hx hp3b => ?_)
              refine pOk_bindA (checkT_nOk hp3b) (fun isSemi2 hc9 => ?_)
              cases isSemi2 with
              | true =>
                first
                  | refine pOk_bind (pOk_ok hp3b) (fun cnd pc hcnd hpc => ?_)
                  | have hpc := hp3b
                refine pOk_bind (expectT_pOk hE hpc) (fun x2 p5b hx2 hp5b => ?_)
                refine pOk_bindA (checkT_nOk hp5b) (fun isClose hc10 => ?_)
                cases isClose with
                | true =>
                  first
                    | refine pOk_bind (pOk_ok hp5b) (fun upd pu hupd hpu => ?_)
                    | have hpu := hp5b
                  refine pOk_bind (expectT_pOk hE hpu) (fun z pz hz hpz => ?_)
                  refine pOk_bindN (skipSeparators_posOk hE hpz)
                    (fun p7 hs9 hp7 => ?_)
                  exact pOk_bind (ih33 ts p7 hE hp7)
                    (fun body p8 hb9 hp8 => pOk_ok hp8)
                | false =>
                  refine pOk_bind (ih1 ts BP.None p5b hE hp5b)
                    (fun e2 pe2 he2b hpe2 => ?_)
                  first
                    | refine pOk_bind (pOk_ok hpe2) (fun upd pu hupd hpu => ?_)
                    | have hpu := hpe2
                  refine pOk_bind (expectT_pOk hE hpu) (fun z pz hz hpz => ?_)
                  refine pOk_bindN (skipSeparators_posOk hE hpz)
                    (fun p7 hs9 hp7 => ?_)
                  exact pOk_bind (ih33 ts p7 hE hp7)
                    (fun body p8 hb9 hp8 => pOk_ok hp8)
              | false =>
                refine pOk_bind (ih1 ts BP.None p3b hE hp3b)
                  (fun ec pec hec hpec => ?_)
                first
                  | refine pOk_bind (pOk_ok hpec) (fun cnd pc hcnd hpc => ?_)
                  | have hpc := hpec
                refine pOk_bind (expectT_pOk hE hpc) (fun x2 p5b hx2 hp5b => ?_)
                refine pOk_bindA (checkT_nOk hp5b) (fun isClose hc10 => ?_)
                cases isClose with
                | true =>
                  first
                    | refine pOk_bind (pOk_ok hp5b) (fun upd pu hupd hpu => ?_)
                    | have hpu := hp5b
                  refine pOk_bind (expectT_pOk hE hpu) (fun z pz hz hpz => ?_)
                  refine pOk_bindN (skipSeparators_posOk hE hpz)
                    (fun p7 hs9 hp7 => ?_)
                  exact pOk_bind (ih33 ts p7 hE hp7)
                    (fun body p8 hb9 hp8 => pOk_ok hp8)
                | false =>
                  refine pOk_bind (ih1 ts BP.None p5b hE hp5b)
                    (fun e2 pe2 he2b hpe2 => ?_)
                  first
                    | refine pOk_bind (pOk_ok hpe2) (fun upd pu hupd hpu => ?_)
                    | have hpu := hpe2
                  refine pOk_bind (expectT_pOk hE hpu) (fun z pz hz hpz => ?_)
                  refine pOk_bindN (skipSeparators_posOk hE hpz)
                    (fun p7 hs9 hp7 => ?_)
                  exact pOk_bind (ih33 ts p7 hE hp7)
                    (fun body p8 hb9 hp8 => pOk_ok hp8)
            | false =>
              refine pOk_bind (ih1 ts BP.None p2 hE hp2)
                (fun e p3 he2 hp3 => ?_)
              first
                | refine pOk_bind (pOk_ok hp3) (fun ini pi hini hqq => ?_)
                | have hqq := hp3
              refine pOk_bind (expectT_pOk hE hqq) (fun x p3b hx hp3b => ?_)
              refine pOk_bindA (checkT_nOk hp3b) (fun isSemi2 hc9 => ?_)
              cases isSemi2 with
              | true =>
                first
                  | refine pOk_bind (pOk_ok hp3b) (fun cnd pc hcnd hpc => ?_)
                  | have hpc := hp3b
                refine pOk_bind (expectT_pOk hE hpc) (fun x2 p5b hx2 hp5b => ?_)
                refine pOk_bindA (checkT_nOk hp5b) (fun isClose hc10 => ?_)
                cases isClose with
                | true =>
                  first
                    | refine pOk_bind (pOk_ok hp5b) (fun upd pu hupd hpu => ?_)
                    | have hpu := hp5b
                  refine pOk_bind (expectT_pOk hE hpu) (fun z pz hz hpz => ?_)
                  refine pOk_bindN (skipSeparators_posOk hE hpz)
                    (fun p7 hs9 hp7 => ?_)
                  exact pOk_bind (ih33 ts p7 hE hp7)
                    (fun body p8 hb9 hp8 => pOk_ok hp8)
                | false =>
                  refine pOk_bind (ih1 ts BP.None p5b hE hp5b)
                    (fun e2 pe2 he2b hpe2 => ?_)
                  first
                    | refine pOk_bind (pOk_ok hpe2) (fun upd pu hupd hpu => ?_)
                    | have hpu := hpe2
                  refine pOk_bind (expectT_pOk hE hpu) (fun z pz hz hpz => ?_)
                  refine pOk_bindN (skipSeparators_posOk hE hpz)
                    (fun p7 hs9 hp7 => ?_)
                  exact pOk_bind (ih33 ts p7 hE hp7)
                    (fun body p8 hb9 hp8 => pOk_ok hp8)
              | false =>
                refine pOk_bind (ih1 ts BP.None p3b hE hp3b)
                  (fun ec pec hec hpec => ?_)
                first
                  | refine pOk_bind (pOk_ok hpec) (fun cnd pc hcnd hpc => ?_)
                  | have hpc := hpec
                refine pOk_bind (expectT_pOk hE hpc) (fun x2 p5b hx2 hp5b => ?_)
                refine pOk_bindA (checkT_nOk hp5b) (fun isClose hc10 => ?_)
                cases isClose with
                | true =>
                  first
                    | refine pOk_bind (pOk_ok hp5b) (fun upd pu hupd hpu => ?_)
                    | have hpu := hp5b
                  refine pOk_bind (expectT_pOk hE hpu) (fun z pz hz hpz => ?_)
                  refine pOk_bindN (skipSeparators_posOk hE hpz)
                    (fun p7 hs9 hp7 => ?_)
                  exact pOk_bind (ih33 ts p7 hE hp7)
                    (fun body p8 hb9 hp8 => pOk_ok hp8)
                | false =>
                  refine pOk_bind (ih1 ts BP.None p5b hE hp5b)
                    (fun e2 pe2 he2b hpe2 => ?_)
                  first
                    | refine pOk_bind (pOk_ok hpe2) (fun upd pu hupd hpu => ?_)
                    | have hpu := hpe2
                  refine pOk_bind (expectT_pOk hE hpu) (fun z pz hz hpz => ?_)
                  refine pOk_bindN (skipSeparators_posOk hE hpz)
                    (fun p7 hs9 hp7 => ?_)
                  exact pOk_bind (ih33 ts p7 hE hp7)
                    (fun body p8 hb9 hp8 => pOk_ok hp8)
    · -- parseEnumDecl
      intro ts pos hE hp
      simp only [parseEnumDecl]
      refine pOk_bind (expectT_pOk hE hp) (fun a p1 ha hp1 => ?_)
      refine pOk_bind (expectT_pOk hE hp1) (fun nm p2 hn hp2 => ?_)
      refine pOk_bind (expectT_pOk hE hp2) (fun b p3 hb hp3 => ?_)
      refine pOk_bindN (skipSeparators_posOk hE hp3) (fun p4 hs hp4 => ?_)
      exact ih32 ts _ [] p4 hE hp4
    · -- enumMembersLoop
      intro ts name acc pos hE hp
      simp only [enumMembersLoop]
      refine pOk_bindA (currentT_nOk hp) (fun t ht => ?_)
      split
      · exact pOk_bind (expectT_pOk hE hp) (fun a p1 ha hp1 => pOk_ok hp1)
      · refine pOk_bind (expectT_pOk hE hp) (fun mem p1 hm hp1 => ?_)
        refine pOk_bind (matchT_pOk hE hp1) (fun hasColon p2 hhc hp2 => ?_)
        cases hasColon with
        | true =>
          refine pOk_bind (ih1 ts BP.None p2 hE hp2) (fun e p3 he2 hp3 => ?_)
          first
            | refine pOk_bind (pOk_ok hp3) (fun v pv hv hpv => ?_)
            | have hpv := hp3
          refine pOk_bind (matchT_pOk hE hpv) (fun m p4 hm2 hp4 => ?_)
          refine pOk_bindN (skipSeparators_posOk hE hp4) (fun p5 hs hp5 => ?_)
          exact ih32 ts name _ p5 hE hp5
        | false =>
          first
            | refine pOk_bind (pOk_ok hp2) (fun v pv hv hpv => ?_)
            | have hpv := hp2
          refine pOk_bind (matchT_pOk hE hpv) (fun m p4 hm2 hp4 => ?_)
          refine pOk_bindN (skipSeparators_posOk hE hp4) (fun p5 hs hp5 => ?_)
          exact ih32 ts name _ p5 hE hp5
    · -- parseBlock
      intro ts pos hE hp
      simp only [parseBlock]
      refine pOk_bind (expectT_pOk hE hp) (fun a p1 ha hp1 => ?_)
      refine pOk_bindN (skipSeparators_posOk hE hp1) (fun p2 hs hp2 => ?_)
      exact ih34 ts [] p2 hE hp2
    · -- blockLoop
      intro ts acc pos hE hp
      simp only [blockLoop]
      refine pOk_bindA (currentT_nOk hp) (fun t ht => ?_)
      split
      · exact pOk_bind (expectT_pOk hE hp) (fun a p1 ha hp1 => pOk_ok hp1)
      · refine pOk_bind (ih10 ts pos hE hp) (fun st p1 hst hp1 => ?_)
        refine pOk_bindN (skipSeparators_posOk hE hp1) (fun p2 hs hp2 => ?_)
        exact ih34 ts _ p2 hE hp2
    · -- parseExprStmt
      intro ts pos hE hp
      simp only [parseExprStmt]
      refine pOk_bind (ih1 ts BP.None pos hE hp) (fun e p1 he2 hp1 => ?_)
      exact pOk_bindN (eatSeparator_posOk hE hp1) (fun p2 hes hp2 => pOk_ok hp2)
    · -- finishArrowFunc
      intro ts pos hE hp
      simp only [finishArrowFunc]
      exact ih37 ts [] pos hE hp
    · -- arrowParamsLoop
      intro ts acc pos hE hp
      simp only [arrowParamsLoop]
      refine pOk_bindA (currentT_nOk hp) (fun t ht => ?_)
      split
      · refine pOk_bind (expectT_pOk hE hp) (fun a p1 ha hp1 => ?_)
        refine pOk_bind (expectT_pOk hE hp1) (fun b p2 hb hp2 => ?_)
        refine pOk_bindN (skipSeparators_posOk hE hp2) (fun p3 hs hp3 => ?_)
        exact pOk_bind (ih33 ts p3 hE hp3) (fun body p4 hb2 hp4 => pOk_ok hp4)
      · refine pOk_bind (expectT_pOk hE hp) (fun tok p1 ht2 hp1 => ?_)
        refine pOk_bind (matchT_pOk hE hp1) (fun m p2 hm hp2 => ?_)
        cases m with
        | true => exact ih37 ts _ p2 hE hp2
        | false =>
          refine pOk_bind (expectT_pOk hE hp2) (fun a p3 ha hp3 => ?_)
          refine pOk_bind (expectT_pOk hE hp3) (fun b p4 hb hp4 => ?_)
          refine pOk_bindN (skipSeparators_posOk hE hp4) (fun p5 hs hp5 => ?_)
          exact pOk_bind (ih33 ts p5 hE hp5)
            (fun body p6 hb2 hp6 => pOk_ok hp6)
    · -- parseProgram
      intro ts pos hE hp
      simp only [parseProgram]
      refine pOk_bindN (skipSeparators_posOk hE hp) (fun p1 hs hp1 => ?_)
      exact ih39 ts [] p1 hE hp1
    · -- programLoop
      intro ts acc pos hE hp
      simp only [programLoop]
      refine pOk_bindA (atEndT_nOk hp) (fun ended hend => ?_)
      cases ended with
      | true => exact pOk_ok hp
      | false =>
        refine pOk_bind (ih10 ts pos hE hp) (fun st p1 hst hp1 => ?_)
        refine pOk_bindN (skipSeparators_posOk hE hp1) (fun p2 hs hp2 => ?_)
        exact ih39 ts _ p2 hE hp2

/-- C10: for every token list ending in the EOF sentinel, the parser never
reads past the end of the token array: `current()` always returns a defined
token, `advance()` leaves the position unchanged on the EOF token (EOF is
never consumed), and the entry points `parseExpr`, `parseStmt` and
`parseProgram` (at any fuel) never hit the out-of-bounds error and always
return an in-bounds position. -/
theorem c10_parser_stays_in_bounds :
    ∀ (ts : List Token) (fuel pos : Nat), endsEOF ts → pos < ts.length →
      (∃ t, currentT ts pos = .ok t) ∧
      (∀ (hq : pos < ts.length), (ts.get ⟨pos, hq⟩).kind = .EOF →
        advanceT ts pos = .ok (ts.get ⟨pos, hq⟩, pos)) ∧
      (∀ minBP, POk ts (parseExpr fuel ts minBP pos)) ∧
      POk ts (parseStmt fuel ts pos) ∧
      POk ts (parseProgram fuel ts pos) := by
  intro ts fuel pos hE hp
  obtain ⟨hPE, _, _, _, _, _, _, _, _, hPS, _, _, _, _, _, _, _, _, _, _, _,
    _, _, _, _, _, _, _, _, _, _, _, _, _, _, _, _, hPP, _⟩ := parserSafe fuel
  refine ⟨⟨ts.get ⟨pos, hp⟩, currentT_eq hp⟩, ?_, ?_, ?_, ?_⟩
  · intro hq hEOF
    rw [advanceT_eq hq, if_pos hEOF]
  · intro minBP
    exact hPE ts minBP pos hE hp
  · exact hPS ts pos hE hp
  · exact hPP ts pos hE hp

unseal skipSeparators in
/-- C10 witness: the bound-safety components at a concrete EOF-terminated
token list. -/
theorem c10_parser_stays_in_bounds_witness :
    endsEOF [(⟨.EOF, ""⟩ : Token)] ∧
    currentT [(⟨.EOF, ""⟩ : Token)] 0 = .ok ⟨.EOF, ""⟩ ∧
    advanceT [(⟨.EOF, ""⟩ : Token)] 0 = .ok (⟨.EOF, ""⟩, 0) ∧
    parseProgram 3 [(⟨.EOF, ""⟩ : Token)] 0 = .ok ([], 0) ∧
    POk [(⟨.EOF, ""⟩ : Token)] (parseProgram 3 [⟨.EOF, ""⟩] 0) := by
  have h := c10_parser_stays_in_bounds [⟨.EOF, ""⟩] 3 0 rfl (by decide)
  exact ⟨rfl, rfl, h.2.1 (by decide) rfl, rfl, h.2.2.2.2⟩

end Fepl
